import Mathlib

/-!
# LVM2 format1 metadata codec and activation engine

A shallow embedding of `lib/format1/disk-rep.c` and `lib/activate/activate.c`.

* Machine integers are natural numbers; 32-bit arithmetic is reduced `% 2^32`
  where the C expression is evaluated in `uint32_t`.
* A byte is a natural number below 256; byte arrays are lists of bytes.
* `be` is the byte order of the host: `false` on a little-endian host, `true`
  on a big-endian host.  The disk format is little-endian.
* `unsigned long` and `size_t` are 64 bits wide, so sums and products of
  32-bit quantities held in them do not wrap.
* The `int` counters of the loops (`i`, `read`, `num_read`, `w`) are natural
  numbers: no loop is followed past `INT_MAX` iterations.
* A loop of the source is a recursive function with a bound on the number of
  iterations as its first argument; the section on loop bounds shows that the
  bound each caller passes never stops a loop early.
-/

set_option maxRecDepth 100000

namespace Lvm

/-! ## Constants and byte-level helpers -/

/-- Modelled from the spec: `SECTOR_SIZE` is declared outside the sources; §6.1 gives
"Sector size = 512 bytes". -/
def SECTOR_SIZE : Nat := 512

/-- Modelled from the spec: `NAME_LEN`, the length of the fixed name and uuid arrays, is
declared outside the sources (disk-rep.h); the format1 value is 128. -/
def NAME_LEN : Nat := 128

/-- Modulus of `uint16_t`. -/
def U16 : Nat := 65536

/-- Modulus of `uint32_t`. -/
def U32 : Nat := 4294967296

/-- Modulus of `uint64_t`. -/
def U64 : Nat := 18446744073709551616

/-- The `n` bytes of `v`, least significant first. -/
def le_bytes : Nat → Nat → List Nat
  | 0, _ => []
  | n + 1, v => v % 256 :: le_bytes n (v / 256)

/-- The number whose bytes, least significant first, are `bs`. -/
def le_val : List Nat → Nat
  | [] => 0
  | b :: bs => b % 256 + 256 * le_val bs

/-- Byte swap of an `n`-byte integer: the same bytes in the opposite order. -/
def bswap (n v : Nat) : Nat := le_val (le_bytes n v).reverse

/-- Modelled from the spec: `xlate16` (xlate.h is outside the sources) converts between
disk (little-endian) and host order: the identity on a little-endian host, a byte swap on a
big-endian host. -/
def xlate16 (be : Bool) (v : Nat) : Nat := if be then bswap 2 v else v

/-- Modelled from the spec: `xlate32`, as `xlate16` for 32-bit integers. -/
def xlate32 (be : Bool) (v : Nat) : Nat := if be then bswap 4 v else v

/-- Modelled from the spec: `xlate64`, as `xlate16` for 64-bit integers. -/
def xlate64 (be : Bool) (v : Nat) : Nat := if be then bswap 8 v else v

/-- The bytes an `n`-byte integer occupies in host memory. -/
def host_bytes (be : Bool) (n v : Nat) : List Nat :=
  if be then (le_bytes n v).reverse else le_bytes n v

/-- The integer a run of bytes of host memory holds. -/
def host_val (be : Bool) (bs : List Nat) : Nat :=
  if be then le_val bs.reverse else le_val bs

/-- A byte array of exactly `n` bytes: the list cut or zero-filled to `n` entries. -/
def fix_bytes (n : Nat) (l : List Nat) : List Nat :=
  ((l.map (· % 256)) ++ List.replicate n 0).take n

/-- The `n` bytes at offset `off` of a memory image (zero-filled when the image is short). -/
def field (m : List Nat) (off n : Nat) : List Nat := fix_bytes n (m.drop off)

/-- A list is a byte array of length `n`. -/
def is_bytes (n : Nat) (l : List Nat) : Prop := l.length = n ∧ ∀ b ∈ l, b < 256

instance (n : Nat) (l : List Nat) : Decidable (is_bytes n l) := by
  unfold is_bytes; exact inferInstance

/-! ## Disk records (disk-rep.h)

The header that declares the records is outside the sources.  The integer fields are the
ones the `_xlate_*` routines enumerate, with the widths of the `xx16`/`xx32` macro used on
each; the byte arrays are the format1 ones. -/

/-- Region descriptor `{ base, size }`. -/
structure data_area where
  base : Nat
  size : Nat
deriving DecidableEq, Repr

/-- Modelled from the spec: `struct pv_disk` (§3.1), the PV record at byte 0 of the device. -/
structure pv_disk where
  id : List Nat
  version : Nat
  pv_on_disk : data_area
  vg_on_disk : data_area
  pv_uuidlist_on_disk : data_area
  lv_on_disk : data_area
  pe_on_disk : data_area
  pv_uuid : List Nat
  vg_name : List Nat
  system_id : List Nat
  pv_major : Nat
  pv_number : Nat
  pv_status : Nat
  pv_allocatable : Nat
  pv_size : Nat
  lv_cur : Nat
  pe_size : Nat
  pe_total : Nat
  pe_allocated : Nat
  pe_start : Nat
deriving DecidableEq, Repr

/-- Modelled from the spec: `struct lv_disk` (§3.1), one slot of the LV table. -/
structure lv_disk where
  lv_name : List Nat
  vg_name : List Nat
  lv_access : Nat
  lv_status : Nat
  lv_open : Nat
  lv_dev : Nat
  lv_number : Nat
  lv_mirror_copies : Nat
  lv_recovery : Nat
  lv_schedule : Nat
  lv_size : Nat
  lv_snapshot_minor : Nat
  lv_chunk_size : Nat
  dummy : Nat
  lv_allocated_le : Nat
  lv_stripes : Nat
  lv_stripesize : Nat
  lv_badblock : Nat
  lv_allocation : Nat
  lv_io_timeout : Nat
  lv_read_ahead : Nat
deriving DecidableEq, Repr

/-- Modelled from the spec: `struct vg_disk` (§3.1), the VG record. -/
structure vg_disk where
  vg_uuid : List Nat
  vg_number : Nat
  vg_access : Nat
  vg_status : Nat
  lv_max : Nat
  lv_cur : Nat
  lv_open : Nat
  pv_max : Nat
  pv_cur : Nat
  pv_act : Nat
  dummy : Nat
  vgda : Nat
  pe_size : Nat
  pe_total : Nat
  pe_allocated : Nat
  pvg_total : Nat
deriving DecidableEq, Repr

/-- Modelled from the spec: `struct pe_disk` (§3.1), one entry of the PE map. -/
structure pe_disk where
  lv_num : Nat
  le_num : Nat
deriving DecidableEq, Repr

/-! ## Endian conversion (disk-rep.c, lines 22-94) -/

/-- The two `xx32` of a region descriptor. -/
def _xlate_area (be : Bool) (a : data_area) : data_area :=
  { base := xlate32 be a.base, size := xlate32 be a.size }

/-- `_xlate_pvd`. -/
def _xlate_pvd (be : Bool) (disk : pv_disk) : pv_disk :=
  { disk with
    version := xlate16 be disk.version
    pv_on_disk := _xlate_area be disk.pv_on_disk
    vg_on_disk := _xlate_area be disk.vg_on_disk
    pv_uuidlist_on_disk := _xlate_area be disk.pv_uuidlist_on_disk
    lv_on_disk := _xlate_area be disk.lv_on_disk
    pe_on_disk := _xlate_area be disk.pe_on_disk
    pv_major := xlate32 be disk.pv_major
    pv_number := xlate32 be disk.pv_number
    pv_status := xlate32 be disk.pv_status
    pv_allocatable := xlate32 be disk.pv_allocatable
    pv_size := xlate32 be disk.pv_size
    lv_cur := xlate32 be disk.lv_cur
    pe_size := xlate32 be disk.pe_size
    pe_total := xlate32 be disk.pe_total
    pe_allocated := xlate32 be disk.pe_allocated
    pe_start := xlate32 be disk.pe_start }

/-- `_xlate_lvd`. -/
def _xlate_lvd (be : Bool) (disk : lv_disk) : lv_disk :=
  { disk with
    lv_access := xlate32 be disk.lv_access
    lv_status := xlate32 be disk.lv_status
    lv_open := xlate32 be disk.lv_open
    lv_dev := xlate32 be disk.lv_dev
    lv_number := xlate32 be disk.lv_number
    lv_mirror_copies := xlate32 be disk.lv_mirror_copies
    lv_recovery := xlate32 be disk.lv_recovery
    lv_schedule := xlate32 be disk.lv_schedule
    lv_size := xlate32 be disk.lv_size
    lv_snapshot_minor := xlate32 be disk.lv_snapshot_minor
    lv_chunk_size := xlate16 be disk.lv_chunk_size
    dummy := xlate16 be disk.dummy
    lv_allocated_le := xlate32 be disk.lv_allocated_le
    lv_stripes := xlate32 be disk.lv_stripes
    lv_stripesize := xlate32 be disk.lv_stripesize
    lv_badblock := xlate32 be disk.lv_badblock
    lv_allocation := xlate32 be disk.lv_allocation
    lv_io_timeout := xlate32 be disk.lv_io_timeout
    lv_read_ahead := xlate32 be disk.lv_read_ahead }

/-- `_xlate_vgd`. -/
def _xlate_vgd (be : Bool) (disk : vg_disk) : vg_disk :=
  { disk with
    vg_number := xlate32 be disk.vg_number
    vg_access := xlate32 be disk.vg_access
    vg_status := xlate32 be disk.vg_status
    lv_max := xlate32 be disk.lv_max
    lv_cur := xlate32 be disk.lv_cur
    lv_open := xlate32 be disk.lv_open
    pv_max := xlate32 be disk.pv_max
    pv_cur := xlate32 be disk.pv_cur
    pv_act := xlate32 be disk.pv_act
    dummy := xlate32 be disk.dummy
    vgda := xlate32 be disk.vgda
    pe_size := xlate32 be disk.pe_size
    pe_total := xlate32 be disk.pe_total
    pe_allocated := xlate32 be disk.pe_allocated
    pvg_total := xlate32 be disk.pvg_total }

/-- The loop body of `_xlate_extents`: both fields of one entry. -/
def _xlate_extent (be : Bool) (e : pe_disk) : pe_disk :=
  { lv_num := xlate16 be e.lv_num, le_num := xlate16 be e.le_num }

/-- The iterations `i = 0, ..., n - 1` of the loop of `_xlate_extents`: the first `n`
entries are converted, the others are left alone. -/
def _xlate_extents_loop (be : Bool) : List pe_disk → Nat → List pe_disk
  | [], _ => []
  | es, 0 => es
  | e :: es, n + 1 => _xlate_extent be e :: _xlate_extents_loop be es n

/-- `_xlate_extents`: `count` is an `int`, and `for (i = 0; i < count; i++)` makes `count`
iterations when `count` is positive and none otherwise. -/
def _xlate_extents (be : Bool) (extents : List pe_disk) (count : Int) : List pe_disk :=
  _xlate_extents_loop be extents count.toNat

/-- The `int` a `uint32_t` argument becomes (32-bit two's complement): `_read_extents` and
`_write_extents` pass `pe_total` for the `int count` of `_xlate_extents`. -/
def int_of_u32 (n : Nat) : Int :=
  if n % U32 < 2147483648 then ((n % U32 : Nat) : Int) else ((n % U32 : Nat) : Int) - (U32 : Int)

/-! ## Version handling (disk-rep.c, lines 99-120) -/

/-- `_munge_formats`: `none` is the `return 0` of the `default` case, `some` the record as
the function leaves it when it returns 1.  The arithmetic is `uint32_t`. -/
def _munge_formats (pvd : pv_disk) : Option pv_disk :=
  if pvd.version = 1 then
    some { pvd with
      pe_start := ((pvd.pe_on_disk.base + pvd.pe_on_disk.size) % U32) / SECTOR_SIZE }
  else if pvd.version = 2 then
    let pe_start := (pvd.pe_start * SECTOR_SIZE) % U32
    some { pvd with
      version := 1
      pe_on_disk :=
        { pvd.pe_on_disk with size := (pe_start + U32 - pvd.pe_on_disk.base % U32) % U32 } }
  else
    none

/-! ## Memory images of the records

A record is read from and written to the device as the bytes it occupies in host memory
(`dev_read`/`dev_write` of `sizeof` bytes); the offsets are those of the format1 layout,
which has no padding. -/

/-- `sizeof(struct pv_disk)`. -/
def sizeof_pv_disk : Nat := 468

/-- `sizeof(struct lv_disk)`. -/
def sizeof_lv_disk : Nat := 328

/-- `sizeof(struct vg_disk)`. -/
def sizeof_vg_disk : Nat := 188

/-- `sizeof(struct pe_disk)`. -/
def sizeof_pe_disk : Nat := 4

/-- Host memory of a region descriptor. -/
def mem_area (be : Bool) (a : data_area) : List Nat :=
  host_bytes be 4 a.base ++ host_bytes be 4 a.size

/-- The region descriptor at offset `off` of a memory image. -/
def area_of_mem (be : Bool) (m : List Nat) (off : Nat) : data_area :=
  { base := host_val be (field m off 4), size := host_val be (field m (off + 4) 4) }

/-- Host memory of a `pv_disk`. -/
def mem_pvd (be : Bool) (d : pv_disk) : List Nat :=
  fix_bytes 2 d.id ++ (host_bytes be 2 d.version ++ (mem_area be d.pv_on_disk ++
  (mem_area be d.vg_on_disk ++ (mem_area be d.pv_uuidlist_on_disk ++
  (mem_area be d.lv_on_disk ++ (mem_area be d.pe_on_disk ++
  (fix_bytes NAME_LEN d.pv_uuid ++ (fix_bytes NAME_LEN d.vg_name ++
  (fix_bytes NAME_LEN d.system_id ++ (host_bytes be 4 d.pv_major ++
  (host_bytes be 4 d.pv_number ++ (host_bytes be 4 d.pv_status ++
  (host_bytes be 4 d.pv_allocatable ++ (host_bytes be 4 d.pv_size ++
  (host_bytes be 4 d.lv_cur ++ (host_bytes be 4 d.pe_size ++
  (host_bytes be 4 d.pe_total ++ (host_bytes be 4 d.pe_allocated ++
  host_bytes be 4 d.pe_start))))))))))))))))))

/-- The `pv_disk` a memory image holds. -/
def pvd_of_mem (be : Bool) (m : List Nat) : pv_disk :=
  { id := field m 0 2
    version := host_val be (field m 2 2)
    pv_on_disk := area_of_mem be m 4
    vg_on_disk := area_of_mem be m 12
    pv_uuidlist_on_disk := area_of_mem be m 20
    lv_on_disk := area_of_mem be m 28
    pe_on_disk := area_of_mem be m 36
    pv_uuid := field m 44 NAME_LEN
    vg_name := field m 172 NAME_LEN
    system_id := field m 300 NAME_LEN
    pv_major := host_val be (field m 428 4)
    pv_number := host_val be (field m 432 4)
    pv_status := host_val be (field m 436 4)
    pv_allocatable := host_val be (field m 440 4)
    pv_size := host_val be (field m 444 4)
    lv_cur := host_val be (field m 448 4)
    pe_size := host_val be (field m 452 4)
    pe_total := host_val be (field m 456 4)
    pe_allocated := host_val be (field m 460 4)
    pe_start := host_val be (field m 464 4) }

/-- Host memory of an `lv_disk`. -/
def mem_lvd (be : Bool) (d : lv_disk) : List Nat :=
  fix_bytes NAME_LEN d.lv_name ++ (fix_bytes NAME_LEN d.vg_name ++
  (host_bytes be 4 d.lv_access ++ (host_bytes be 4 d.lv_status ++
  (host_bytes be 4 d.lv_open ++ (host_bytes be 4 d.lv_dev ++
  (host_bytes be 4 d.lv_number ++ (host_bytes be 4 d.lv_mirror_copies ++
  (host_bytes be 4 d.lv_recovery ++ (host_bytes be 4 d.lv_schedule ++
  (host_bytes be 4 d.lv_size ++ (host_bytes be 4 d.lv_snapshot_minor ++
  (host_bytes be 2 d.lv_chunk_size ++ (host_bytes be 2 d.dummy ++
  (host_bytes be 4 d.lv_allocated_le ++ (host_bytes be 4 d.lv_stripes ++
  (host_bytes be 4 d.lv_stripesize ++ (host_bytes be 4 d.lv_badblock ++
  (host_bytes be 4 d.lv_allocation ++ (host_bytes be 4 d.lv_io_timeout ++
  host_bytes be 4 d.lv_read_ahead)))))))))))))))))))

/-- The `lv_disk` a memory image holds. -/
def lvd_of_mem (be : Bool) (m : List Nat) : lv_disk :=
  { lv_name := field m 0 NAME_LEN
    vg_name := field m 128 NAME_LEN
    lv_access := host_val be (field m 256 4)
    lv_status := host_val be (field m 260 4)
    lv_open := host_val be (field m 264 4)
    lv_dev := host_val be (field m 268 4)
    lv_number := host_val be (field m 272 4)
    lv_mirror_copies := host_val be (field m 276 4)
    lv_recovery := host_val be (field m 280 4)
    lv_schedule := host_val be (field m 284 4)
    lv_size := host_val be (field m 288 4)
    lv_snapshot_minor := host_val be (field m 292 4)
    lv_chunk_size := host_val be (field m 296 2)
    dummy := host_val be (field m 298 2)
    lv_allocated_le := host_val be (field m 300 4)
    lv_stripes := host_val be (field m 304 4)
    lv_stripesize := host_val be (field m 308 4)
    lv_badblock := host_val be (field m 312 4)
    lv_allocation := host_val be (field m 316 4)
    lv_io_timeout := host_val be (field m 320 4)
    lv_read_ahead := host_val be (field m 324 4) }

/-- Host memory of a `vg_disk`. -/
def mem_vgd (be : Bool) (d : vg_disk) : List Nat :=
  fix_bytes NAME_LEN d.vg_uuid ++ (host_bytes be 4 d.vg_number ++
  (host_bytes be 4 d.vg_access ++ (host_bytes be 4 d.vg_status ++
  (host_bytes be 4 d.lv_max ++ (host_bytes be 4 d.lv_cur ++
  (host_bytes be 4 d.lv_open ++ (host_bytes be 4 d.pv_max ++
  (host_bytes be 4 d.pv_cur ++ (host_bytes be 4 d.pv_act ++
  (host_bytes be 4 d.dummy ++ (host_bytes be 4 d.vgda ++
  (host_bytes be 4 d.pe_size ++ (host_bytes be 4 d.pe_total ++
  (host_bytes be 4 d.pe_allocated ++ host_bytes be 4 d.pvg_total))))))))))))))

/-- The `vg_disk` a memory image holds. -/
def vgd_of_mem (be : Bool) (m : List Nat) : vg_disk :=
  { vg_uuid := field m 0 NAME_LEN
    vg_number := host_val be (field m 128 4)
    vg_access := host_val be (field m 132 4)
    vg_status := host_val be (field m 136 4)
    lv_max := host_val be (field m 140 4)
    lv_cur := host_val be (field m 144 4)
    lv_open := host_val be (field m 148 4)
    pv_max := host_val be (field m 152 4)
    pv_cur := host_val be (field m 156 4)
    pv_act := host_val be (field m 160 4)
    dummy := host_val be (field m 164 4)
    vgda := host_val be (field m 168 4)
    pe_size := host_val be (field m 172 4)
    pe_total := host_val be (field m 176 4)
    pe_allocated := host_val be (field m 180 4)
    pvg_total := host_val be (field m 184 4) }

/-- Host memory of a `pe_disk`. -/
def mem_pe (be : Bool) (e : pe_disk) : List Nat :=
  host_bytes be 2 e.lv_num ++ host_bytes be 2 e.le_num

/-- The `pe_disk` a memory image holds. -/
def pe_of_mem (be : Bool) (m : List Nat) : pe_disk :=
  { lv_num := host_val be (field m 0 2), le_num := host_val be (field m 2 2) }

/-- Host memory of an array of `pe_disk`. -/
def mem_extents (be : Bool) : List pe_disk → List Nat
  | [] => []
  | e :: es => mem_pe be e ++ mem_extents be es

/-- The array of `count` entries a memory image holds. -/
def extents_of_mem (be : Bool) : Nat → List Nat → List pe_disk
  | 0, _ => []
  | count + 1, m => pe_of_mem be m :: extents_of_mem be count (m.drop sizeof_pe_disk)

/-! ## Devices and the in-core PV view -/

/-- Modelled from the spec: a block device (§6.4) is a name and the bytes it holds. -/
structure device where
  name : List Char
  data : List Nat
deriving DecidableEq, Repr

/-- Modelled from the spec: `dev_name` (§6.4) returns the device path. -/
def dev_name (dev : device) : List Char := dev.name

/-- Modelled from the spec: `dev_read` (§6.4) hands back the bytes transferred, the `len`
bytes at `pos` or fewer when the device ends before; the device is as it was. -/
def dev_read (dev : device) (pos len : Nat) : List Nat × device :=
  ((dev.data.drop pos).take len, dev)

/-- Modelled from the spec: `dev_write` (§6.4) stores the first `len` bytes of `buf` at
`pos` and returns the number of bytes transferred, fewer than `len` when the device (or the
buffer) ends before. -/
def dev_write (dev : device) (pos len : Nat) (buf : List Nat) : Nat × device :=
  let n := min (min len buf.length) (dev.data.length - pos)
  (n, { dev with data := dev.data.take pos ++ (buf.take n ++ dev.data.drop (pos + n)) })

/-- Modelled from the spec: `dev_zero` (§6.4) fills `len` bytes at `pos` with zeros; it
returns 0 when they do not all fit on the device. -/
def dev_zero (dev : device) (pos len : Nat) : Bool × device :=
  let r := dev_write dev pos len (List.replicate len 0)
  (decide (r.1 = len), r.2)

/-- Modelled from the spec: `list_add` (list.h is outside the sources) puts the element at
the end of the list, so that `list_iterate` visits the elements in insertion order (§4.G). -/
def list_add {α : Type} (head : List α) (elem : α) : List α := head ++ [elem]

/-- The in-core PV view, `struct disk_list` without its links: the device is passed next to
it.  `uuid_list.uuid` is an array of `NAME_LEN + 1` bytes. -/
structure disk_list where
  pvd : pv_disk
  vgd : vg_disk
  uuids : List (List Nat)
  lvds : List lv_disk
  extents : List pe_disk
deriving DecidableEq, Repr

/-- The C string held in a byte array: the bytes before the first NUL. -/
def cstr (s : List Nat) : List Nat := s.takeWhile (· ≠ 0)

/-- `strcmp` on the bytes of memory that start at its two arguments: the difference at the
first position where they differ, 0 when they are the same up to a NUL.  Memory is followed
as far as it is modelled; where a list ends the string ends. -/
def strcmp : List Nat → List Nat → Int
  | [], [] => 0
  | [], b :: _ => - (b : Int)
  | a :: _, [] => (a : Int)
  | a :: as, b :: bs =>
    if a = b then (if a = 0 then 0 else strcmp as bs) else (a : Int) - (b : Int)

/-! ## Reading (disk-rep.c, lines 122-306)

Every function returns the device next to its result; `none` is the `fail` path. -/

/-- `_read_pvd`. -/
def _read_pvd (be : Bool) (data : disk_list) (dev : device) : Option disk_list × device :=
  let r := dev_read dev 0 sizeof_pv_disk
  if r.1.length ≠ sizeof_pv_disk then (none, r.2)
  else (some { data with pvd := _xlate_pvd be (pvd_of_mem be r.1) }, r.2)

/-- `_read_lvd`. -/
def _read_lvd (be : Bool) (dev : device) (pos : Nat) : Option lv_disk × device :=
  let r := dev_read dev pos sizeof_lv_disk
  if r.1.length ≠ sizeof_lv_disk then (none, r.2)
  else (some (_xlate_lvd be (lvd_of_mem be r.1)), r.2)

/-- `_read_vgd`. -/
def _read_vgd (be : Bool) (data : disk_list) (dev : device) : Option disk_list × device :=
  let pos := data.pvd.vg_on_disk.base
  let r := dev_read dev pos sizeof_vg_disk
  if r.1.length ≠ sizeof_vg_disk then (none, r.2)
  else (some { data with vgd := _xlate_vgd be (vgd_of_mem be r.1) }, r.2)

/-- The `while` loop of `_read_uuids`.  The first argument bounds the number of
iterations; `pv_cur - num_read` iterations are always enough. -/
def _read_uuids_loop (pv_cur end_ : Nat) :
    Nat → Nat → Nat → List (List Nat) → device → Option (List (List Nat)) × device
  | 0, _, _, uuids, dev => (some uuids, dev)
  | fuel + 1, pos, num_read, uuids, dev =>
    if pos < end_ ∧ num_read < pv_cur then
      let r := dev_read dev pos NAME_LEN
      if r.1.length ≠ NAME_LEN then (none, r.2)
      else
        _read_uuids_loop pv_cur end_ fuel (pos + NAME_LEN) (num_read + 1)
          (list_add uuids (r.1 ++ [0])) r.2
    else (some uuids, dev)

/-- `_read_uuids`. -/
def _read_uuids (data : disk_list) (dev : device) : Option disk_list × device :=
  let pos := data.pvd.pv_uuidlist_on_disk.base
  let end_ := pos + data.pvd.pv_uuidlist_on_disk.size
  let r := _read_uuids_loop data.vgd.pv_cur end_ data.vgd.pv_cur pos 0 data.uuids dev
  (r.1.map (fun u => { data with uuids := u }), r.2)

/-- `_check_lvd`. -/
def _check_lvd (lvd : lv_disk) : Bool := !(lvd.lv_name.getD 0 0 = 0)

/-- The `for` loop of `_read_lvs`.  The first argument bounds the number of iterations;
`lv_max - i` iterations are always enough. -/
def _read_lvs_loop (be : Bool) (base lv_max lv_cur : Nat) :
    Nat → Nat → Nat → List lv_disk → device → Option (List lv_disk) × device
  | 0, _, _, lvds, dev => (some lvds, dev)
  | fuel + 1, i, read, lvds, dev =>
    if i < lv_max ∧ read < lv_cur then
      let pos := base + i * sizeof_lv_disk
      match _read_lvd be dev pos with
      | (none, dev) => (none, dev)
      | (some lvd, dev) =>
        if !_check_lvd lvd then
          _read_lvs_loop be base lv_max lv_cur fuel (i + 1) read lvds dev
        else
          _read_lvs_loop be base lv_max lv_cur fuel (i + 1) (read + 1) (list_add lvds lvd) dev
    else (some lvds, dev)

/-- `_read_lvs`. -/
def _read_lvs (be : Bool) (data : disk_list) (dev : device) : Option disk_list × device :=
  let r := _read_lvs_loop be data.pvd.lv_on_disk.base data.vgd.lv_max data.vgd.lv_cur
    data.vgd.lv_max 0 0 data.lvds dev
  (r.1.map (fun l => { data with lvds := l }), r.2)

/-- `_read_extents`. -/
def _read_extents (be : Bool) (data : disk_list) (dev : device) : Option disk_list × device :=
  let len := sizeof_pe_disk * data.pvd.pe_total
  let pos := data.pvd.pe_on_disk.base
  let r := dev_read dev pos len
  if r.1.length ≠ len then (none, r.2)
  else
    (some { data with
      extents := _xlate_extents be (extents_of_mem be data.pvd.pe_total r.1)
        (int_of_u32 data.pvd.pe_total) },
     r.2)

/-- The bytes of host memory from the member `vg_name` of an in-core `pv_disk` to the end
of the record: `vg_name`, then `system_id`, then the ten 32-bit fields in the byte order of
the host.  A string function that is handed `pvd.vg_name` reads them in this order, so a
`vg_name` without NUL in its `NAME_LEN` bytes runs on into `system_id`.  What the block holds
after the record is not modelled. -/
def vg_name_memory (be : Bool) (d : pv_disk) : List Nat :=
  fix_bytes NAME_LEN d.vg_name ++
  (fix_bytes NAME_LEN d.system_id ++ (host_bytes be 4 d.pv_major ++
  (host_bytes be 4 d.pv_number ++ (host_bytes be 4 d.pv_status ++
  (host_bytes be 4 d.pv_allocatable ++ (host_bytes be 4 d.pv_size ++
  (host_bytes be 4 d.lv_cur ++ (host_bytes be 4 d.pe_size ++
  (host_bytes be 4 d.pe_total ++ (host_bytes be 4 d.pe_allocated ++
  host_bytes be 4 d.pe_start))))))))))

/-- The orphan test of `read_disk`, line 268: `data->pvd.vg_name == '\0'`.  `vg_name` is an
array member of the record, so the expression compares the address of the array with the
null pointer constant, and the address of a member of an allocated block is never null:
the test is false whatever the record holds. -/
def vg_name_is_null (_pvd : pv_disk) : Bool := false

/-- `read_disk`.  `mem` is the block `pool_alloc` hands out, with whatever it holds;
`vg_name` is `none` for a null pointer and the bytes of the caller's string otherwise.  The
second argument of the `strcmp` of line 273 points into the record, at `vg_name`.
Allocation is taken to succeed. -/
def read_disk (be : Bool) (dev : device) (mem : disk_list) (vg_name : Option (List Nat)) :
    Option disk_list × device :=
  let data : disk_list := { mem with uuids := [], lvds := [] }
  match _read_pvd be data dev with
  | (none, dev) => (none, dev)
  | (some data, dev) =>
    if data.pvd.id.getD 0 0 ≠ 72 ∨ data.pvd.id.getD 1 0 ≠ 77 then (none, dev)
    else
      match _munge_formats data.pvd with
      | none => (none, dev)
      | some pvd =>
        let data := { data with pvd := pvd }
        if vg_name_is_null data.pvd then (some data, dev)
        else if (match vg_name with
                 | some n => decide (strcmp n (vg_name_memory be data.pvd) ≠ 0)
                 | none => false) then (none, dev)
        else
          match _read_vgd be data dev with
          | (none, dev) => (none, dev)
          | (some data, dev) =>
            match _read_uuids data dev with
            | (none, dev) => (none, dev)
            | (some data, dev) =>
              match _read_lvs be data dev with
              | (none, dev) => (none, dev)
              | (some data, dev) =>
                match _read_extents be data dev with
                | (none, dev) => (none, dev)
                | (some data, dev) => (some data, dev)

/-- `read_pvs_in_vg`: the devices are the ones the iterator yields, in order; the result is
the list `head` with the views added and the returned flag. -/
def read_pvs_in_vg (be : Bool) (vg_name : Option (List Nat)) (mem : disk_list) :
    List device → List disk_list → Bool × List disk_list
  | [], head => (!head.isEmpty, head)
  | dev :: rest, head =>
    match (read_disk be dev mem vg_name).1 with
    | some data => read_pvs_in_vg be vg_name mem rest (list_add head data)
    | none => read_pvs_in_vg be vg_name mem rest head

/-! ## Writing (disk-rep.c, lines 334-472)

Every function returns its flag, the view as the function leaves it, and the device. -/

/-- `_write_vgd`. -/
def _write_vgd (be : Bool) (data : disk_list) (dev : device) : Bool × disk_list × device :=
  let pos := data.pvd.vg_on_disk.base
  let vgd := _xlate_vgd be data.vgd
  let r := dev_write dev pos sizeof_vg_disk (mem_vgd be vgd)
  if r.1 ≠ sizeof_vg_disk then (false, { data with vgd := vgd }, r.2)
  else (true, { data with vgd := _xlate_vgd be vgd }, r.2)

/-- The `list_iterate` loop of `_write_uuids`. -/
def _write_uuids_loop (end_ : Nat) : List (List Nat) → Nat → device → Bool × device
  | [], _, dev => (true, dev)
  | ul :: rest, pos, dev =>
    if pos ≥ end_ then (false, dev)
    else
      let r := dev_write dev pos NAME_LEN (fix_bytes NAME_LEN ul)
      if r.1 ≠ NAME_LEN then (false, r.2)
      else _write_uuids_loop end_ rest (pos + NAME_LEN) r.2

/-- `_write_uuids`. -/
def _write_uuids (data : disk_list) (dev : device) : Bool × disk_list × device :=
  let pos := data.pvd.pv_uuidlist_on_disk.base
  let end_ := pos + data.pvd.pv_uuidlist_on_disk.size
  let r := _write_uuids_loop end_ data.uuids pos dev
  (r.1, data, r.2)

/-- `_write_lvd`. -/
def _write_lvd (be : Bool) (dev : device) (pos : Nat) (disk : lv_disk) :
    Bool × lv_disk × device :=
  let d := _xlate_lvd be disk
  let r := dev_write dev pos sizeof_lv_disk (mem_lvd be d)
  if r.1 ≠ sizeof_lv_disk then (false, d, r.2)
  else (true, _xlate_lvd be d, r.2)

/-- The `list_iterate` loop of `_write_lvs`. -/
def _write_lvs_loop (be : Bool) : List lv_disk → Nat → device → Bool × List lv_disk × device
  | [], _, dev => (true, [], dev)
  | ll :: rest, pos, dev =>
    match _write_lvd be dev pos ll with
    | (false, d, dev) => (false, d :: rest, dev)
    | (true, d, dev) =>
      let r := _write_lvs_loop be rest (pos + sizeof_lv_disk) dev
      (r.1, d :: r.2.1, r.2.2)

/-- `_write_lvs`. -/
def _write_lvs (be : Bool) (data : disk_list) (dev : device) : Bool × disk_list × device :=
  let pos := data.pvd.lv_on_disk.base
  match dev_zero dev pos data.pvd.lv_on_disk.size with
  | (false, dev) => (false, data, dev)
  | (true, dev) =>
    let r := _write_lvs_loop be data.lvds pos dev
    (r.1, { data with lvds := r.2.1 }, r.2.2)

/-- `_write_extents`.  The buffer is the `pe_total` entries of the array. -/
def _write_extents (be : Bool) (data : disk_list) (dev : device) : Bool × disk_list × device :=
  let len := sizeof_pe_disk * data.pvd.pe_total
  let pos := data.pvd.pe_on_disk.base
  let extents := _xlate_extents be data.extents (int_of_u32 data.pvd.pe_total)
  let r := dev_write dev pos len (mem_extents be (extents.take data.pvd.pe_total))
  if r.1 ≠ len then (false, { data with extents := extents }, r.2)
  else
    (true, { data with extents := _xlate_extents be extents (int_of_u32 data.pvd.pe_total) },
     r.2)

/-- `_write_pvd`. -/
def _write_pvd (be : Bool) (data : disk_list) (dev : device) : Bool × disk_list × device :=
  let disk := _xlate_pvd be data.pvd
  let r := dev_write dev 0 sizeof_pv_disk (mem_pvd be disk)
  if r.1 ≠ sizeof_pv_disk then (false, { data with pvd := disk }, r.2)
  else (true, { data with pvd := _xlate_pvd be disk }, r.2)

/-- `_write_all_pvd`. -/
def _write_all_pvd (be : Bool) (data : disk_list) (dev : device) : Bool × disk_list × device :=
  match _write_pvd be data dev with
  | (false, data, dev) => (false, data, dev)
  | (true, data, dev) =>
    if data.pvd.vg_name.getD 0 0 = 0 then (true, data, dev)
    else
      match _write_vgd be data dev with
      | (false, data, dev) => (false, data, dev)
      | (true, data, dev) =>
        match _write_uuids data dev with
        | (false, data, dev) => (false, data, dev)
        | (true, data, dev) =>
          match _write_lvs be data dev with
          | (false, data, dev) => (false, data, dev)
          | (true, data, dev) =>
            match _write_extents be data dev with
            | (false, data, dev) => (false, data, dev)
            | (true, data, dev) => (true, data, dev)

/-- The PV record a device holds at byte 0, in host order, as `_read_pvd` delivers it. -/
def pv_record (be : Bool) (dev : device) : pv_disk :=
  _xlate_pvd be (pvd_of_mem be (dev_read dev 0 sizeof_pv_disk).1)

/-- A version-2 `pv_disk` with `pe_start = 8` sectors and the PE map at byte 1024. -/
def pvd_v2 : pv_disk :=
  { id := [72, 77], version := 2
    pv_on_disk := ⟨0, 1024⟩, vg_on_disk := ⟨0, 0⟩, pv_uuidlist_on_disk := ⟨0, 0⟩
    lv_on_disk := ⟨0, 0⟩, pe_on_disk := ⟨1024, 0⟩
    pv_uuid := List.replicate 128 0, vg_name := List.replicate 128 0
    system_id := List.replicate 128 0
    pv_major := 0, pv_number := 0, pv_status := 0, pv_allocatable := 0, pv_size := 0
    lv_cur := 0, pe_size := 0, pe_total := 0, pe_allocated := 0, pe_start := 8 }

/-- A device that holds four bytes: the magic and version 3. -/
def dev_v3 : device := { name := [], data := [72, 77, 3, 0] }

/-! ## Device-mapper and the filesystem notifier (collaborators of activate.c)

The library behind `dm_task_*` and `fs_add_lv`/`fs_del_lv` is outside the sources.  Every
call is appended to a log, the state of the world the engine acts on; what a call returns
is given by the environment as a function of the log up to and including that call, so that
every combination of outcomes is covered. -/

/-- The terminating NUL of a C string. -/
def NUL : Char := Char.ofNat 0

/-- Modelled from the spec: the task kinds of §6.2. -/
inductive dm_task_type where
  | DM_DEVICE_CREATE
  | DM_DEVICE_RELOAD
  | DM_DEVICE_REMOVE
  | DM_DEVICE_SUSPEND
  | DM_DEVICE_RESUME
  | DM_DEVICE_INFO
deriving DecidableEq, Repr

open dm_task_type

/-- One table row: the arguments of `dm_task_add_target`. -/
structure target where
  start : Nat
  size : Nat
  ttype : List Char
  params : List Char
deriving DecidableEq, Repr

/-- Modelled from the spec: a device-mapper task (§6.2): its kind, its name and the rows
added so far. -/
structure dm_task where
  kind : dm_task_type
  name : List Char
  targets : List target
deriving DecidableEq, Repr

/-- Modelled from the spec: the fields of `struct dm_info` the engine reads (§6.2). -/
structure dm_info where
  exists_ : Int
  open_count : Int
deriving DecidableEq, Repr

/-- A call to a collaborator. -/
inductive event where
  | task_create (kind : dm_task_type)
  | set_name (name : List Char)
  | add_target (row : target)
  | run (task : dm_task)
  | get_info (task : dm_task)
  | destroy (task : dm_task)
  | fs_add_lv (vg_name lv_name : List Char)
  | fs_del_lv (vg_name lv_name : List Char)
deriving DecidableEq, Repr

/-- The collaborators' behaviour: `answer log` is the value returned by the call that was
logged last, `info log` the record `dm_task_get_info` fills in, and `stack` the bytes an
uninitialised buffer on the stack holds. -/
structure dm_env where
  answer : List event → Int
  info : List event → dm_info
  stack : List Char

/-- An uninitialised `char[n]` on the stack. -/
def stack_buffer (env : dm_env) (n : Nat) : List Char :=
  (env.stack ++ List.replicate n NUL).take n

/-- `dm_task_create`: `none` is the null pointer. -/
def dm_task_create (env : dm_env) (kind : dm_task_type) (w : List event) :
    Option dm_task × List event :=
  let w := w ++ [event.task_create kind]
  (if env.answer w = 0 then none else some { kind := kind, name := [], targets := [] }, w)

/-- `dm_task_set_name`; activate.c does not look at its result. -/
def dm_task_set_name (dmt : dm_task) (name : List Char) (w : List event) :
    dm_task × List event :=
  ({ dmt with name := name }, w ++ [event.set_name name])

/-- `dm_task_add_target`: the row is part of the task when the call returns non-zero. -/
def dm_task_add_target (env : dm_env) (dmt : dm_task) (row : target) (w : List event) :
    Int × dm_task × List event :=
  let w := w ++ [event.add_target row]
  let r := env.answer w
  (r, if r = 0 then dmt else { dmt with targets := dmt.targets ++ [row] }, w)

/-- `dm_task_run`. -/
def dm_task_run (env : dm_env) (dmt : dm_task) (w : List event) : Int × List event :=
  let w := w ++ [event.run dmt]
  (env.answer w, w)

/-- `dm_task_get_info`. -/
def dm_task_get_info (env : dm_env) (dmt : dm_task) (w : List event) :
    Int × dm_info × List event :=
  let w := w ++ [event.get_info dmt]
  (env.answer w, env.info w, w)

/-- `dm_task_destroy`. -/
def dm_task_destroy (dmt : dm_task) (w : List event) : List event :=
  w ++ [event.destroy dmt]

/-! ## In-core metadata (metadata.h)

The back pointers `seg->lv->vg` and `lv->vg` are unfolded: a segment and an LV carry the
fields of their VG that activate.c reads through them. -/

/-- The fields of `struct volume_group` read through a back pointer. -/
structure vg_fields where
  name : List Char
  extent_size : Nat
deriving DecidableEq, Repr

/-- `struct physical_volume`, the fields activate.c reads. -/
structure physical_volume where
  dev : device
  pe_start : Nat
deriving DecidableEq, Repr

/-- One element of `seg->area`. -/
structure pv_area where
  pv : physical_volume
  pe : Nat
deriving DecidableEq, Repr

/-- `struct stripe_segment`; `vg` is `seg->lv->vg`. -/
structure stripe_segment where
  vg : vg_fields
  le : Nat
  len : Nat
  stripes : Nat
  area : List pv_area
deriving DecidableEq, Repr

/-- `struct logical_volume`; `vg` is `lv->vg`. -/
structure logical_volume where
  vg : vg_fields
  name : List Char
  segments : List stripe_segment
deriving DecidableEq, Repr

/-- `struct volume_group`, the list of its LVs. -/
structure volume_group where
  name : List Char
  extent_size : Nat
  lvs : List logical_volume
deriving DecidableEq, Repr

/-! ## activate.c -/

/-- The C string a `char` buffer holds: the characters before the first NUL. -/
def cstring (buf : List Char) : List Char := buf.takeWhile (· ≠ NUL)

/-- C99 `snprintf(buf + off, size, ...)` where the formatted output is `text`: at most
`size - 1` characters of `text` and a NUL are stored at `off`, nothing when `size` is 0, and
the length of `text` is returned.  Storing past the end of the buffer, which C leaves
undefined, changes nothing in the model. -/
def snprintf (buf : List Char) (off size : Nat) (text : List Char) : Int × List Char :=
  if size = 0 then (text.length, buf)
  else
    let out := text.take (size - 1) ++ [NUL]
    (text.length, (buf.take off ++ (out ++ buf.drop (off + out.length))).take buf.length)

/-- `_build_lv_name`: `"%s_%s"` of the VG name and the LV name. -/
def _build_lv_name (buffer : List Char) (s : Nat) (lv : logical_volume) : List Char :=
  (snprintf buffer 0 s (lv.vg.name ++ '_' :: lv.name)).2

/-- `_setup_task`. -/
def _setup_task (env : dm_env) (lv : logical_volume) (task : dm_task_type) (w : List event) :
    Option dm_task × List event :=
  match dm_task_create env task w with
  | (none, w) => (none, w)
  | (some dmt, w) =>
    let name := _build_lv_name (stack_buffer env 128) 128 lv
    let r := dm_task_set_name dmt (cstring name) w
    (some r.1, r.2)

/-- `lv_info`. -/
def lv_info (env : dm_env) (lv : logical_volume) (w : List event) :
    Int × Option dm_info × List event :=
  match _setup_task env lv DM_DEVICE_INFO w with
  | (none, w) => (0, none, w)
  | (some dmt, w) =>
    let r := dm_task_run env dmt w
    if r.1 = 0 then (0, none, dm_task_destroy dmt r.2)
    else
      let g := dm_task_get_info env dmt r.2
      if g.1 = 0 then (0, some g.2.1, dm_task_destroy dmt g.2.2)
      else (1, some g.2.1, dm_task_destroy dmt g.2.2)

/-- `lv_active`. -/
def lv_active (env : dm_env) (lv : logical_volume) (w : List event) : Int × List event :=
  match lv_info env lv w with
  | (_, none, w) => (-1, w)
  | (r, some info, w) => if r = 0 then (-1, w) else (info.exists_, w)

/-- `lv_open_count`. -/
def lv_open_count (env : dm_env) (lv : logical_volume) (w : List event) : Int × List event :=
  match lv_info env lv w with
  | (_, none, w) => (-1, w)
  | (r, some info, w) => if r = 0 then (-1, w) else (info.open_count, w)

/-- The text one `snprintf` of `_emit_target` formats for stripe `s`: `"%s %" PRIu64 "%s"`
of the device name, the start sector (a `uint64_t`) and a blank unless the stripe is the
last. -/
def stripe_text (seg : stripe_segment) (s : Nat) : List Char :=
  let a := seg.area.getD s ⟨⟨⟨[], []⟩, 0⟩, 0⟩
  dev_name a.pv.dev ++ ' ' ::
    (Nat.toDigits 10 ((a.pv.pe_start + (seg.vg.extent_size * a.pe) % U64) % U64)
      ++ (if s = seg.stripes - 1 then [] else [' ']))

/-- The `for` loop of `_emit_target`; `none` is the `tw < 0` exit.  The first argument
bounds the number of iterations; `stripes - s` are always enough.  The size passed to
`snprintf` is `sizeof(params) - w` in `size_t`. -/
def _emit_target_loop (seg : stripe_segment) :
    Nat → Nat → Nat → List Char → Option (List Char)
  | 0, _, _, params => some params
  | fuel + 1, s, w, params =>
    if s < seg.stripes then
      let r := snprintf params w ((1024 + U64 - w % U64) % U64) (stripe_text seg s)
      if r.1 < 0 then none
      else _emit_target_loop seg fuel (s + 1) (w + r.1.toNat) r.2
    else some params

/-- The row `_emit_target` passes to `dm_task_add_target`, given the contents of `params`
after the loop. -/
def target_row (seg : stripe_segment) (params : List Char) : target :=
  { start := (seg.vg.extent_size * seg.le) % U64
    size := (seg.vg.extent_size * seg.len) % U64
    ttype := if seg.stripes = 1 then "linear".toList else "striped".toList
    params := cstring params }

/-- `_emit_target`. -/
def _emit_target (env : dm_env) (dmt : dm_task) (seg : stripe_segment) (w : List event) :
    Int × dm_task × List event :=
  match _emit_target_loop seg seg.stripes 0 0 (stack_buffer env 1024) with
  | none => (0, dmt, w)
  | some params =>
    let r := dm_task_add_target env dmt (target_row seg params) w
    if r.1 = 0 then (0, r.2.1, r.2.2) else (1, r.2.1, r.2.2)

/-- The `list_iterate` loop of `_load`: the flag is 0 when an `_emit_target` failed. -/
def _load_loop (env : dm_env) :
    List stripe_segment → dm_task → List event → Int × dm_task × List event
  | [], dmt, w => (1, dmt, w)
  | seg :: rest, dmt, w =>
    let r := _emit_target env dmt seg w
    if r.1 = 0 then (0, r.2.1, r.2.2) else _load_loop env rest r.2.1 r.2.2

/-- `_load`. -/
def _load (env : dm_env) (lv : logical_volume) (task : dm_task_type) (w : List event) :
    Int × List event :=
  match _setup_task env lv task w with
  | (none, w) => (0, w)
  | (some dmt, w) =>
    let l := _load_loop env lv.segments dmt w
    if l.1 = 0 then (0, dm_task_destroy l.2.1 l.2.2)
    else
      let r := dm_task_run env l.2.1 l.2.2
      (r.1, dm_task_destroy l.2.1 r.2)

/-- `fs_add_lv`. -/
def fs_add_lv (env : dm_env) (lv : logical_volume) (w : List event) : Int × List event :=
  let w := w ++ [event.fs_add_lv lv.vg.name lv.name]
  (env.answer w, w)

/-- `fs_del_lv`; activate.c does not look at its result. -/
def fs_del_lv (lv : logical_volume) (w : List event) : List event :=
  w ++ [event.fs_del_lv lv.vg.name lv.name]

/-- `lv_activate`: `_load(lv, DM_DEVICE_CREATE) && fs_add_lv(lv)`. -/
def lv_activate (env : dm_env) (lv : logical_volume) (w : List event) : Int × List event :=
  let l := _load env lv DM_DEVICE_CREATE w
  if l.1 = 0 then (0, l.2)
  else
    let f := fs_add_lv env lv l.2
    (if f.1 = 0 then 0 else 1, f.2)

/-- `_suspend`. -/
def _suspend (env : dm_env) (lv : logical_volume) (sus : Int) (w : List event) :
    Int × List event :=
  let task := if sus ≠ 0 then DM_DEVICE_SUSPEND else DM_DEVICE_RESUME
  match _setup_task env lv task w with
  | (none, w) => (0, w)
  | (some dmt, w) =>
    let r := dm_task_run env dmt w
    (r.1, dm_task_destroy dmt r.2)

/-- `lv_reactivate`. -/
def lv_reactivate (env : dm_env) (lv : logical_volume) (w : List event) : Int × List event :=
  let s := _suspend env lv 1 w
  if s.1 = 0 then (0, s.2)
  else
    let r := _load env lv DM_DEVICE_RELOAD s.2
    let u := _suspend env lv 0 r.2
    if u.1 = 0 then (0, u.2)
    else (r.1, u.2)

/-- `lv_deactivate`. -/
def lv_deactivate (env : dm_env) (lv : logical_volume) (w : List event) : Int × List event :=
  match _setup_task env lv DM_DEVICE_REMOVE w with
  | (none, w) => (0, w)
  | (some dmt, w) =>
    let r := dm_task_run env dmt w
    (r.1, fs_del_lv lv (dm_task_destroy dmt r.2))

/-- `activate_lvs_in_vg`: the loop over `vg->lvs` with the running `count`. -/
def activate_lvs_in_vg_loop (env : dm_env) :
    List logical_volume → Int → List event → Int × List event
  | [], count, w => (count, w)
  | lv :: rest, count, w =>
    let a := lv_active env lv w
    if a.1 = 0 then
      let r := lv_activate env lv a.2
      activate_lvs_in_vg_loop env rest (count + (if r.1 = 0 then 0 else 1)) r.2
    else activate_lvs_in_vg_loop env rest count a.2

/-- `activate_lvs_in_vg`. -/
def activate_lvs_in_vg (env : dm_env) (vg : volume_group) (w : List event) :
    Int × List event :=
  activate_lvs_in_vg_loop env vg.lvs 0 w

/-- `lv_update_write_access`. -/
def lv_update_write_access (_lv : logical_volume) : Int := 0

/-- `deactivate_lvs_in_vg`: the loop over `vg->lvs` with the running `count`. -/
def deactivate_lvs_in_vg_loop (env : dm_env) :
    List logical_volume → Int → List event → Int × List event
  | [], count, w => (count, w)
  | lv :: rest, count, w =>
    let a := lv_active env lv w
    if a.1 = 1 then
      let r := lv_deactivate env lv a.2
      deactivate_lvs_in_vg_loop env rest (count + (if r.1 = 0 then 0 else 1)) r.2
    else deactivate_lvs_in_vg_loop env rest count a.2

/-- `deactivate_lvs_in_vg`. -/
def deactivate_lvs_in_vg (env : dm_env) (vg : volume_group) (w : List event) :
    Int × List event :=
  deactivate_lvs_in_vg_loop env vg.lvs 0 w

/-- `lvs_in_vg_activated`: the loop over `vg->lvs` with the running `count`. -/
def lvs_in_vg_activated_loop (env : dm_env) :
    List logical_volume → Int → List event → Int × List event
  | [], count, w => (count, w)
  | lv :: rest, count, w =>
    let a := lv_active env lv w
    lvs_in_vg_activated_loop env rest (count + (if a.1 = 1 then 1 else 0)) a.2

/-- `lvs_in_vg_activated`. -/
def lvs_in_vg_activated (env : dm_env) (vg : volume_group) (w : List event) :
    Int × List event :=
  lvs_in_vg_activated_loop env vg.lvs 0 w

/-- `lvs_in_vg_opened`: the loop over `vg->lvs` with the running `count`. -/
def lvs_in_vg_opened_loop (env : dm_env) :
    List logical_volume → Int → List event → Int × List event
  | [], count, w => (count, w)
  | lv :: rest, count, w =>
    let a := lv_open_count env lv w
    lvs_in_vg_opened_loop env rest (count + (if a.1 = 1 then 1 else 0)) a.2

/-- `lvs_in_vg_opened`. -/
def lvs_in_vg_opened (env : dm_env) (vg : volume_group) (w : List event) :
    Int × List event :=
  lvs_in_vg_opened_loop env vg.lvs 0 w

/-- The name `_setup_task` gives a task for `lv`: the C string `_build_lv_name` leaves in
the 128-byte buffer `name`. -/
def lv_task_name (env : dm_env) (lv : logical_volume) : List Char :=
  cstring (_build_lv_name (stack_buffer env 128) 128 lv)

/-! ## The target row of §4.F, in the spec's words -/

/-- The item of one area: `"<dev_name(area.pv.dev)> <area.pv.pe_start + extent_size *
area.pe>"`, the number in decimal. -/
def area_text (extent_size : Nat) (a : pv_area) : List Char :=
  dev_name a.pv.dev ++ ' ' :: Nat.toDigits 10 (a.pv.pe_start + extent_size * a.pe)

/-- Items joined by single blanks: nothing before the first item, nothing after the last. -/
def join_sp : List (List Char) → List Char
  | [] => []
  | [x] => x
  | x :: y :: r => x ++ ' ' :: join_sp (y :: r)

/-- The parameter string of §4.F: the items of the areas in order, joined by single blanks. -/
def params_text (seg : stripe_segment) : List Char :=
  join_sp (seg.area.map (area_text seg.vg.extent_size))

/-- The row of §4.F for a segment. -/
def spec_target_row (seg : stripe_segment) : target :=
  { start := seg.vg.extent_size * seg.le
    size := seg.vg.extent_size * seg.len
    ttype := if seg.stripes = 1 then "linear".toList else "striped".toList
    params := params_text seg }

/-- The sector numbers of a segment fit the `uint64_t` they are computed in. -/
def seg_fits64 (seg : stripe_segment) : Prop :=
  seg.vg.extent_size * seg.le < U64 ∧ seg.vg.extent_size * seg.len < U64 ∧
  ∀ a ∈ seg.area, a.pv.pe_start + seg.vg.extent_size * a.pe < U64

instance (seg : stripe_segment) : Decidable (seg_fits64 seg) := by
  unfold seg_fits64; exact inferInstance

/-- The texts the `snprintf` calls for the stripes `s`, ..., `s + n - 1` format, one after
the other. -/
def stripes_text (seg : stripe_segment) : Nat → Nat → List Char
  | _, 0 => []
  | s, n + 1 => stripe_text seg s ++ stripes_text seg (s + 1) n

/-- The row `_emit_target` submits for a segment: `target_row` of the buffer its loop
leaves. -/
def emitted_row (env : dm_env) (seg : stripe_segment) : target :=
  target_row seg ((_emit_target_loop seg seg.stripes 0 0 (stack_buffer env 1024)).getD [])

/-- The `dm_task_add_target` calls for a list of rows. -/
def add_events (rs : List target) : List event := rs.map event.add_target

/-- The log after a task of kind `k` named `name` was created and the rows `rs` were
submitted to it. -/
def log_rows (w : List event) (k : dm_task_type) (name : List Char) (rs : List target) :
    List event :=
  w ++ [event.task_create k, event.set_name name] ++ add_events rs

/-! ## Reading the log -/

/-- The kinds of the tasks created, in the order of the `dm_task_create` calls. -/
def creates : List event → List dm_task_type
  | [] => []
  | event.task_create k :: l => k :: creates l
  | _ :: l => creates l

/-- The kinds of the tasks run, in the order of the `dm_task_run` calls. -/
def runs : List event → List dm_task_type
  | [] => []
  | event.run t :: l => t.kind :: runs l
  | _ :: l => runs l

/-- The rows submitted, in the order of the `dm_task_add_target` calls. -/
def rows : List event → List target
  | [] => []
  | event.add_target r :: l => r :: rows l
  | _ :: l => rows l

/-- The `fs_add_lv` calls of a log. -/
def fs_adds : List event → List (List Char × List Char)
  | [] => []
  | event.fs_add_lv v l :: rest => (v, l) :: fs_adds rest
  | _ :: rest => fs_adds rest

/-- The linear segment of scenario 1 (§8): 10 extents of 8192 sectors from extent 5 of a PV
whose data starts at sector 384. -/
def seg_home : stripe_segment :=
  { vg := ⟨"vg0".toList, 8192⟩, le := 0, len := 10, stripes := 1
    area := [⟨⟨⟨"/dev/sda".toList, []⟩, 384⟩, 5⟩] }

/-- An LV "home" of VG "vg0" with the single linear segment of scenario 1 (§8). -/
def lv_home : logical_volume :=
  { vg := ⟨"vg0".toList, 8192⟩, name := "home".toList, segments := [seg_home] }

/-- The LV of scenario 2 (§8): two linear segments on two PVs, extents of 1024 sectors. -/
def lv_two : logical_volume :=
  { vg := ⟨"vg0".toList, 1024⟩, name := "data".toList
    segments :=
      [{ vg := ⟨"vg0".toList, 1024⟩, le := 0, len := 3, stripes := 1
         area := [⟨⟨⟨"/dev/sda".toList, []⟩, 100⟩, 0⟩] },
       { vg := ⟨"vg0".toList, 1024⟩, le := 3, len := 2, stripes := 1
         area := [⟨⟨⟨"/dev/sdb".toList, []⟩, 200⟩, 7⟩] }] }

/-- An LV without segments whose VG name and LV name are 100 characters each. -/
def lv_long : logical_volume :=
  { vg := ⟨List.replicate 100 'v', 8192⟩, name := List.replicate 100 'l', segments := [] }

/-- Collaborators that accept every call. -/
def env_ok : dm_env := { answer := fun _ => 1, info := fun _ => ⟨0, 0⟩, stack := [] }

/-- Collaborators that accept every call but the run of a RESUME task. -/
def env_resume_fails : dm_env :=
  { answer := fun w => match w.getLast? with
      | some (event.run t) => if t.kind = DM_DEVICE_RESUME then 0 else 1
      | _ => 1
    info := fun _ => ⟨0, 0⟩, stack := [] }

/-- Collaborators that accept every call but `dm_task_add_target`. -/
def env_row_rejected : dm_env :=
  { answer := fun w => match w.getLast? with
      | some (event.add_target _) => 0
      | _ => 1
    info := fun _ => ⟨0, 0⟩, stack := [] }

/-- The version-1 record the spec derives from a version-2 record `p` (§3.1, §8): `version`
set to 1 and `pe_on_disk.size` set to `pe_start * SECTOR_SIZE - pe_on_disk.base`, in 32-bit
arithmetic. -/
def v1_adjusted (p : pv_disk) : pv_disk :=
  { p with
    version := 1
    pe_on_disk := { p.pe_on_disk with
      size := Int.toNat (((p.pe_start : Int) * SECTOR_SIZE - p.pe_on_disk.base) % (U32 : Int)) } }

/-- A version-2 `pv_disk` whose data starts at sector `2^23`, that is at byte `2^32`. -/
def pvd_v2_far : pv_disk := { pvd_v2 with pe_start := 8388608 }

/-! ## Records whose fields fit their C types -/

/-- Both fields of a region descriptor are `uint32_t`. -/
def valid_area (a : data_area) : Prop := a.base < U32 ∧ a.size < U32

instance (a : data_area) : Decidable (valid_area a) := by
  unfold valid_area; exact inferInstance

/-- Every field of a `pv_disk` fits its C type. -/
def valid_pvd (d : pv_disk) : Prop :=
  is_bytes 2 d.id ∧ d.version < U16 ∧
  valid_area d.pv_on_disk ∧ valid_area d.vg_on_disk ∧ valid_area d.pv_uuidlist_on_disk ∧
  valid_area d.lv_on_disk ∧ valid_area d.pe_on_disk ∧
  is_bytes NAME_LEN d.pv_uuid ∧ is_bytes NAME_LEN d.vg_name ∧ is_bytes NAME_LEN d.system_id ∧
  d.pv_major < U32 ∧ d.pv_number < U32 ∧ d.pv_status < U32 ∧ d.pv_allocatable < U32 ∧
  d.pv_size < U32 ∧ d.lv_cur < U32 ∧ d.pe_size < U32 ∧ d.pe_total < U32 ∧
  d.pe_allocated < U32 ∧ d.pe_start < U32

instance (d : pv_disk) : Decidable (valid_pvd d) := by
  unfold valid_pvd; exact inferInstance

/-- Every field of an `lv_disk` fits its C type. -/
def valid_lvd (d : lv_disk) : Prop :=
  is_bytes NAME_LEN d.lv_name ∧ is_bytes NAME_LEN d.vg_name ∧
  d.lv_access < U32 ∧ d.lv_status < U32 ∧ d.lv_open < U32 ∧ d.lv_dev < U32 ∧
  d.lv_number < U32 ∧ d.lv_mirror_copies < U32 ∧ d.lv_recovery < U32 ∧
  d.lv_schedule < U32 ∧ d.lv_size < U32 ∧ d.lv_snapshot_minor < U32 ∧
  d.lv_chunk_size < U16 ∧ d.dummy < U16 ∧ d.lv_allocated_le < U32 ∧ d.lv_stripes < U32 ∧
  d.lv_stripesize < U32 ∧ d.lv_badblock < U32 ∧ d.lv_allocation < U32 ∧
  d.lv_io_timeout < U32 ∧ d.lv_read_ahead < U32

instance (d : lv_disk) : Decidable (valid_lvd d) := by
  unfold valid_lvd; exact inferInstance

/-- Every field of a `vg_disk` fits its C type. -/
def valid_vgd (d : vg_disk) : Prop :=
  is_bytes NAME_LEN d.vg_uuid ∧
  d.vg_number < U32 ∧ d.vg_access < U32 ∧ d.vg_status < U32 ∧ d.lv_max < U32 ∧
  d.lv_cur < U32 ∧ d.lv_open < U32 ∧ d.pv_max < U32 ∧ d.pv_cur < U32 ∧ d.pv_act < U32 ∧
  d.dummy < U32 ∧ d.vgda < U32 ∧ d.pe_size < U32 ∧ d.pe_total < U32 ∧
  d.pe_allocated < U32 ∧ d.pvg_total < U32

instance (d : vg_disk) : Decidable (valid_vgd d) := by
  unfold valid_vgd; exact inferInstance

/-- Both fields of a `pe_disk` are `uint16_t`. -/
def valid_pe (e : pe_disk) : Prop := e.lv_num < U16 ∧ e.le_num < U16

instance (e : pe_disk) : Decidable (valid_pe e) := by
  unfold valid_pe; exact inferInstance

/-- An in-core uuid: `NAME_LEN` bytes and the terminating NUL `_read_uuids` stores after
them. -/
def valid_uuid (u : List Nat) : Prop :=
  is_bytes (NAME_LEN + 1) u ∧ u.drop NAME_LEN = [0]

instance (u : List Nat) : Decidable (valid_uuid u) := by
  unfold valid_uuid; exact inferInstance

/-- An `lv_disk` named "lv" with every integer field distinct. -/
def lvd_sample : lv_disk :=
  { lv_name := [108, 118] ++ List.replicate 126 0
    vg_name := [118, 103] ++ List.replicate 126 0
    lv_access := 1, lv_status := 2, lv_open := 3, lv_dev := 4, lv_number := 5
    lv_mirror_copies := 6, lv_recovery := 7, lv_schedule := 8, lv_size := 9
    lv_snapshot_minor := 10, lv_chunk_size := 258, dummy := 12, lv_allocated_le := 13
    lv_stripes := 14, lv_stripesize := 15, lv_badblock := 16, lv_allocation := 17
    lv_io_timeout := 18, lv_read_ahead := 16909060 }

/-- A `vg_disk` with two PVs and up to eight LVs. -/
def vgd_sample : vg_disk :=
  { vg_uuid := List.replicate 128 7
    vg_number := 1, vg_access := 2, vg_status := 3, lv_max := 8, lv_cur := 1, lv_open := 0
    pv_max := 4, pv_cur := 2, pv_act := 2, dummy := 0, vgda := 0, pe_size := 8192
    pe_total := 3, pe_allocated := 1, pvg_total := 0 }

/-! ## Device contents -/

/-- The `n` bytes at `p` of device contents `d` (fewer when the contents end before). -/
def region (d : List Nat) (p n : Nat) : List Nat := (d.drop p).take n

/-- Device contents `d` with the bytes `buf` stored at `p`. -/
def poke (d : List Nat) (p : Nat) (buf : List Nat) : List Nat :=
  d.take p ++ (buf ++ d.drop (p + buf.length))

/-- The bytes of a uuid list on disk: the first `NAME_LEN` bytes of each entry, in order. -/
def uuids_image : List (List Nat) → List Nat
  | [] => []
  | u :: us => fix_bytes NAME_LEN u ++ uuids_image us

/-- The disk encoding of a list of LV records: their little-endian images, in order. -/
def lvs_image : List lv_disk → List Nat
  | [] => []
  | l :: ls => mem_lvd false l ++ lvs_image ls

/-! ## Well-formed PV views -/

/-- Two regions do not overlap. -/
def disjoint_areas (a b : data_area) : Prop :=
  a.base + a.size ≤ b.base ∨ b.base + b.size ≤ a.base

instance (a b : data_area) : Decidable (disjoint_areas a b) := by
  unfold disjoint_areas; exact inferInstance

/-- Every record of the view fits its C types, every uuid is NUL-terminated and the extent
array has `pe_total` entries. -/
def valid_view (v : disk_list) : Prop :=
  valid_pvd v.pvd ∧ valid_vgd v.vgd ∧ (∀ u ∈ v.uuids, valid_uuid u) ∧
  (∀ l ∈ v.lvds, valid_lvd l) ∧ (∀ e ∈ v.extents, valid_pe e) ∧
  v.extents.length = v.pvd.pe_total

instance (v : disk_list) : Decidable (valid_view v) := by
  unfold valid_view; exact inferInstance

/-- The five regions of a view are pairwise disjoint. -/
def regions_disjoint (p : pv_disk) : Prop :=
  disjoint_areas p.pv_on_disk p.vg_on_disk ∧
  disjoint_areas p.pv_on_disk p.pv_uuidlist_on_disk ∧
  disjoint_areas p.pv_on_disk p.lv_on_disk ∧
  disjoint_areas p.pv_on_disk p.pe_on_disk ∧
  disjoint_areas p.vg_on_disk p.pv_uuidlist_on_disk ∧
  disjoint_areas p.vg_on_disk p.lv_on_disk ∧
  disjoint_areas p.vg_on_disk p.pe_on_disk ∧
  disjoint_areas p.pv_uuidlist_on_disk p.lv_on_disk ∧
  disjoint_areas p.pv_uuidlist_on_disk p.pe_on_disk ∧
  disjoint_areas p.lv_on_disk p.pe_on_disk

instance (p : pv_disk) : Decidable (regions_disjoint p) := by
  unfold regions_disjoint; exact inferInstance

/-- The five regions of a view are large enough for their contents. -/
def regions_fit (v : disk_list) : Prop :=
  sizeof_pv_disk ≤ v.pvd.pv_on_disk.size ∧
  sizeof_vg_disk ≤ v.pvd.vg_on_disk.size ∧
  NAME_LEN * v.uuids.length ≤ v.pvd.pv_uuidlist_on_disk.size ∧
  sizeof_lv_disk * v.lvds.length ≤ v.pvd.lv_on_disk.size ∧
  sizeof_pe_disk * v.pvd.pe_total ≤ v.pvd.pe_on_disk.size

instance (v : disk_list) : Decidable (regions_fit v) := by
  unfold regions_fit; exact inferInstance

/-- The well-formedness of a PV view in the words of C1: in-core version 1, as many uuids
as `vgd.pv_cur`, as many LVs as `vgd.lv_cur` and at most `vgd.lv_max`, every LV name
non-empty, the five regions disjoint and large enough for their contents. -/
def well_formed (v : disk_list) : Prop :=
  v.pvd.version = 1 ∧ v.uuids.length = v.vgd.pv_cur ∧ v.lvds.length = v.vgd.lv_cur ∧
  v.vgd.lv_cur ≤ v.vgd.lv_max ∧ (∀ l ∈ v.lvds, l.lv_name.getD 0 0 ≠ 0) ∧
  regions_disjoint v.pvd ∧ regions_fit v

instance (v : disk_list) : Decidable (well_formed v) := by
  unfold well_formed; exact inferInstance

/-- The five regions of a view lie on the device, so that no write to them is short. -/
def on_device (p : pv_disk) (dev : device) : Prop :=
  p.pv_on_disk.base + p.pv_on_disk.size ≤ dev.data.length ∧
  p.vg_on_disk.base + p.vg_on_disk.size ≤ dev.data.length ∧
  p.pv_uuidlist_on_disk.base + p.pv_uuidlist_on_disk.size ≤ dev.data.length ∧
  p.lv_on_disk.base + p.lv_on_disk.size ≤ dev.data.length ∧
  p.pe_on_disk.base + p.pe_on_disk.size ≤ dev.data.length

instance (p : pv_disk) (dev : device) : Decidable (on_device p dev) := by
  unfold on_device; exact inferInstance

/-- The byte order of the PE map `_write_extents` leaves on the device: little-endian, but
the order of the host when `pe_total`, taken as an `int`, is negative, since
`_xlate_extents` then converts nothing. -/
def pe_map_order (be : Bool) (pe_total : Nat) : Bool :=
  if pe_total < 2147483648 then false else be

/-- The device contents `d` after the five sections of the view `v` were written: the PV
record at byte 0, the VG record, the uuid list, the zeroed LV region with the LV records,
and the PE map, each at the base of its region. -/
def written_image (be : Bool) (v : disk_list) (d : List Nat) : List Nat :=
  poke (poke (poke (poke (poke (poke d 0 (mem_pvd false v.pvd))
    v.pvd.vg_on_disk.base (mem_vgd false v.vgd))
    v.pvd.pv_uuidlist_on_disk.base (uuids_image v.uuids))
    v.pvd.lv_on_disk.base (List.replicate v.pvd.lv_on_disk.size 0))
    v.pvd.lv_on_disk.base (lvs_image v.lvds))
    v.pvd.pe_on_disk.base (mem_extents (pe_map_order be v.pvd.pe_total) v.extents)

/-- The record `_munge_formats` leaves for a version-1 record: `pe_start` recomputed from
the PE map region. -/
def with_pe_start (p : pv_disk) : pv_disk :=
  { p with pe_start := ((p.pe_on_disk.base + p.pe_on_disk.size) % U32) / SECTOR_SIZE }

/-- The bytes of an ASCII name in a zero-filled array of `NAME_LEN` bytes. -/
def name_bytes (name : String) : List Nat :=
  fix_bytes NAME_LEN (name.toList.map Char.toNat)

/-- The PV record of a PV of VG "vgA": the VG record at byte 468, room for two uuids at
656, for eight LVs at 912 and for sixteen extents at 3536. -/
def pvd_sample : pv_disk :=
  { id := [72, 77], version := 1
    pv_on_disk := ⟨0, 468⟩, vg_on_disk := ⟨468, 188⟩, pv_uuidlist_on_disk := ⟨656, 256⟩
    lv_on_disk := ⟨912, 2624⟩, pe_on_disk := ⟨3536, 64⟩
    pv_uuid := List.replicate 128 1, vg_name := name_bytes "vgA"
    system_id := List.replicate 128 0
    pv_major := 8, pv_number := 1, pv_status := 1, pv_allocatable := 2, pv_size := 1000000
    lv_cur := 3, pe_size := 8192, pe_total := 16, pe_allocated := 5, pe_start := 7 }

/-- The record of an orphan PV: as `pvd_sample` with an empty VG name. -/
def pvd_orphan : pv_disk := { pvd_sample with vg_name := List.replicate 128 0 }

/-- A block of pool memory. -/
def mem_sample : disk_list := ⟨pvd_v2, vgd_sample, [[1, 2, 3]], [], []⟩

/-- A device that holds the PV record of an orphan and nothing after it. -/
def dev_orphan_short : device := ⟨"/dev/sdc".toList, mem_pvd false pvd_orphan⟩

/-- A device that holds the PV record of an orphan, followed at byte 468 by the VG record
of an earlier use (two PVs, one LV) and, up to byte 3600, by bytes of value 9. -/
def dev_orphan_long : device :=
  ⟨"/dev/sdd".toList,
   mem_pvd false pvd_orphan ++ mem_vgd false vgd_sample ++ List.replicate 2944 9⟩

/-- A device that holds the PV record of a PV of "vgA" and nothing after it. -/
def dev_vgA : device := ⟨"/dev/sde".toList, mem_pvd false pvd_sample⟩

/-- The VG record of the sample view: two PVs, three LVs of at most eight. -/
def vgd_view : vg_disk := { vgd_sample with lv_cur := 3 }

/-- The view of scenario 6 (§8): two uuids, three live LVs of `lv_max = 8`, sixteen PEs of
which the first five belong to LV 1. -/
def view_sample : disk_list :=
  { pvd := pvd_sample
    vgd := vgd_view
    uuids := [List.replicate 128 65 ++ [0], List.replicate 128 66 ++ [0]]
    lvds := [{ lvd_sample with lv_name := name_bytes "root" },
             { lvd_sample with lv_name := name_bytes "home", lv_number := 1 },
             { lvd_sample with lv_name := name_bytes "swap", lv_number := 2 }]
    extents := (List.range 5).map (fun i => ⟨1, i⟩) ++ List.replicate 11 ⟨0, 0⟩ }

/-- The sample view with `pe_start` set to 8, one sector past the end of the PE map. -/
def view_far : disk_list := { view_sample with pvd := { pvd_sample with pe_start := 8 } }

/-- A device of 3600 bytes of value 255. -/
def dev_blank : device := ⟨"/dev/sdf".toList, List.replicate 3600 255⟩

/-- A device whose version-1 PV record stores `pe_start = 99`, followed at byte 468 by a VG
record (two PVs, one LV) and, up to byte 3600, by bytes of value 9. -/
def dev_stale : device :=
  ⟨"/dev/sdg".toList,
   mem_pvd false { pvd_sample with pe_start := 99 } ++ mem_vgd false vgd_sample ++
     List.replicate 2944 9⟩

/-- An LV "c" of a VG "a_b". -/
def lv_ab_c (extent_size : Nat) (segments : List stripe_segment) : logical_volume :=
  { vg := ⟨"a_b".toList, extent_size⟩, name := "c".toList, segments := segments }

/-- An LV "b_c" of a VG "a". -/
def lv_a_bc (extent_size : Nat) (segments : List stripe_segment) : logical_volume :=
  { vg := ⟨"a".toList, extent_size⟩, name := "b_c".toList, segments := segments }

/-! ## Mapped devices (§4.G) -/

/-- The `fs_del_lv` calls of a log. -/
def fs_dels : List event → List (List Char × List Char)
  | [] => []
  | event.fs_del_lv v l :: rest => (v, l) :: fs_dels rest
  | _ :: rest => fs_dels rest

/-- Modelled from the spec: what a task that ran with success does to the set of mapped
devices (§4.G): CREATE takes the device of the task's name from absent to active, REMOVE
takes it to absent, the other kinds leave the set alone. -/
def dm_apply (st : List (List Char)) (t : dm_task) : List (List Char) :=
  match t.kind with
  | DM_DEVICE_CREATE => t.name :: st
  | DM_DEVICE_REMOVE => st.filter (· ≠ t.name)
  | _ => st

/-- Modelled from the spec: the mapped devices after the calls `l` that follow the calls
`pre`, from the set `st`: a `dm_task_run` that returns non-zero acts on the set, every
other call, a failed run included, leaves it alone. -/
def mapped_from (env : dm_env) : List event → List event → List (List Char) → List (List Char)
  | _, [], st => st
  | pre, e :: rest, st =>
    match e with
    | event.run t =>
      mapped_from env (pre ++ [e]) rest (if env.answer (pre ++ [e]) = 0 then st else dm_apply st t)
    | _ => mapped_from env (pre ++ [e]) rest st

/-- The mapped devices after the log `w`, when `st0` were mapped before its first call. -/
def mapped_devices (env : dm_env) (st0 : List (List Char)) (w : List event) :
    List (List Char) :=
  mapped_from env [] w st0

/-- The REMOVE task `lv_deactivate` builds for an LV. -/
def remove_task (env : dm_env) (lv : logical_volume) : dm_task :=
  ⟨DM_DEVICE_REMOVE, lv_task_name env lv, []⟩

/-- The log up to the `dm_task_run` of `lv_deactivate`. -/
def remove_log (env : dm_env) (lv : logical_volume) (w : List event) : List event :=
  w ++ [event.task_create DM_DEVICE_REMOVE, event.set_name (lv_task_name env lv),
    event.run (remove_task env lv)]

/-- Collaborators that accept every call but `dm_task_create`. -/
def env_no_task : dm_env :=
  { answer := fun w => match w.getLast? with
      | some (event.task_create _) => 0
      | _ => 1
    info := fun _ => ⟨0, 0⟩, stack := [] }

/-- Collaborators that accept every call but `fs_add_lv`. -/
def env_fs_add_fails : dm_env :=
  { answer := fun w => match w.getLast? with
      | some (event.fs_add_lv _ _) => 0
      | _ => 1
    info := fun _ => ⟨0, 0⟩, stack := [] }

/-- Collaborators that accept every call but the run of a task after an earlier run. -/
def env_one_run : dm_env :=
  { answer := fun w => match w.getLast? with
      | some (event.run _) => if (runs w).length = 1 then 1 else 0
      | _ => 1
    info := fun _ => ⟨0, 0⟩, stack := [] }

/-- Collaborators that accept every call but `dm_task_run`. -/
def env_run_fails : dm_env :=
  { answer := fun w => match w.getLast? with
      | some (event.run _) => 0
      | _ => 1
    info := fun _ => ⟨0, 0⟩, stack := [] }

/-! ## Batch operations, LV by LV -/

/-- What `activate_lvs_in_vg` meets at each LV, in list order: the value `lv_active` returns
in the state the earlier LVs left, and the value `lv_activate` returns when it is called. -/
def activation_results (env : dm_env) :
    List logical_volume → List event → List (Int × Option Int)
  | [], _ => []
  | lv :: rest, w =>
    let a := lv_active env lv w
    if a.1 = 0 then
      let r := lv_activate env lv a.2
      (a.1, some r.1) :: activation_results env rest r.2
    else (a.1, none) :: activation_results env rest a.2

/-- The tasks created for a list of such visits: an INFO task for every LV, followed by a
CREATE task where `lv_activate` was called. -/
def visit_tasks : List (Int × Option Int) → List dm_task_type
  | [] => []
  | (_, none) :: rest => DM_DEVICE_INFO :: visit_tasks rest
  | (_, some _) :: rest => DM_DEVICE_INFO :: DM_DEVICE_CREATE :: visit_tasks rest

/-- The visit ended with an activation that succeeded. -/
def activated (x : Int × Option Int) : Bool :=
  match x.2 with
  | some r => r != 0
  | none => false

/-- The values the `lv_open_count` calls of `lvs_in_vg_opened` return, in list order, each
in the state the earlier LVs left. -/
def open_count_results (env : dm_env) : List logical_volume → List event → List Int
  | [], _ => []
  | lv :: rest, w =>
    (lv_open_count env lv w).1 :: open_count_results env rest (lv_open_count env lv w).2

/-- The VG "vg0" with the LVs "data" and "home" of scenarios 2 and 1 (§8) and an LV "swap"
without segments. -/
def vg_batch : volume_group :=
  { name := "vg0".toList, extent_size := 8192
    lvs := [lv_two, lv_home, ⟨⟨"vg0".toList, 8192⟩, "swap".toList, []⟩] }

/-- Collaborators for `vg_batch`: "vg0_home" exists with open count 2, the others do not
exist and have open count 1; the run of the CREATE task for "vg0_data" fails, every other
call succeeds. -/
def env_batch : dm_env :=
  { answer := fun w => match w.getLast? with
      | some (event.run t) =>
        if t.kind = DM_DEVICE_CREATE ∧ t.name = "vg0_data".toList then 0 else 1
      | _ => 1
    info := fun w => match w.getLast? with
      | some (event.get_info t) => if t.name = "vg0_home".toList then ⟨1, 2⟩ else ⟨0, 1⟩
      | _ => ⟨0, 0⟩
    stack := [] }

/-- Collaborators for `vg_batch` as `env_batch`, but the run of every INFO task for
"vg0_swap" fails. -/
def env_batch_info : dm_env :=
  { env_batch with
    answer := fun w => match w.getLast? with
      | some (event.run t) =>
        if t.kind = DM_DEVICE_INFO ∧ t.name = "vg0_swap".toList then 0 else 1
      | _ => 1 }

/-- The sample view with a uuid region of 200 bytes, which is not a multiple of `NAME_LEN`:
it ends at byte 856. -/
def view_odd : disk_list :=
  { view_sample with pvd := { pvd_sample with pv_uuidlist_on_disk := ⟨656, 200⟩ } }

/-- The sample view with a third uuid. -/
def view_three : disk_list :=
  { view_sample with uuids := view_sample.uuids ++ [List.replicate 128 67 ++ [0]] }

/-- The segment of scenario 1 (§8) on a device whose name has 1100 characters: the
parameter text `"<name> 41344"` has 1106. -/
def seg_wide : stripe_segment :=
  { seg_home with area := [⟨⟨⟨List.replicate 1100 'x', []⟩, 384⟩, 5⟩] }

/-- A version-1 PV record whose `vg_name` field holds 128 bytes 'A' and no NUL, with the
system id "sys". -/
def pvd_run_on : pv_disk :=
  { pvd_sample with vg_name := List.replicate 128 65, system_id := name_bytes "sys" }

/-- A device that holds `pvd_run_on`, followed at byte 468 by a VG record (two PVs, one LV)
and, up to byte 3600, by bytes of value 9. -/
def dev_run_on : device :=
  ⟨"/dev/sdh".toList,
   mem_pvd false pvd_run_on ++ mem_vgd false vgd_sample ++ List.replicate 2944 9⟩

/-- The string of 128 characters 'A' followed by "sys". -/
def name_run_on : List Nat := List.replicate 128 65 ++ [115, 121, 115]

/-- The first `sizeof(struct pv_disk)` bytes of the device, where `_write_pvd` puts the PV
record whatever `pv_on_disk` says, overlap none of the four other regions. -/
def record_clear (p : pv_disk) : Prop :=
  disjoint_areas ⟨0, sizeof_pv_disk⟩ p.vg_on_disk ∧
  disjoint_areas ⟨0, sizeof_pv_disk⟩ p.pv_uuidlist_on_disk ∧
  disjoint_areas ⟨0, sizeof_pv_disk⟩ p.lv_on_disk ∧
  disjoint_areas ⟨0, sizeof_pv_disk⟩ p.pe_on_disk

instance (p : pv_disk) : Decidable (record_clear p) := by
  unfold record_clear; exact inferInstance

/-- The segment of scenario 1 (§8) on a PV whose data starts at sector `2^64 - 1`. -/
def seg_wrap : stripe_segment :=
  { seg_home with area := [⟨⟨⟨"/dev/sda".toList, []⟩, 18446744073709551615⟩, 5⟩] }

/-- The task without rows `_suspend` builds for an LV: SUSPEND or RESUME. -/
def plain_task (env : dm_env) (lv : logical_volume) (k : dm_task_type) : dm_task :=
  ⟨k, lv_task_name env lv, []⟩

/-- The log up to the `dm_task_run` of a task without rows of kind `k`. -/
def plain_log (env : dm_env) (lv : logical_volume) (k : dm_task_type) (w : List event) :
    List event :=
  w ++ [event.task_create k, event.set_name (lv_task_name env lv),
    event.run (plain_task env lv k)]

/-! # Theorems -/

/-! ## Loop bounds

One more iteration than the bound a caller passes changes nothing: the loops stop on their
own condition, never on the bound. -/

theorem read_uuids_loop_bound (pv_cur end_ : Nat) (fuel : Nat) :
    ∀ (pos num_read : Nat) (uuids : List (List Nat)) (dev : device),
      pv_cur ≤ num_read + fuel →
      _read_uuids_loop pv_cur end_ (fuel + 1) pos num_read uuids dev
        = _read_uuids_loop pv_cur end_ fuel pos num_read uuids dev := by
  induction fuel with
  | zero =>
    intro pos num_read uuids dev h
    have : ¬ (pos < end_ ∧ num_read < pv_cur) := by omega
    simp [_read_uuids_loop, this]
  | succ fuel ih =>
    intro pos num_read uuids dev h
    rw [_read_uuids_loop]
    conv_rhs => rw [_read_uuids_loop]
    split
    · dsimp only
      split
      · rfl
      · exact ih _ _ _ _ (by omega)
    · rfl

theorem read_lvs_loop_bound (be : Bool) (base lv_max lv_cur : Nat) (fuel : Nat) :
    ∀ (i read : Nat) (lvds : List lv_disk) (dev : device), lv_max ≤ i + fuel →
      _read_lvs_loop be base lv_max lv_cur (fuel + 1) i read lvds dev
        = _read_lvs_loop be base lv_max lv_cur fuel i read lvds dev := by
  induction fuel with
  | zero =>
    intro i read lvds dev h
    have : ¬ (i < lv_max ∧ read < lv_cur) := by omega
    simp [_read_lvs_loop, this]
  | succ fuel ih =>
    intro i read lvds dev h
    rw [_read_lvs_loop]
    conv_rhs => rw [_read_lvs_loop]
    split
    · dsimp only
      split
      · rfl
      · split
        · exact ih _ _ _ _ (by omega)
        · exact ih _ _ _ _ (by omega)
    · rfl

theorem emit_target_loop_bound (seg : stripe_segment) (fuel : Nat) :
    ∀ (s w : Nat) (params : List Char), seg.stripes ≤ s + fuel →
      _emit_target_loop seg (fuel + 1) s w params = _emit_target_loop seg fuel s w params := by
  induction fuel with
  | zero =>
    intro s w params h
    have : ¬ s < seg.stripes := by omega
    simp [_emit_target_loop, this]
  | succ fuel ih =>
    intro s w params h
    rw [_emit_target_loop]
    conv_rhs => rw [_emit_target_loop]
    split
    · dsimp only
      split
      · rfl
      · exact ih _ _ _ (by omega)
    · rfl

/-! ## Version handling -/

theorem read_disk_fst_of_munge_none (be : Bool) (dev : device) (mem : disk_list)
    (vg_name : Option (List Nat)) (h : _munge_formats (pv_record be dev) = none) :
    (read_disk be dev mem vg_name).1 = none := by
  unfold read_disk _read_pvd
  by_cases hl : (dev_read dev 0 sizeof_pv_disk).1.length ≠ sizeof_pv_disk
  · simp [hl]
  · simp only [hl, if_false]
    unfold pv_record at h
    simp only [h]
    split <;> rfl

/-- C3: `_munge_formats` succeeds exactly for versions 1 and 2; `read_disk` returns no
view for a device whose PV record has another version; for a version-2 record the result
has version 1 and `pe_on_disk.size = pe_start * SECTOR_SIZE - pe_on_disk.base` in 32-bit
arithmetic, every other field being unchanged. -/
theorem munge_formats_versions (p : pv_disk) (be : Bool) (dev : device) (mem : disk_list)
    (vg_name : Option (List Nat)) :
    ((_munge_formats p).isSome = true ↔ (p.version = 1 ∨ p.version = 2)) ∧
    ((pv_record be dev).version ≠ 1 ∧ (pv_record be dev).version ≠ 2 →
      (read_disk be dev mem vg_name).1 = none) ∧
    (p.version = 2 → ∃ r, _munge_formats p = some r ∧ r.version = 1 ∧
      (r.pe_on_disk.size : Int)
        = ((p.pe_start : Int) * SECTOR_SIZE - p.pe_on_disk.base) % (U32 : Int) ∧
      r.pe_start = p.pe_start ∧ r.pe_on_disk.base = p.pe_on_disk.base ∧
      r = { p with version := 1
                   pe_on_disk := { p.pe_on_disk with size := r.pe_on_disk.size } }) := by
  refine ⟨?_, ?_, ?_⟩
  · unfold _munge_formats
    by_cases h1 : p.version = 1
    · simp [h1]
    · by_cases h2 : p.version = 2
      · simp [h2]
      · simp [h1, h2]
  · rintro ⟨h1, h2⟩
    apply read_disk_fst_of_munge_none
    unfold _munge_formats
    simp [h1, h2]
  · intro h2
    have h1 : p.version ≠ 1 := by omega
    have hm : _munge_formats p = some { p with
        version := 1
        pe_on_disk := { p.pe_on_disk with
          size := ((p.pe_start * SECTOR_SIZE) % U32 + U32 - p.pe_on_disk.base % U32) % U32 } } := by
      unfold _munge_formats; rw [if_neg h1, if_pos h2]
    refine ⟨_, hm, rfl, ?_, rfl, rfl, rfl⟩
    simp only [U32, SECTOR_SIZE]
    omega

/-- C3, at a version-2 record and at a device whose record has version 3. -/
theorem munge_formats_versions_witness :
    (pvd_v2.version = 2 ∧ _munge_formats pvd_v2 = some { pvd_v2 with
        version := 1, pe_on_disk := ⟨1024, 3072⟩ }) ∧
    (((pv_record false dev_v3).version ≠ 1 ∧ (pv_record false dev_v3).version ≠ 2) ∧
      (read_disk false dev_v3 ⟨pvd_v2, ⟨[], 0, 0, 0, 0, 0, 0, 0, 0, 0, 0, 0, 0, 0, 0, 0⟩, [], [], []⟩
        none).1 = none) := by
  refine ⟨⟨by decide, by decide⟩, ⟨by decide, by decide⟩, ?_⟩
  exact (munge_formats_versions pvd_v2 false dev_v3 _ none).2.1 ⟨by decide, by decide⟩

/-- C4, as stated, fails: for the version-2 record whose `pe_start` is `2^23` sectors the
byte offset `pe_start * SECTOR_SIZE` wraps to 0; migrating the record keeps `pe_start`, and
migrating the adjusted version-1 record (or migrating a second time) sets `pe_start` to 0. -/
theorem munge_formats_not_idempotent :
    pvd_v2_far.version = 2 ∧
    _munge_formats (v1_adjusted pvd_v2_far) ≠ _munge_formats pvd_v2_far ∧
    (_munge_formats pvd_v2_far).bind _munge_formats ≠ _munge_formats pvd_v2_far := by
  decide

/-- C4, amended: for a version-2 record whose `pe_start * SECTOR_SIZE` is below `2^32`,
migrating the record gives the same result as migrating the version-1 record adjusted per
§3.1, and migrating a second time changes nothing. -/
theorem munge_formats_normalizes (p : pv_disk) (hv : p.version = 2)
    (hs : p.pe_start * SECTOR_SIZE < U32) :
    _munge_formats (v1_adjusted p) = _munge_formats p ∧
    (_munge_formats p).bind _munge_formats = _munge_formats p ∧
    _munge_formats p = some (v1_adjusted p) := by
  have h1 : p.version ≠ 1 := by omega
  have hsz : Int.toNat (((p.pe_start : Int) * SECTOR_SIZE - p.pe_on_disk.base) % (U32 : Int))
      = ((p.pe_start * SECTOR_SIZE) % U32 + U32 - p.pe_on_disk.base % U32) % U32 := by
    simp only [U32, SECTOR_SIZE] at *
    omega
  have hm : _munge_formats p = some (v1_adjusted p) := by
    unfold _munge_formats v1_adjusted
    rw [if_neg h1, if_pos hv, hsz]
  have hps : ((v1_adjusted p).pe_on_disk.base + (v1_adjusted p).pe_on_disk.size) % U32
      / SECTOR_SIZE = p.pe_start := by
    show (p.pe_on_disk.base + Int.toNat _) % U32 / SECTOR_SIZE = p.pe_start
    simp only [U32, SECTOR_SIZE] at *
    omega
  have hm2 : _munge_formats (v1_adjusted p) = some (v1_adjusted p) := by
    have hv1 : (v1_adjusted p).version = 1 := rfl
    unfold _munge_formats
    rw [if_pos hv1, hps]
    rfl
  refine ⟨by rw [hm2, hm], ?_, hm⟩
  rw [hm]
  exact hm2

/-- C4, amended, at a version-2 record with `pe_start = 8`. -/
theorem munge_formats_normalizes_witness :
    (pvd_v2.version = 2 ∧ pvd_v2.pe_start * SECTOR_SIZE < U32) ∧
    _munge_formats (v1_adjusted pvd_v2) = _munge_formats pvd_v2 ∧
    (_munge_formats pvd_v2).bind _munge_formats = _munge_formats pvd_v2 ∧
    _munge_formats pvd_v2 = some (v1_adjusted pvd_v2) :=
  ⟨by decide, munge_formats_normalizes pvd_v2 (by decide) (by decide)⟩

/-! ## Endian conversion -/

theorem le_bytes_length (n v : Nat) : (le_bytes n v).length = n := by
  induction n generalizing v with
  | zero => rfl
  | succ n ih => simp [le_bytes, ih]

theorem le_bytes_lt (n v : Nat) : ∀ b ∈ le_bytes n v, b < 256 := by
  induction n generalizing v with
  | zero => simp [le_bytes]
  | succ n ih =>
    intro b hb
    simp only [le_bytes, List.mem_cons] at hb
    rcases hb with hb | hb
    · omega
    · exact ih _ b hb

theorem le_bytes_is_bytes (n v : Nat) : is_bytes n (le_bytes n v) :=
  ⟨le_bytes_length n v, le_bytes_lt n v⟩

theorem is_bytes_reverse {n : Nat} {l : List Nat} (h : is_bytes n l) : is_bytes n l.reverse :=
  ⟨by simpa using h.1, fun b hb => h.2 b (by simpa using hb)⟩

theorem le_bytes_le_val {n : Nat} {bs : List Nat} (h : is_bytes n bs) :
    le_bytes n (le_val bs) = bs := by
  induction bs generalizing n with
  | nil =>
    have : n = 0 := by simpa using h.1.symm
    subst this; rfl
  | cons b bs ih =>
    obtain ⟨hl, hb⟩ := h
    cases n with
    | zero => simp at hl
    | succ n =>
      have hb0 : b < 256 := hb b (by simp)
      have hrest : is_bytes n bs :=
        ⟨by simpa using hl, fun c hc => hb c (by simp [hc])⟩
      have h1 : (b % 256 + 256 * le_val bs) % 256 = b := by omega
      have h2 : (b % 256 + 256 * le_val bs) / 256 = le_val bs := by omega
      simp only [le_val, le_bytes, h1, h2, ih hrest]

theorem le_val_le_bytes (n v : Nat) : le_val (le_bytes n v) = v % 256 ^ n := by
  induction n generalizing v with
  | zero => simp [le_bytes, le_val, Nat.mod_one]
  | succ n ih =>
    simp only [le_bytes, le_val, ih, Nat.mod_mod]
    rw [pow_succ, Nat.mul_comm (256 ^ n) 256, Nat.mod_mul]

theorem bswap_bswap (n v : Nat) : bswap n (bswap n v) = v % 256 ^ n := by
  unfold bswap
  rw [le_bytes_le_val (is_bytes_reverse (le_bytes_is_bytes n v)), List.reverse_reverse,
    le_val_le_bytes]

/-- The byte swap of a 16-bit integer exchanges its two bytes. -/
theorem bswap_two (v : Nat) : bswap 2 v = (v % 256) * 256 + (v / 256) % 256 := by
  simp only [bswap, le_bytes, le_val, List.reverse_cons, List.reverse_nil, List.nil_append,
    List.cons_append]
  omega

/-- The byte swap of a 32-bit integer reverses its four bytes. -/
theorem bswap_four (v : Nat) :
    bswap 4 v = (v % 256) * 16777216 + (v / 256 % 256) * 65536
      + (v / 256 / 256 % 256) * 256 + (v / 256 / 256 / 256) % 256 := by
  simp only [bswap, le_bytes, le_val, List.reverse_cons, List.reverse_nil, List.nil_append,
    List.cons_append]
  omega

theorem xlate16_xlate16 (be : Bool) {v : Nat} (h : v < U16) : xlate16 be (xlate16 be v) = v := by
  cases be
  · rfl
  · simp only [xlate16, if_true, bswap_bswap]
    exact Nat.mod_eq_of_lt (by simpa [U16] using h)

theorem xlate32_xlate32 (be : Bool) {v : Nat} (h : v < U32) : xlate32 be (xlate32 be v) = v := by
  cases be
  · rfl
  · simp only [xlate32, if_true, bswap_bswap]
    exact Nat.mod_eq_of_lt (by simpa [U32] using h)

theorem xlate_area_twice (be : Bool) {a : data_area} (h : valid_area a) :
    _xlate_area be (_xlate_area be a) = a := by
  obtain ⟨h1, h2⟩ := h
  simp [_xlate_area, xlate32_xlate32 be h1, xlate32_xlate32 be h2]

theorem xlate_pvd_twice (be : Bool) {p : pv_disk} (h : valid_pvd p) :
    _xlate_pvd be (_xlate_pvd be p) = p := by
  obtain ⟨-, h1, h2, h3, h4, h5, h6, -, -, -, h7, h8, h9, h10, h11, h12, h13, h14, h15, h16⟩ := h
  simp [_xlate_pvd, xlate16_xlate16, xlate32_xlate32, xlate_area_twice, *]

theorem xlate_lvd_twice (be : Bool) {l : lv_disk} (h : valid_lvd l) :
    _xlate_lvd be (_xlate_lvd be l) = l := by
  obtain ⟨-, -, h1, h2, h3, h4, h5, h6, h7, h8, h9, h10, h11, h12, h13, h14, h15, h16, h17,
    h18, h19⟩ := h
  simp [_xlate_lvd, xlate16_xlate16, xlate32_xlate32, *]

theorem xlate_vgd_twice (be : Bool) {v : vg_disk} (h : valid_vgd v) :
    _xlate_vgd be (_xlate_vgd be v) = v := by
  obtain ⟨-, h1, h2, h3, h4, h5, h6, h7, h8, h9, h10, h11, h12, h13, h14, h15⟩ := h
  simp [_xlate_vgd, xlate32_xlate32, *]

theorem xlate_extent_twice (be : Bool) {e : pe_disk} (h : valid_pe e) :
    _xlate_extent be (_xlate_extent be e) = e := by
  obtain ⟨h1, h2⟩ := h
  simp [_xlate_extent, xlate16_xlate16, *]

theorem xlate_extents_loop_twice (be : Bool) (es : List pe_disk) (n : Nat)
    (h : ∀ e ∈ es, valid_pe e) :
    _xlate_extents_loop be (_xlate_extents_loop be es n) n = es := by
  induction es generalizing n with
  | nil => simp [_xlate_extents_loop]
  | cons e es ih =>
    cases n with
    | zero => simp [_xlate_extents_loop]
    | succ c =>
      simp only [_xlate_extents_loop]
      rw [xlate_extent_twice be (h e (by simp)), ih c (fun x hx => h x (by simp [hx]))]

theorem xlate_extents_loop_length (be : Bool) (es : List pe_disk) (n : Nat) :
    (_xlate_extents_loop be es n).length = es.length := by
  induction es generalizing n with
  | nil => simp [_xlate_extents_loop]
  | cons e es ih => cases n <;> simp [_xlate_extents_loop, ih]

theorem xlate_extents_loop_drop (be : Bool) (es : List pe_disk) (n : Nat) :
    (_xlate_extents_loop be es n).drop n = es.drop n := by
  induction es generalizing n with
  | nil => simp [_xlate_extents_loop]
  | cons e es ih => cases n <;> simp [_xlate_extents_loop, ih]

theorem xlate_extents_loop_take (be : Bool) (es : List pe_disk) (n : Nat) :
    (_xlate_extents_loop be es n).take n = (es.take n).map (_xlate_extent be) := by
  induction es generalizing n with
  | nil => simp [_xlate_extents_loop]
  | cons e es ih => cases n <;> simp [_xlate_extents_loop, ih]

/-- C2: on either host (`be = false`: the xlate primitives are the identity, `be = true`:
they swap bytes), each of the four codecs applied twice to a record whose fields fit their C
types gives back the record, for `_xlate_extents` with any `count`; one application leaves
the byte arrays of the record as they were, and `_xlate_extents` converts the first `count`
entries and leaves the others as they were. -/
theorem xlate_involution (be : Bool) (p : pv_disk) (l : lv_disk) (v : vg_disk)
    (es : List pe_disk) (count : Int)
    (hp : valid_pvd p) (hl : valid_lvd l) (hv : valid_vgd v) (he : ∀ e ∈ es, valid_pe e) :
    (_xlate_pvd be (_xlate_pvd be p) = p ∧ _xlate_lvd be (_xlate_lvd be l) = l ∧
      _xlate_vgd be (_xlate_vgd be v) = v ∧
      _xlate_extents be (_xlate_extents be es count) count = es) ∧
    ((_xlate_pvd be p).id = p.id ∧ (_xlate_pvd be p).pv_uuid = p.pv_uuid ∧
      (_xlate_pvd be p).vg_name = p.vg_name ∧ (_xlate_pvd be p).system_id = p.system_id) ∧
    ((_xlate_lvd be l).lv_name = l.lv_name ∧ (_xlate_lvd be l).vg_name = l.vg_name) ∧
    (_xlate_vgd be v).vg_uuid = v.vg_uuid ∧
    ((_xlate_extents be es count).length = es.length ∧
      (_xlate_extents be es count).take count.toNat
        = (es.take count.toNat).map (_xlate_extent be) ∧
      (_xlate_extents be es count).drop count.toNat = es.drop count.toNat) :=
  ⟨⟨xlate_pvd_twice be hp, xlate_lvd_twice be hl, xlate_vgd_twice be hv,
      xlate_extents_loop_twice be es count.toNat he⟩,
    ⟨rfl, rfl, rfl, rfl⟩, ⟨rfl, rfl⟩, rfl,
    ⟨xlate_extents_loop_length be es count.toNat, xlate_extents_loop_take be es count.toNat,
      xlate_extents_loop_drop be es count.toNat⟩⟩

/-- C2 on a big-endian host, at sample records and a two-entry extent array of which the
first entry is converted. -/
theorem xlate_involution_witness :
    (valid_pvd pvd_v2 ∧ valid_lvd lvd_sample ∧ valid_vgd vgd_sample ∧
      ∀ e ∈ [(⟨1, 0⟩ : pe_disk), ⟨258, 3⟩], valid_pe e) ∧
    (_xlate_pvd true pvd_v2).version = 512 ∧
    (_xlate_lvd true lvd_sample).lv_read_ahead = 67305985 ∧
    _xlate_extents true [⟨1, 0⟩, ⟨258, 3⟩] 1 = [⟨256, 0⟩, ⟨258, 3⟩] ∧
    _xlate_pvd true (_xlate_pvd true pvd_v2) = pvd_v2 ∧
    _xlate_lvd true (_xlate_lvd true lvd_sample) = lvd_sample ∧
    _xlate_vgd true (_xlate_vgd true vgd_sample) = vgd_sample ∧
    _xlate_extents true (_xlate_extents true [⟨1, 0⟩, ⟨258, 3⟩] 1) 1 = [⟨1, 0⟩, ⟨258, 3⟩] := by
  have h := xlate_involution true pvd_v2 lvd_sample vgd_sample [⟨1, 0⟩, ⟨258, 3⟩] 1
    (by decide) (by decide) (by decide) (by decide)
  exact ⟨⟨by decide, by decide, by decide, by decide⟩, by decide, by decide, by decide,
    h.1.1, h.1.2.1, h.1.2.2.1, h.1.2.2.2⟩

/-! ## Target rows -/

theorem ite_ne_nul {P : Prop} [Decidable P] {a b : Char} (ha : a ≠ NUL) (hb : b ≠ NUL) :
    (if P then a else b) ≠ NUL := by
  split <;> assumption

theorem digitChar_ne_nul (n : Nat) : Nat.digitChar n ≠ NUL := by
  unfold Nat.digitChar
  iterate 16 refine ite_ne_nul (by decide) ?_
  decide

theorem toDigitsCore_ne_nul (b : Nat) (f n : Nat) (ds : List Char)
    (h : ∀ c ∈ ds, c ≠ NUL) : ∀ c ∈ Nat.toDigitsCore b f n ds, c ≠ NUL := by
  induction f generalizing n ds with
  | zero => simpa [Nat.toDigitsCore] using h
  | succ f ih =>
    have hd : ∀ c ∈ Nat.digitChar (n % b) :: ds, c ≠ NUL := by
      intro c hc
      rcases List.mem_cons.1 hc with hc | hc
      · rw [hc]; exact digitChar_ne_nul _
      · exact h c hc
    unfold Nat.toDigitsCore
    simp only
    split
    · exact hd
    · exact ih _ _ hd

theorem toDigits_ne_nul (n : Nat) : ∀ c ∈ Nat.toDigits 10 n, c ≠ NUL :=
  toDigitsCore_ne_nul 10 (n + 1) n [] (by simp)

theorem cstring_append_nul (t rest : List Char) (h : ∀ c ∈ t, c ≠ NUL) :
    cstring (t ++ NUL :: rest) = t := by
  induction t with
  | nil => simp [cstring, List.takeWhile]
  | cons c t ih =>
    have hc : c ≠ NUL := h c (by simp)
    have := ih (fun x hx => h x (by simp [hx]))
    have hd : decide (c ≠ NUL) = true := decide_eq_true hc
    simp only [cstring] at this ⊢
    simp only [List.cons_append, List.takeWhile_cons, hd, this, if_true]

/-- `snprintf` at the end of `pre` when the text and its NUL fit in what follows. -/
theorem snprintf_fit (pre post text : List Char) (size : Nat)
    (hs : text.length + 1 ≤ size) (hp : text.length + 1 ≤ post.length) :
    snprintf (pre ++ post) pre.length size text
      = ((text.length : Int), pre ++ (text ++ NUL :: post.drop (text.length + 1))) := by
  have hs0 : size ≠ 0 := by omega
  unfold snprintf
  simp only [hs0, if_false]
  have ht : List.take (size - 1) text = text := List.take_of_length_le (by omega)
  rw [ht]
  have hlen : (text ++ [NUL]).length = text.length + 1 := by simp
  rw [hlen, List.take_left' rfl, List.drop_append, List.append_assoc]
  congr 1
  apply List.take_of_length_le
  simp only [List.length_append, List.length_cons, List.length_drop, List.length_nil]
  omega

theorem emit_target_loop_fit (seg : stripe_segment) (fuel : Nat) :
    ∀ (s : Nat) (pre post : List Char), 1 ≤ fuel → s + fuel = seg.stripes →
      (pre ++ post).length = 1024 →
      pre.length + (stripes_text seg s fuel).length + 1 ≤ 1024 →
      _emit_target_loop seg fuel s pre.length (pre ++ post)
        = some (pre ++ (stripes_text seg s fuel
            ++ NUL :: post.drop ((stripes_text seg s fuel).length + 1))) := by
  induction fuel with
  | zero => intro s pre post h; omega
  | succ fuel ih =>
    intro s pre post _ hsf hlen hfit
    have hs : s < seg.stripes := by omega
    simp only [stripes_text, List.length_append] at hfit ⊢
    simp only [List.length_append] at hlen
    have hsize : (1024 + U64 - pre.length % U64) % U64 = 1024 - pre.length := by
      simp only [U64]; omega
    unfold _emit_target_loop
    simp only [hs, if_true, hsize]
    rw [snprintf_fit pre post (stripe_text seg s) _ (by omega) (by omega)]
    have hneg : ¬ ((stripe_text seg s).length : Int) < 0 := by omega
    simp only [hneg, if_false, Int.toNat_ofNat]
    cases fuel with
    | zero =>
      simp [_emit_target_loop, stripes_text]
    | succ f =>
      have h := ih (s + 1) (pre ++ stripe_text seg s)
        (NUL :: post.drop ((stripe_text seg s).length + 1)) (by omega) (by omega)
        (by simp only [List.length_append, List.length_cons, List.length_drop]; omega)
        (by simp only [List.length_append]; omega)
      simp only [List.length_append, List.append_assoc] at h
      rw [h]
      simp only [List.append_assoc, List.drop_succ_cons, List.drop_drop]
      rw [Nat.add_right_comm]

theorem stack_buffer_length (env : dm_env) (n : Nat) : (stack_buffer env n).length = n := by
  simp [stack_buffer]

theorem stripes_text_eq (seg : stripe_segment) (harea : seg.area.length = seg.stripes)
    (h64 : seg_fits64 seg) (n : Nat) :
    ∀ s, s + n = seg.stripes →
      stripes_text seg s n = join_sp ((seg.area.drop s).map (area_text seg.vg.extent_size)) := by
  induction n with
  | zero =>
    intro s hs
    have : seg.area.drop s = [] := List.drop_of_length_le (by omega)
    simp [stripes_text, this, join_sp]
  | succ n ih =>
    intro s hs
    have hlt : s < seg.area.length := by omega
    have hd : seg.area.drop s = seg.area[s] :: seg.area.drop (s + 1) :=
      List.drop_eq_getElem_cons hlt
    have hg : seg.area.getD s ⟨⟨⟨[], []⟩, 0⟩, 0⟩ = seg.area[s] := by
      simp [List.getD_eq_getElem?_getD, List.getElem?_eq_getElem hlt]
    have hb := h64.2.2 seg.area[s] (List.getElem_mem hlt)
    have hm : (seg.area[s].pv.pe_start + seg.vg.extent_size * seg.area[s].pe % U64) % U64
        = seg.area[s].pv.pe_start + seg.vg.extent_size * seg.area[s].pe := by
      rw [Nat.mod_eq_of_lt (a := seg.vg.extent_size * seg.area[s].pe) (by omega),
        Nat.mod_eq_of_lt hb]
    have hih := ih (s + 1) (by omega)
    rw [hd]
    cases n with
    | zero =>
      have he : seg.area.drop (s + 1) = [] := List.drop_of_length_le (by omega)
      have hs1 : s = seg.stripes - 1 := by omega
      rw [he] at hih ⊢
      simp only [stripes_text, stripe_text, hg, hm, hih, List.map_cons]
      simp [join_sp, area_text, ← hs1]
    | succ m =>
      have hlt2 : s + 1 < seg.area.length := by omega
      have hs1 : ¬ s = seg.stripes - 1 := by omega
      rw [List.drop_eq_getElem_cons hlt2] at hih ⊢
      simp only [stripes_text, stripe_text, hg, hm, List.map_cons] at hih ⊢
      rw [hih]
      simp [join_sp, area_text, hs1]

theorem join_sp_ne_nul (items : List (List Char)) (h : ∀ i ∈ items, ∀ c ∈ i, c ≠ NUL) :
    ∀ c ∈ join_sp items, c ≠ NUL := by
  induction items with
  | nil => simp [join_sp]
  | cons x r ih =>
    cases r with
    | nil => simpa [join_sp] using h
    | cons y r =>
      intro c hc
      simp only [join_sp, List.mem_append, List.mem_cons] at hc
      rcases hc with hc | hc | hc
      · exact h x (by simp) c hc
      · rw [hc]; decide
      · exact ih (fun i hi => h i (by simp [hi])) c hc

theorem params_text_ne_nul (seg : stripe_segment)
    (hnul : ∀ a ∈ seg.area, ∀ c ∈ dev_name a.pv.dev, c ≠ NUL) :
    ∀ c ∈ params_text seg, c ≠ NUL := by
  apply join_sp_ne_nul
  intro i hi c hc
  obtain ⟨a, ha, rfl⟩ := List.mem_map.1 hi
  simp only [area_text, List.mem_append, List.mem_cons] at hc
  rcases hc with hc | hc | hc
  · exact hnul a ha c hc
  · rw [hc]; decide
  · exact toDigits_ne_nul _ c hc

/-- C7, amended: for a segment with at least one stripe, an area per stripe, device names
that are C strings, sector numbers that fit 64 bits and a parameter text that fits the
1024-byte buffer with its NUL, `_emit_target` makes exactly one collaborator call, the
`dm_task_add_target` of the row of §4.F (start `extent_size * le`, length
`extent_size * len`, "linear" for one stripe and "striped" otherwise, the items
`"<dev> <pe_start + extent_size * pe>"` joined by single blanks), and returns 1 or 0 as that
call returned non-zero or zero. -/
theorem emit_target_row (env : dm_env) (dmt : dm_task) (seg : stripe_segment)
    (w : List event) (hst : 1 ≤ seg.stripes) (harea : seg.area.length = seg.stripes)
    (hnul : ∀ a ∈ seg.area, ∀ c ∈ dev_name a.pv.dev, c ≠ NUL) (h64 : seg_fits64 seg)
    (hfit : (params_text seg).length + 1 ≤ 1024) :
    _emit_target env dmt seg w =
      (if env.answer (w ++ [event.add_target (spec_target_row seg)]) = 0 then 0 else 1,
       if env.answer (w ++ [event.add_target (spec_target_row seg)]) = 0 then dmt
       else { dmt with targets := dmt.targets ++ [spec_target_row seg] },
       w ++ [event.add_target (spec_target_row seg)]) := by
  have ht : stripes_text seg 0 seg.stripes = params_text seg := by
    rw [stripes_text_eq seg harea h64 seg.stripes 0 (by omega)]
    simp [params_text]
  have hloop := emit_target_loop_fit seg seg.stripes 0 [] (stack_buffer env 1024) hst
    (by omega) (by simp [stack_buffer_length]) (by rw [ht]; simpa using hfit)
  simp only [List.length_nil, List.nil_append, ht] at hloop
  have hrow : target_row seg (params_text seg
      ++ NUL :: List.drop ((params_text seg).length + 1) (stack_buffer env 1024))
      = spec_target_row seg := by
    unfold target_row spec_target_row
    rw [cstring_append_nul _ _ (params_text_ne_nul seg hnul), Nat.mod_eq_of_lt h64.1,
      Nat.mod_eq_of_lt h64.2.1]
  unfold _emit_target
  rw [hloop]
  simp only [dm_task_add_target, hrow]
  split <;> rfl

/-- C7, amended, at scenario 1 of §8: one `linear` row, start 0, length 81920, parameters
`"/dev/sda 41344"`. -/
theorem emit_target_row_witness :
    spec_target_row seg_home
      = ⟨0, 81920, "linear".toList, "/dev/sda 41344".toList⟩ ∧
    _emit_target env_ok ⟨DM_DEVICE_CREATE, [], []⟩ seg_home [] =
      (1, ⟨DM_DEVICE_CREATE, [], [⟨0, 81920, "linear".toList, "/dev/sda 41344".toList⟩]⟩,
       [event.add_target ⟨0, 81920, "linear".toList, "/dev/sda 41344".toList⟩]) := by
  have h := emit_target_row env_ok ⟨DM_DEVICE_CREATE, [], []⟩ seg_home []
    (by decide) (by decide) (by decide) (by decide) (by decide)
  have hr : spec_target_row seg_home
      = ⟨0, 81920, "linear".toList, "/dev/sda 41344".toList⟩ := by decide
  refine ⟨hr, ?_⟩
  rw [h, hr]
  rfl

/-! ## Reactivation -/

theorem creates_append (a b : List event) : creates (a ++ b) = creates a ++ creates b := by
  induction a with
  | nil => rfl
  | cons e a ih => cases e <;> simp [creates, ih]

theorem runs_append (a b : List event) : runs (a ++ b) = runs a ++ runs b := by
  induction a with
  | nil => rfl
  | cons e a ih => cases e <;> simp [runs, ih]

theorem rows_append (a b : List event) : rows (a ++ b) = rows a ++ rows b := by
  induction a with
  | nil => rfl
  | cons e a ih => cases e <;> simp [rows, ih]

theorem fs_adds_append (a b : List event) : fs_adds (a ++ b) = fs_adds a ++ fs_adds b := by
  induction a with
  | nil => rfl
  | cons e a ih => cases e <;> simp [fs_adds, ih]

theorem setup_task_none (env : dm_env) (lv : logical_volume) (k : dm_task_type)
    (w : List event) (h : env.answer (w ++ [event.task_create k]) = 0) :
    _setup_task env lv k w = (none, w ++ [event.task_create k]) := by
  simp [_setup_task, dm_task_create, h]

theorem setup_task_some (env : dm_env) (lv : logical_volume) (k : dm_task_type)
    (w : List event) (h : env.answer (w ++ [event.task_create k]) ≠ 0) :
    _setup_task env lv k w
      = (some ⟨k, lv_task_name env lv, []⟩,
         w ++ [event.task_create k, event.set_name (lv_task_name env lv)]) := by
  simp [_setup_task, dm_task_create, h, dm_task_set_name, lv_task_name]

/-- `_emit_target` leaves the kind and the name of the task alone and logs at most one
call, a `dm_task_add_target`. -/
theorem emit_target_log (env : dm_env) (dmt : dm_task) (seg : stripe_segment)
    (w : List event) :
    (_emit_target env dmt seg w).2.1.kind = dmt.kind ∧
    (_emit_target env dmt seg w).2.1.name = dmt.name ∧
    ∃ l, (_emit_target env dmt seg w).2.2 = w ++ l ∧ creates l = [] ∧ runs l = [] ∧
      fs_adds l = [] := by
  unfold _emit_target
  cases _emit_target_loop seg seg.stripes 0 0 (stack_buffer env 1024) with
  | none => exact ⟨rfl, rfl, [], by simp, rfl, rfl, rfl⟩
  | some params =>
    simp only [dm_task_add_target]
    refine ⟨?_, ?_, [event.add_target (target_row seg params)], ?_, rfl, rfl, rfl⟩
    · split <;> rfl
    · split <;> rfl
    · split <;> rfl

theorem load_loop_log (env : dm_env) (segs : List stripe_segment) (dmt : dm_task)
    (w : List event) :
    (_load_loop env segs dmt w).2.1.kind = dmt.kind ∧
    (_load_loop env segs dmt w).2.1.name = dmt.name ∧
    ∃ l, (_load_loop env segs dmt w).2.2 = w ++ l ∧ creates l = [] ∧ runs l = [] ∧
      fs_adds l = [] := by
  induction segs generalizing dmt w with
  | nil => exact ⟨rfl, rfl, [], by simp [_load_loop], rfl, rfl, rfl⟩
  | cons seg rest ih =>
    obtain ⟨hk, hn, l, hl, hc, hr, hf⟩ := emit_target_log env dmt seg w
    unfold _load_loop
    by_cases h0 : (_emit_target env dmt seg w).1 = 0
    · simp only [h0, if_true]
      exact ⟨hk, hn, l, hl, hc, hr, hf⟩
    · simp only [h0, if_false]
      obtain ⟨hk2, hn2, l2, hl2, hc2, hr2, hf2⟩ :=
        ih (_emit_target env dmt seg w).2.1 (_emit_target env dmt seg w).2.2
      refine ⟨hk2.trans hk, hn2.trans hn, l ++ l2, ?_, ?_, ?_, ?_⟩
      · rw [hl2, hl, List.append_assoc]
      · rw [creates_append, hc, hc2]; rfl
      · rw [runs_append, hr, hr2]; rfl
      · rw [fs_adds_append, hf, hf2]; rfl

/-- What `_load` logs when the task is created: the creation, the name, the rows, the run
unless an `_emit_target` failed, and the destruction. -/
theorem load_log (env : dm_env) (lv : logical_volume) (k : dm_task_type) (w : List event)
    (hc : env.answer (w ++ [event.task_create k]) ≠ 0) :
    ∃ l, (_load env lv k w).2 = w ++ l ∧ creates l = [k] ∧ fs_adds l = [] ∧
      ((runs l = [k] ∧ ∃ pre dmt, dmt.kind = k ∧ dmt.name = lv_task_name env lv ∧
          (_load env lv k w).2 = pre ++ [event.run dmt, event.destroy dmt] ∧
          (_load env lv k w).1 = env.answer (pre ++ [event.run dmt])) ∨
       (runs l = [] ∧ (_load env lv k w).1 = 0)) := by
  unfold _load
  rw [setup_task_some env lv k w hc]
  simp only
  obtain ⟨hk, hn, l, hl, hcr, hr, hf⟩ := load_loop_log env lv.segments
    ⟨k, lv_task_name env lv, []⟩
    (w ++ [event.task_create k, event.set_name (lv_task_name env lv)])
  generalize _load_loop env lv.segments ⟨k, lv_task_name env lv, []⟩
    (w ++ [event.task_create k, event.set_name (lv_task_name env lv)]) = L at hk hn hl
  by_cases h0 : L.1 = 0
  · simp only [h0, if_true, dm_task_destroy]
    refine ⟨[event.task_create k, event.set_name (lv_task_name env lv)] ++ l
      ++ [event.destroy L.2.1], ?_, ?_, ?_, Or.inr ⟨?_, ?_⟩⟩
    · rw [hl]; simp
    · simp [creates_append, hcr, creates]
    · simp [fs_adds_append, hf, fs_adds]
    · simp [runs_append, hr, runs]
    · trivial
  · simp only [h0, if_false, dm_task_destroy, dm_task_run]
    refine ⟨[event.task_create k, event.set_name (lv_task_name env lv)] ++ l
      ++ [event.run L.2.1, event.destroy L.2.1], ?_, ?_, ?_, Or.inl ⟨?_, L.2.2, L.2.1, hk, hn, ?_, rfl⟩⟩
    · rw [hl]; simp
    · simp [creates_append, hcr, creates]
    · simp [fs_adds_append, hf, fs_adds]
    · simp [runs_append, hr, runs, hk]
    · simp

/-- What `_suspend` logs when it succeeds: the creation, the name, the run and the
destruction of one task. -/
theorem suspend_log (env : dm_env) (lv : logical_volume) (sus : Int) (w : List event)
    (h : (_suspend env lv sus w).1 ≠ 0 ∨
      env.answer (w ++ [event.task_create
        (if sus ≠ 0 then DM_DEVICE_SUSPEND else DM_DEVICE_RESUME)]) ≠ 0) :
    ∃ l, (_suspend env lv sus w).2 = w ++ l ∧
      creates l = [if sus ≠ 0 then DM_DEVICE_SUSPEND else DM_DEVICE_RESUME] ∧
      runs l = [if sus ≠ 0 then DM_DEVICE_SUSPEND else DM_DEVICE_RESUME] ∧ fs_adds l = [] := by
  generalize hk : (if sus ≠ 0 then DM_DEVICE_SUSPEND else DM_DEVICE_RESUME) = k at h
  have hc : env.answer (w ++ [event.task_create k]) ≠ 0 := by
    rcases h with h | h
    · intro h0
      apply h
      unfold _suspend
      simp only [hk]
      rw [setup_task_none env lv k w h0]
    · exact h
  unfold _suspend
  simp only [hk]
  rw [setup_task_some env lv k w hc]
  simp only [dm_task_run, dm_task_destroy]
  refine ⟨[event.task_create k, event.set_name (lv_task_name env lv),
    event.run ⟨k, lv_task_name env lv, []⟩, event.destroy ⟨k, lv_task_name env lv, []⟩],
    by simp, rfl, rfl, rfl⟩


/-- C10, as stated, fails: with a RESUME that fails, the RELOAD step succeeds and
`lv_reactivate` returns 0. -/
theorem lv_reactivate_resume_failure :
    (_suspend env_resume_fails lv_home 1 []).1 ≠ 0 ∧
    (_load env_resume_fails lv_home DM_DEVICE_RELOAD
      (_suspend env_resume_fails lv_home 1 []).2).1 ≠ 0 ∧
    (lv_reactivate env_resume_fails lv_home []).1 = 0 := by
  decide

/-- C10, amended: `lv_reactivate` returns non-zero exactly when the SUSPEND step, the RELOAD
step and the RESUME step all succeed, and then it returns the result of the RELOAD step; the
RELOAD and RESUME steps start from the log the previous step left. -/
theorem lv_reactivate_result (env : dm_env) (lv : logical_volume) (w : List event) :
    ((lv_reactivate env lv w).1 ≠ 0 ↔
      (_suspend env lv 1 w).1 ≠ 0 ∧
      (_load env lv DM_DEVICE_RELOAD (_suspend env lv 1 w).2).1 ≠ 0 ∧
      (_suspend env lv 0 (_load env lv DM_DEVICE_RELOAD (_suspend env lv 1 w).2).2).1 ≠ 0) ∧
    ((lv_reactivate env lv w).1 ≠ 0 →
      (lv_reactivate env lv w).1 = (_load env lv DM_DEVICE_RELOAD (_suspend env lv 1 w).2).1) := by
  unfold lv_reactivate
  by_cases hs : (_suspend env lv 1 w).1 = 0
  · simp [hs]
  · by_cases hu :
      (_suspend env lv 0 (_load env lv DM_DEVICE_RELOAD (_suspend env lv 1 w).2).2).1 = 0
    · simp [hs, hu]
    · simp [hs, hu]

/-- C9, as stated, fails: when `dm_task_add_target` rejects the row of the LV's segment the
SUSPEND task succeeds and the tasks run are SUSPEND and RESUME only; the RELOAD task is
created and destroyed without being run. -/
theorem lv_reactivate_skips_reload :
    (_suspend env_row_rejected lv_home 1 []).1 ≠ 0 ∧
    creates (lv_reactivate env_row_rejected lv_home []).2
      = [DM_DEVICE_SUSPEND, DM_DEVICE_RELOAD, DM_DEVICE_RESUME] ∧
    runs (lv_reactivate env_row_rejected lv_home []).2 = [DM_DEVICE_SUSPEND, DM_DEVICE_RESUME] ∧
    (lv_reactivate env_row_rejected lv_home []).1 = 0 := by
  decide

/-! ## Activation -/

theorem emit_target_loop_some (seg : stripe_segment) (fuel : Nat) :
    ∀ (s w : Nat) (params : List Char),
      ∃ p, _emit_target_loop seg fuel s w params = some p := by
  induction fuel with
  | zero => intro s w params; exact ⟨params, rfl⟩
  | succ fuel ih =>
    intro s w params
    unfold _emit_target_loop
    by_cases hs : s < seg.stripes
    · have hneg : ¬ (snprintf params w ((1024 + U64 - w % U64) % U64) (stripe_text seg s)).1 < 0 := by
        unfold snprintf
        split <;> simp
      simp only [hs, if_true, hneg, if_false]
      exact ih _ _ _
    · exact ⟨params, by simp [hs]⟩

theorem emit_target_eq (env : dm_env) (dmt : dm_task) (seg : stripe_segment)
    (w : List event) :
    _emit_target env dmt seg w =
      (if env.answer (w ++ [event.add_target (emitted_row env seg)]) = 0 then 0 else 1,
       if env.answer (w ++ [event.add_target (emitted_row env seg)]) = 0 then dmt
       else { dmt with targets := dmt.targets ++ [emitted_row env seg] },
       w ++ [event.add_target (emitted_row env seg)]) := by
  obtain ⟨p, hp⟩ := emit_target_loop_some seg seg.stripes 0 0 (stack_buffer env 1024)
  unfold _emit_target emitted_row
  rw [hp]
  simp only [dm_task_add_target, Option.getD_some]
  split <;> rfl

/-- The loop of `_load` when every row is accepted. -/
theorem load_loop_all (env : dm_env) (segs : List stripe_segment) :
    ∀ (dmt : dm_task) (w : List event),
      (∀ k, k < segs.length →
        env.answer (w ++ add_events ((segs.map (emitted_row env)).take (k + 1))) ≠ 0) →
      _load_loop env segs dmt w =
        (1, { dmt with targets := dmt.targets ++ segs.map (emitted_row env) },
         w ++ add_events (segs.map (emitted_row env))) := by
  induction segs with
  | nil => intro dmt w _; simp [_load_loop, add_events]
  | cons seg rest ih =>
    intro dmt w h
    have h0 : env.answer (w ++ [event.add_target (emitted_row env seg)]) ≠ 0 := by
      simpa [add_events] using h 0 (by simp)
    unfold _load_loop
    rw [emit_target_eq]
    simp only [h0, if_false, one_ne_zero]
    rw [ih _ _ (fun k hk => by
      have := h (k + 1) (by simpa using hk)
      simpa [add_events, List.append_assoc] using this)]
    simp [add_events, List.append_assoc]

/-- The loop of `_load` when row `k` is the first that is rejected. -/
theorem load_loop_reject (env : dm_env) (segs : List stripe_segment) :
    ∀ (k : Nat) (dmt : dm_task) (w : List event), k < segs.length →
      (∀ j, j < k →
        env.answer (w ++ add_events ((segs.map (emitted_row env)).take (j + 1))) ≠ 0) →
      env.answer (w ++ add_events ((segs.map (emitted_row env)).take (k + 1))) = 0 →
      _load_loop env segs dmt w =
        (0, { dmt with targets := dmt.targets ++ (segs.map (emitted_row env)).take k },
         w ++ add_events ((segs.map (emitted_row env)).take (k + 1))) := by
  induction segs with
  | nil => intro k dmt w hk; simp at hk
  | cons seg rest ih =>
    intro k dmt w hk hj h0
    unfold _load_loop
    rw [emit_target_eq]
    cases k with
    | zero =>
      have h0' : env.answer (w ++ [event.add_target (emitted_row env seg)]) = 0 := by
        simpa [add_events] using h0
      simp [h0', add_events]
    | succ k =>
      have h1 : env.answer (w ++ [event.add_target (emitted_row env seg)]) ≠ 0 := by
        simpa [add_events] using hj 0 (by omega)
      simp only [h1, if_false, one_ne_zero]
      rw [ih k _ _ (by simpa using hk)
        (fun j hjk => by
          have := hj (j + 1) (by omega)
          simpa [add_events, List.append_assoc] using this)
        (by simpa [add_events, List.append_assoc] using h0)]
      simp [add_events, List.append_assoc]

/-- The name `_setup_task` gives a task: `"<vg.name>_<lv.name>"` cut to 127 characters. -/
theorem lv_task_name_eq (env : dm_env) (lv : logical_volume)
    (hnul : ∀ c ∈ lv.vg.name ++ lv.name, c ≠ NUL) :
    lv_task_name env lv = (lv.vg.name ++ '_' :: lv.name).take 127 := by
  have hn : ∀ c ∈ (lv.vg.name ++ '_' :: lv.name).take 127, c ≠ NUL := by
    intro c hc
    have hc := List.mem_of_mem_take hc
    simp only [List.mem_append, List.mem_cons] at hc
    rcases hc with hc | hc | hc
    · exact hnul c (by simp [hc])
    · rw [hc]; decide
    · exact hnul c (by simp [hc])
  unfold lv_task_name _build_lv_name snprintf
  simp only [Nat.reduceEqDiff, if_false, List.take_zero, List.nil_append, Nat.add_one_sub_one,
    Nat.zero_add]
  have hl : (List.take 127 (lv.vg.name ++ '_' :: lv.name)).length ≤ 127 := by
    simp
  have hlen : (stack_buffer env 128).length = 128 := stack_buffer_length env 128
  rw [List.take_append_eq_append_take,
    List.take_of_length_le (l := List.take 127 (lv.vg.name ++ '_' :: lv.name) ++ [NUL])
      (by simp only [List.length_append, List.length_singleton, hlen]; omega),
    List.append_assoc, List.singleton_append]
  exact cstring_append_nul _ _ hn

/-- C8, as stated, fails: for an LV whose VG name and LV name have 100 characters each the
CREATE task is not named `"<vg.name>_<lv.name>"` but with the first 127 characters of it. -/
theorem lv_activate_name_cut :
    event.set_name (lv_long.vg.name ++ '_' :: lv_long.name)
      ∉ (lv_activate env_ok lv_long []).2 ∧
    event.set_name (List.replicate 100 'v' ++ '_' :: List.replicate 26 'l')
      ∈ (lv_activate env_ok lv_long []).2 := by
  decide

/-- C8, amended: when the CREATE task can be created, `lv_activate` names it with the first
127 characters of `"<vg.name>_<lv.name>"` and submits the rows `_emit_target` builds for the
segments, in segment order.  If every row is accepted it runs the task with these rows and
destroys it; `fs_add_lv` is called exactly when the run succeeded, and the result is 1
exactly when the run and `fs_add_lv` both succeeded.  If row `k` is the first to be rejected,
no further row is submitted, the task is destroyed without being run, `fs_add_lv` is not
called and the result is 0. -/
theorem lv_activate_table (env : dm_env) (lv : logical_volume) (w : List event)
    (hnul : ∀ c ∈ lv.vg.name ++ lv.name, c ≠ NUL)
    (hc : env.answer (w ++ [event.task_create DM_DEVICE_CREATE]) ≠ 0) :
    let name := (lv.vg.name ++ '_' :: lv.name).take 127
    let R := lv.segments.map (emitted_row env)
    let T : dm_task := ⟨DM_DEVICE_CREATE, name, R⟩
    let wr := log_rows w DM_DEVICE_CREATE name R ++ [event.run T]
    let wf := wr ++ [event.destroy T, event.fs_add_lv lv.vg.name lv.name]
    ((∀ k, k < R.length →
        env.answer (log_rows w DM_DEVICE_CREATE name (R.take (k + 1))) ≠ 0) →
      (env.answer wr = 0 → lv_activate env lv w = (0, wr ++ [event.destroy T])) ∧
      (env.answer wr ≠ 0 →
        lv_activate env lv w = (if env.answer wf = 0 then 0 else 1, wf))) ∧
    (∀ k, k < R.length →
      (∀ j, j < k → env.answer (log_rows w DM_DEVICE_CREATE name (R.take (j + 1))) ≠ 0) →
      env.answer (log_rows w DM_DEVICE_CREATE name (R.take (k + 1))) = 0 →
      lv_activate env lv w =
        (0, log_rows w DM_DEVICE_CREATE name (R.take (k + 1))
              ++ [event.destroy ⟨DM_DEVICE_CREATE, name, R.take k⟩])) := by
  intro name R T wr wf
  have hname : lv_task_name env lv = name := lv_task_name_eq env lv hnul
  refine ⟨fun hall => ?_, fun k hk hj h0 => ?_⟩
  · have hloop := load_loop_all env lv.segments ⟨DM_DEVICE_CREATE, name, []⟩
      (w ++ [event.task_create DM_DEVICE_CREATE, event.set_name name])
      (fun k hk => by
        have := hall k (by simpa [R] using hk)
        simpa [log_rows, R] using this)
    have hload : _load env lv DM_DEVICE_CREATE w = (env.answer wr, wr ++ [event.destroy T]) := by
      unfold _load
      rw [setup_task_some env lv _ w hc, hname]
      simp only [hloop, one_ne_zero, if_false, dm_task_run, dm_task_destroy, List.nil_append]
      rfl
    constructor
    · intro h0
      unfold lv_activate
      simp [hload, h0]
    · intro h1
      unfold lv_activate
      simp only [hload, h1, if_false, fs_add_lv]
      simp [wf]
  · have hloop := load_loop_reject env lv.segments k ⟨DM_DEVICE_CREATE, name, []⟩
      (w ++ [event.task_create DM_DEVICE_CREATE, event.set_name name])
      (by simpa [R] using hk)
      (fun j hjk => by
        have := hj j hjk
        simpa [log_rows, R] using this)
      (by simpa [log_rows, R] using h0)
    have hload : _load env lv DM_DEVICE_CREATE w =
        (0, log_rows w DM_DEVICE_CREATE name (R.take (k + 1))
              ++ [event.destroy ⟨DM_DEVICE_CREATE, name, R.take k⟩]) := by
      unfold _load
      rw [setup_task_some env lv _ w hc, hname]
      simp only [hloop, if_true, dm_task_destroy, List.nil_append]
      rfl
    unfold lv_activate
    simp [hload]

/-- C8, amended, at scenario 2 of §8 with collaborators that accept every call: the two
rows are `(0, 3072, linear, "/dev/sda 100")` and `(3072, 2048, linear, "/dev/sdb 7368")`. -/
theorem lv_activate_table_witness :
    ((∀ c ∈ lv_two.vg.name ++ lv_two.name, c ≠ NUL) ∧
      env_ok.answer ([] ++ [event.task_create DM_DEVICE_CREATE]) ≠ 0) ∧
    lv_two.segments.map (emitted_row env_ok)
      = [⟨0, 3072, "linear".toList, "/dev/sda 100".toList⟩,
         ⟨3072, 2048, "linear".toList, "/dev/sdb 7368".toList⟩] ∧
    lv_activate env_ok lv_two [] =
      (1, [event.task_create DM_DEVICE_CREATE, event.set_name "vg0_data".toList,
           event.add_target ⟨0, 3072, "linear".toList, "/dev/sda 100".toList⟩,
           event.add_target ⟨3072, 2048, "linear".toList, "/dev/sdb 7368".toList⟩,
           event.run ⟨DM_DEVICE_CREATE, "vg0_data".toList,
             [⟨0, 3072, "linear".toList, "/dev/sda 100".toList⟩,
              ⟨3072, 2048, "linear".toList, "/dev/sdb 7368".toList⟩]⟩,
           event.destroy ⟨DM_DEVICE_CREATE, "vg0_data".toList,
             [⟨0, 3072, "linear".toList, "/dev/sda 100".toList⟩,
              ⟨3072, 2048, "linear".toList, "/dev/sdb 7368".toList⟩]⟩,
           event.fs_add_lv "vg0".toList "data".toList]) := by
  have h := ((lv_activate_table env_ok lv_two [] (by decide) (by decide)).1
    (fun _ _ => (by decide : (1 : Int) ≠ 0))).2 (by decide)
  refine ⟨⟨by decide, by decide⟩, by decide, ?_⟩
  rw [h]
  decide

/-! ## Reading a device -/

theorem strcmp_eq_zero_iff (a b : List Nat) : strcmp a b = 0 ↔ cstr a = cstr b := by
  induction a generalizing b with
  | nil =>
    cases b with
    | nil => simp [strcmp]
    | cons y ys =>
      by_cases hy : y = 0
      · simp [strcmp, cstr, hy]
      · simp [strcmp, cstr, hy]
  | cons x xs ih =>
    cases b with
    | nil =>
      by_cases hx : x = 0
      · simp [strcmp, cstr, hx]
      · simp [strcmp, cstr, hx]
    | cons y ys =>
      by_cases hxy : x = y
      · subst hxy
        by_cases hx : x = 0
        · simp [strcmp, cstr, hx]
        · have := ih ys
          simp only [cstr] at this
          simp [strcmp, cstr, hx, this]
      · have hne : (x : Int) - (y : Int) ≠ 0 := by omega
        by_cases hx : x = 0
        · have hy : y ≠ 0 := fun h => hxy (by omega)
          simp [strcmp, cstr, hxy, hx, hy, hne]
          omega
        · by_cases hy : y = 0
          · simp [strcmp, cstr, hxy, hx, hy, hne]
          · simp [strcmp, cstr, hxy, hx, hy, hne]

theorem munge_formats_vg_name {p r : pv_disk} (h : _munge_formats p = some r) :
    r.vg_name = p.vg_name := by
  unfold _munge_formats at h
  split at h
  · cases h; rfl
  · split at h
    · cases h; rfl
    · cases h

/-- C5 at two orphan devices, read with no expected VG name: the orphan test of line 268
never holds, so `read_disk` goes on to the VG record.  On the device that ends after the PV
record the read of the VG record is short and no view is returned; on the device that still
holds old metadata a view with two uuids, one LV and sixteen extents is returned. -/
theorem read_disk_orphan_reads_on :
    ((pv_record false dev_orphan_short).id = [72, 77] ∧
      (pv_record false dev_orphan_short).version = 1 ∧
      (pv_record false dev_orphan_short).vg_name.getD 0 0 = 0 ∧
      (read_disk false dev_orphan_short mem_sample none).1 = none) ∧
    ((pv_record false dev_orphan_long).id = [72, 77] ∧
      (pv_record false dev_orphan_long).version = 1 ∧
      (pv_record false dev_orphan_long).vg_name.getD 0 0 = 0 ∧
      ((read_disk false dev_orphan_long mem_sample none).1.map
        (fun r => (r.uuids.length, r.lvds.length, r.extents.length))) = some (2, 1, 16)) := by
  decide

/-! ## PV I/O round trip -/

theorem poke_length {d : List Nat} {p : Nat} {b : List Nat} (h : p + b.length ≤ d.length) :
    (poke d p b).length = d.length := by
  simp only [poke, List.length_append, List.length_take, List.length_drop]
  omega

theorem region_length {d : List Nat} {p n : Nat} (h : p + n ≤ d.length) :
    (region d p n).length = n := by
  simp only [region, List.length_take, List.length_drop]
  omega

theorem region_poke_same {d : List Nat} {p : Nat} {b : List Nat} (h : p + b.length ≤ d.length) :
    region (poke d p b) p b.length = b := by
  unfold region poke
  rw [List.drop_left' (by simp; omega), List.take_left' rfl]

theorem region_poke_other {d : List Nat} {p : Nat} {b : List Nat} {q n : Nat}
    (h : p + b.length ≤ d.length) (hd : q + n ≤ p ∨ p + b.length ≤ q) :
    region (poke d p b) q n = region d q n := by
  unfold region poke
  have hp : (d.take p).length = p := by simp; omega
  rcases hd with hd | hd
  · rw [List.drop_append_of_le_length (by omega), List.take_append_of_le_length (by simp; omega),
      List.drop_take, List.take_take]
    congr 1
    omega
  · rw [List.drop_append_eq_append_drop, List.drop_of_length_le (by omega), List.nil_append,
      List.drop_append_eq_append_drop, List.drop_of_length_le (by omega), List.nil_append,
      List.drop_drop, hp]
    congr 2
    omega

theorem poke_poke_adjacent {d : List Nat} {p : Nat} {a b : List Nat}
    (h : p + a.length + b.length ≤ d.length) :
    poke (poke d p a) (p + a.length) b = poke d p (a ++ b) := by
  unfold poke
  have hp : (d.take p).length = p := by simp; omega
  have h1 : List.take (p + a.length) (d.take p ++ (a ++ d.drop (p + a.length)))
      = d.take p ++ a := by
    rw [← List.append_assoc, List.take_left' (by simp [hp])]
  have h2 : List.drop (p + a.length + b.length) (d.take p ++ (a ++ d.drop (p + a.length)))
      = d.drop (p + (a ++ b).length) := by
    rw [← List.append_assoc, List.drop_append_eq_append_drop,
      List.drop_of_length_le (by simp [hp]), List.nil_append, List.drop_drop,
      List.length_append, List.length_append, hp]
    congr 1
    omega
  rw [h1, h2]
  simp

theorem region_add (d : List Nat) (p m n : Nat) :
    region d p (m + n) = region d p m ++ region d (p + m) n := by
  unfold region
  rw [List.take_add, List.drop_drop]

theorem region_zero_all (d : List Nat) : region d 0 d.length = d := by
  simp [region]

theorem fix_bytes_length (n : Nat) (l : List Nat) : (fix_bytes n l).length = n := by
  simp [fix_bytes]

theorem fix_bytes_lt (n : Nat) (l : List Nat) : ∀ b ∈ fix_bytes n l, b < 256 := by
  intro b hb
  have hb := List.mem_of_mem_take hb
  simp only [List.mem_append, List.mem_map, List.mem_replicate] at hb
  rcases hb with ⟨a, -, rfl⟩ | ⟨-, rfl⟩
  · omega
  · omega

theorem fix_bytes_is_bytes (n : Nat) (l : List Nat) : is_bytes n (fix_bytes n l) :=
  ⟨fix_bytes_length n l, fix_bytes_lt n l⟩

theorem map_mod_of_lt (l : List Nat) (h : ∀ b ∈ l, b < 256) : l.map (· % 256) = l := by
  induction l with
  | nil => rfl
  | cons a l ih =>
    have ha : a < 256 := h a (by simp)
    simp [Nat.mod_eq_of_lt ha, ih (fun b hb => h b (by simp [hb]))]

theorem fix_bytes_append_left {n : Nat} {a : List Nat} (h : is_bytes n a) (r : List Nat) :
    fix_bytes n (a ++ r) = a := by
  unfold fix_bytes
  rw [List.map_append, map_mod_of_lt a h.2, List.append_assoc, List.take_left' h.1]

theorem fix_bytes_of_is_bytes {n : Nat} {a : List Nat} (h : is_bytes n a) :
    fix_bytes n a = a := by
  have := fix_bytes_append_left h []
  simpa using this

theorem field_is_bytes (m : List Nat) (off n : Nat) : is_bytes n (field m off n) :=
  fix_bytes_is_bytes n _

theorem field_here {n : Nat} {a : List Nat} (h : is_bytes n a) (r : List Nat) :
    field (a ++ r) 0 n = a := by
  simp [field, fix_bytes_append_left h]

theorem field_last {n : Nat} {a : List Nat} (h : is_bytes n a) :
    field a 0 n = a := by
  simp [field, fix_bytes_of_is_bytes h]

theorem field_skip {a : List Nat} {off : Nat} (r : List Nat) (n : Nat) (h : a.length ≤ off) :
    field (a ++ r) off n = field r (off - a.length) n := by
  unfold field
  rw [List.drop_append_eq_append_drop, List.drop_of_length_le h, List.nil_append]

theorem host_bytes_is_bytes (be : Bool) (n v : Nat) : is_bytes n (host_bytes be n v) := by
  unfold host_bytes
  split
  · exact is_bytes_reverse (le_bytes_is_bytes n v)
  · exact le_bytes_is_bytes n v

theorem host_bytes_bswap (n v : Nat) : host_bytes true n (bswap n v) = le_bytes n v := by
  unfold host_bytes bswap
  rw [if_pos rfl, le_bytes_le_val (is_bytes_reverse (le_bytes_is_bytes n v)),
    List.reverse_reverse]

theorem host_bytes_xlate16 (be : Bool) (v : Nat) :
    host_bytes be 2 (xlate16 be v) = le_bytes 2 v := by
  cases be
  · rfl
  · exact host_bytes_bswap 2 v

theorem host_bytes_xlate32 (be : Bool) (v : Nat) :
    host_bytes be 4 (xlate32 be v) = le_bytes 4 v := by
  cases be
  · rfl
  · exact host_bytes_bswap 4 v

theorem bswap_host_val {n : Nat} {bs : List Nat} (h : is_bytes n bs) :
    bswap n (host_val true bs) = le_val bs := by
  unfold host_val bswap
  rw [if_pos rfl, le_bytes_le_val (is_bytes_reverse h), List.reverse_reverse]

theorem xlate16_host_val (be : Bool) {bs : List Nat} (h : is_bytes 2 bs) :
    xlate16 be (host_val be bs) = le_val bs := by
  cases be
  · rfl
  · exact bswap_host_val h

theorem xlate32_host_val (be : Bool) {bs : List Nat} (h : is_bytes 4 bs) :
    xlate32 be (host_val be bs) = le_val bs := by
  cases be
  · rfl
  · exact bswap_host_val h

theorem mem_area_xlate (be : Bool) (a : data_area) :
    mem_area be (_xlate_area be a) = mem_area false a := by
  simp only [mem_area, _xlate_area, host_bytes_xlate32]
  rfl

theorem mem_pvd_xlate (be : Bool) (d : pv_disk) :
    mem_pvd be (_xlate_pvd be d) = mem_pvd false d := by
  simp only [mem_pvd, _xlate_pvd, host_bytes_xlate32, host_bytes_xlate16, mem_area_xlate]
  rfl

theorem mem_vgd_xlate (be : Bool) (d : vg_disk) :
    mem_vgd be (_xlate_vgd be d) = mem_vgd false d := by
  simp only [mem_vgd, _xlate_vgd, host_bytes_xlate32]
  rfl

theorem mem_lvd_xlate (be : Bool) (d : lv_disk) :
    mem_lvd be (_xlate_lvd be d) = mem_lvd false d := by
  simp only [mem_lvd, _xlate_lvd, host_bytes_xlate32, host_bytes_xlate16]
  rfl

theorem mem_pe_xlate (be : Bool) (e : pe_disk) :
    mem_pe be (_xlate_extent be e) = mem_pe false e := by
  simp only [mem_pe, _xlate_extent, host_bytes_xlate16]
  rfl

theorem area_of_mem_xlate (be : Bool) (m : List Nat) (off : Nat) :
    _xlate_area be (area_of_mem be m off) = area_of_mem false m off := by
  simp only [area_of_mem, _xlate_area, xlate32_host_val be (field_is_bytes _ _ _)]
  rfl

theorem pvd_of_mem_xlate (be : Bool) (m : List Nat) :
    _xlate_pvd be (pvd_of_mem be m) = pvd_of_mem false m := by
  simp only [pvd_of_mem, _xlate_pvd, xlate32_host_val be (field_is_bytes _ _ _),
    xlate16_host_val be (field_is_bytes _ _ _), area_of_mem_xlate]
  rfl

theorem vgd_of_mem_xlate (be : Bool) (m : List Nat) :
    _xlate_vgd be (vgd_of_mem be m) = vgd_of_mem false m := by
  simp only [vgd_of_mem, _xlate_vgd, xlate32_host_val be (field_is_bytes _ _ _)]
  rfl

theorem lvd_of_mem_xlate (be : Bool) (m : List Nat) :
    _xlate_lvd be (lvd_of_mem be m) = lvd_of_mem false m := by
  simp only [lvd_of_mem, _xlate_lvd, xlate32_host_val be (field_is_bytes _ _ _),
    xlate16_host_val be (field_is_bytes _ _ _)]
  rfl

theorem pe_of_mem_xlate (be : Bool) (m : List Nat) :
    _xlate_extent be (pe_of_mem be m) = pe_of_mem false m := by
  simp only [pe_of_mem, _xlate_extent, xlate16_host_val be (field_is_bytes _ _ _)]
  rfl

theorem host_bytes_length (be : Bool) (n v : Nat) : (host_bytes be n v).length = n :=
  (host_bytes_is_bytes be n v).1

theorem le_val_le_bytes2 {v : Nat} (h : v < U16) : le_val (le_bytes 2 v) = v := by
  rw [le_val_le_bytes]
  exact Nat.mod_eq_of_lt (by simpa [U16] using h)

theorem le_val_le_bytes4 {v : Nat} (h : v < U32) : le_val (le_bytes 4 v) = v := by
  rw [le_val_le_bytes]
  exact Nat.mod_eq_of_lt (by simpa [U32] using h)

theorem mem_pvd_length (be : Bool) (d : pv_disk) : (mem_pvd be d).length = sizeof_pv_disk := by
  simp [mem_pvd, mem_area, host_bytes_length, fix_bytes_length, NAME_LEN, sizeof_pv_disk]

theorem mem_vgd_length (be : Bool) (d : vg_disk) : (mem_vgd be d).length = sizeof_vg_disk := by
  simp [mem_vgd, host_bytes_length, fix_bytes_length, NAME_LEN, sizeof_vg_disk]

theorem mem_lvd_length (be : Bool) (d : lv_disk) : (mem_lvd be d).length = sizeof_lv_disk := by
  simp [mem_lvd, host_bytes_length, fix_bytes_length, NAME_LEN, sizeof_lv_disk]

theorem mem_pe_length (be : Bool) (e : pe_disk) : (mem_pe be e).length = sizeof_pe_disk := by
  simp [mem_pe, host_bytes_length, sizeof_pe_disk]

theorem pvd_of_mem_mem {d : pv_disk} (h : valid_pvd d) :
    pvd_of_mem false (mem_pvd false d) = d := by
  obtain ⟨h0, h1, ⟨a1, a2⟩, ⟨a3, a4⟩, ⟨a5, a6⟩, ⟨a7, a8⟩, ⟨a9, a10⟩, b1, b2, b3, h7, h8, h9,
    h10, h11, h12, h13, h14, h15, h16⟩ := h
  have l0 := h0.1
  have lb1 := b1.1
  have lb2 := b2.1
  have lb3 := b3.1
  simp only [NAME_LEN] at b1 b2 b3 lb1 lb2 lb3
  simp only [mem_pvd, pvd_of_mem, mem_area, area_of_mem, host_bytes, host_val, NAME_LEN,
    fix_bytes_of_is_bytes h0, fix_bytes_of_is_bytes b1, fix_bytes_of_is_bytes b2,
    fix_bytes_of_is_bytes b3, List.append_assoc, Bool.false_eq_true, if_false]
  simp [field_skip, field_here, field_last, le_bytes_length, le_bytes_is_bytes,
    le_val_le_bytes2, le_val_le_bytes4, *]

theorem vgd_of_mem_mem {d : vg_disk} (h : valid_vgd d) :
    vgd_of_mem false (mem_vgd false d) = d := by
  obtain ⟨b1, h1, h2, h3, h4, h5, h6, h7, h8, h9, h10, h11, h12, h13, h14, h15⟩ := h
  have lb1 := b1.1
  simp only [NAME_LEN] at b1 lb1
  simp only [mem_vgd, vgd_of_mem, host_bytes, host_val, NAME_LEN,
    fix_bytes_of_is_bytes b1, List.append_assoc, Bool.false_eq_true, if_false]
  simp [field_skip, field_here, field_last, le_bytes_length, le_bytes_is_bytes,
    le_val_le_bytes4, *]

theorem lvd_of_mem_mem {d : lv_disk} (h : valid_lvd d) :
    lvd_of_mem false (mem_lvd false d) = d := by
  obtain ⟨b1, b2, h1, h2, h3, h4, h5, h6, h7, h8, h9, h10, h11, h12, h13, h14, h15, h16, h17,
    h18, h19⟩ := h
  have lb1 := b1.1
  have lb2 := b2.1
  simp only [NAME_LEN] at b1 lb1 b2 lb2
  simp only [mem_lvd, lvd_of_mem, host_bytes, host_val, NAME_LEN,
    fix_bytes_of_is_bytes b1, fix_bytes_of_is_bytes b2, List.append_assoc, Bool.false_eq_true,
    if_false]
  simp [field_skip, field_here, field_last, le_bytes_length, le_bytes_is_bytes,
    le_val_le_bytes2, le_val_le_bytes4, *]

theorem pe_of_mem_mem {e : pe_disk} (h : valid_pe e) (r : List Nat) :
    pe_of_mem false (mem_pe false e ++ r) = e := by
  obtain ⟨h1, h2⟩ := h
  simp only [mem_pe, pe_of_mem, host_bytes, host_val, List.append_assoc, Bool.false_eq_true,
    if_false]
  simp [field_skip, field_here, le_bytes_length, le_bytes_is_bytes, le_val_le_bytes2, *]

theorem mem_extents_length (be : Bool) (es : List pe_disk) :
    (mem_extents be es).length = sizeof_pe_disk * es.length := by
  induction es with
  | nil => rfl
  | cons e es ih =>
    simp only [mem_extents, List.length_append, mem_pe_length, ih, List.length_cons]
    ring

theorem extents_of_mem_mem (es : List pe_disk) (h : ∀ e ∈ es, valid_pe e) :
    extents_of_mem false es.length (mem_extents false es) = es := by
  induction es with
  | nil => rfl
  | cons e es ih =>
    simp only [List.length_cons, extents_of_mem, mem_extents]
    rw [pe_of_mem_mem (h e (by simp)), List.drop_left' (mem_pe_length false e),
      ih (fun x hx => h x (by simp [hx]))]

theorem xlate_extents_loop_full (be : Bool) (es : List pe_disk) (n : Nat)
    (h : es.length ≤ n) : _xlate_extents_loop be es n = es.map (_xlate_extent be) := by
  induction es generalizing n with
  | nil => simp [_xlate_extents_loop]
  | cons e es ih =>
    cases n with
    | zero => simp at h
    | succ n =>
      simp only [_xlate_extents_loop, List.map_cons]
      rw [ih n (by simpa using h)]

theorem xlate_extents_loop_zero (be : Bool) (es : List pe_disk) :
    _xlate_extents_loop be es 0 = es := by
  cases es <;> rfl

/-- `_xlate_extents` with a `pe_total` that is positive as an `int`, on an array of
`pe_total` entries. -/
theorem xlate_extents_small (be : Bool) (es : List pe_disk) (n : Nat)
    (h : es.length = n) (hn : n < 2147483648) :
    _xlate_extents be es (int_of_u32 n) = es.map (_xlate_extent be) := by
  have : (int_of_u32 n).toNat = n := by
    unfold int_of_u32
    simp only [U32]
    have h1 : n % 4294967296 = n := Nat.mod_eq_of_lt (by omega)
    rw [h1, if_pos hn]
    simp
  unfold _xlate_extents
  rw [this]
  exact xlate_extents_loop_full be es n (by omega)

/-- `_xlate_extents` with a `pe_total` that is negative as an `int`. -/
theorem xlate_extents_large (be : Bool) (es : List pe_disk) (n : Nat)
    (hn : ¬ n < 2147483648) (hu : n < U32) :
    _xlate_extents be es (int_of_u32 n) = es := by
  have : (int_of_u32 n).toNat = 0 := by
    unfold int_of_u32
    simp only [U32] at hu ⊢
    have h1 : n % 4294967296 = n := Nat.mod_eq_of_lt hu
    rw [h1, if_neg hn]
    omega
  unfold _xlate_extents
  rw [this]
  exact xlate_extents_loop_zero be es

theorem host_val_host_bytes2 (be : Bool) {v : Nat} (h : v < U16) :
    host_val be (host_bytes be 2 v) = v := by
  cases be
  · exact le_val_le_bytes2 h
  · simp only [host_val, host_bytes, if_true, List.reverse_reverse]
    exact le_val_le_bytes2 h

theorem pe_of_mem_mem_host (be : Bool) {e : pe_disk} (h : valid_pe e) (r : List Nat) :
    pe_of_mem be (mem_pe be e ++ r) = e := by
  obtain ⟨h1, h2⟩ := h
  simp only [mem_pe, pe_of_mem, List.append_assoc]
  rw [field_here (host_bytes_is_bytes be 2 _), field_skip _ _ (by rw [host_bytes_length]),
    host_bytes_length, Nat.sub_self, field_here (host_bytes_is_bytes be 2 _),
    host_val_host_bytes2 be h1, host_val_host_bytes2 be h2]

theorem extents_of_mem_mem_host (be : Bool) (es : List pe_disk) (h : ∀ e ∈ es, valid_pe e) :
    extents_of_mem be es.length (mem_extents be es) = es := by
  induction es with
  | nil => rfl
  | cons e es ih =>
    simp only [List.length_cons, extents_of_mem, mem_extents]
    rw [pe_of_mem_mem_host be (h e (by simp)), List.drop_left' (mem_pe_length be e),
      ih (fun x hx => h x (by simp [hx]))]

theorem mem_extents_xlate (be : Bool) (es : List pe_disk) :
    mem_extents be (es.map (_xlate_extent be)) = mem_extents false es := by
  induction es with
  | nil => rfl
  | cons e es ih => simp only [List.map_cons, mem_extents, mem_pe_xlate, ih]

theorem extents_of_mem_length (be : Bool) (n : Nat) (m : List Nat) :
    (extents_of_mem be n m).length = n := by
  induction n generalizing m with
  | zero => rfl
  | succ n ih => simp [extents_of_mem, ih]

theorem extents_of_mem_xlate (be : Bool) (n : Nat) (m : List Nat) :
    (extents_of_mem be n m).map (_xlate_extent be) = extents_of_mem false n m := by
  induction n generalizing m with
  | zero => rfl
  | succ n ih => simp only [extents_of_mem, List.map_cons, pe_of_mem_xlate, ih]

theorem poke_nil (d : List Nat) (p : Nat) : poke d p [] = d := by
  simp [poke]

theorem dev_write_ok {dev : device} {pos len : Nat} {buf : List Nat}
    (h : pos + len ≤ dev.data.length) (hb : buf.length = len) :
    dev_write dev pos len buf = (len, ⟨dev.name, poke dev.data pos buf⟩) := by
  unfold dev_write poke
  have hn : min (min len buf.length) (dev.data.length - pos) = len := by
    rw [hb, Nat.min_self]; exact Nat.min_eq_left (by omega)
  simp only [hn]
  rw [List.take_of_length_le (l := buf) (by omega), hb]

theorem dev_zero_ok {dev : device} {pos len : Nat} (h : pos + len ≤ dev.data.length) :
    dev_zero dev pos len
      = (true, ⟨dev.name, poke dev.data pos (List.replicate len 0)⟩) := by
  unfold dev_zero
  rw [dev_write_ok h (by simp)]
  simp

theorem write_pvd_ok (be : Bool) (v : disk_list) (dev : device) (hv : valid_pvd v.pvd)
    (hd : sizeof_pv_disk ≤ dev.data.length) :
    _write_pvd be v dev
      = (true, v, ⟨dev.name, poke dev.data 0 (mem_pvd false v.pvd)⟩) := by
  unfold _write_pvd
  dsimp only
  rw [dev_write_ok (by omega) (mem_pvd_length be _), mem_pvd_xlate, xlate_pvd_twice be hv]
  simp

theorem write_vgd_ok (be : Bool) (v : disk_list) (dev : device) (hv : valid_vgd v.vgd)
    (hd : v.pvd.vg_on_disk.base + sizeof_vg_disk ≤ dev.data.length) :
    _write_vgd be v dev
      = (true, v, ⟨dev.name, poke dev.data v.pvd.vg_on_disk.base
          (mem_vgd false v.vgd)⟩) := by
  unfold _write_vgd
  simp only
  rw [dev_write_ok hd (mem_vgd_length be _), mem_vgd_xlate, xlate_vgd_twice be hv]
  simp

theorem uuids_image_length (us : List (List Nat)) :
    (uuids_image us).length = NAME_LEN * us.length := by
  induction us with
  | nil => rfl
  | cons u us ih =>
    simp only [uuids_image, List.length_append, fix_bytes_length, ih, List.length_cons]
    ring

theorem lvs_image_length (ls : List lv_disk) :
    (lvs_image ls).length = sizeof_lv_disk * ls.length := by
  induction ls with
  | nil => rfl
  | cons l ls ih =>
    simp only [lvs_image, List.length_append, mem_lvd_length, ih, List.length_cons]
    ring

theorem write_uuids_loop_ok (end_ : Nat) (us : List (List Nat)) :
    ∀ (pos : Nat) (dev : device), pos + NAME_LEN * us.length ≤ end_ →
      end_ ≤ dev.data.length →
      _write_uuids_loop end_ us pos dev
        = (true, ⟨dev.name, poke dev.data pos (uuids_image us)⟩) := by
  induction us with
  | nil => intro pos dev _ _; simp [_write_uuids_loop, uuids_image, poke_nil]
  | cons u us ih =>
    intro pos dev h hd
    simp only [List.length_cons, Nat.mul_add, Nat.mul_one] at h
    have hN : 0 < NAME_LEN := by decide
    have hlt : ¬ pos ≥ end_ := by omega
    unfold _write_uuids_loop
    simp only [hlt, if_false]
    rw [dev_write_ok (by omega) (fix_bytes_length _ _)]
    simp only [ne_eq, not_true_eq_false, if_false]
    have hlen : (poke dev.data pos (fix_bytes NAME_LEN u)).length = dev.data.length :=
      poke_length (by rw [fix_bytes_length]; omega)
    rw [ih (pos + NAME_LEN) _ (by omega) (by simpa [hlen] using hd)]
    simp only [uuids_image]
    have := poke_poke_adjacent (d := dev.data) (p := pos) (a := fix_bytes NAME_LEN u)
      (b := uuids_image us) (by rw [fix_bytes_length, uuids_image_length]; omega)
    rw [fix_bytes_length] at this
    rw [this]

theorem write_lvd_ok (be : Bool) (dev : device) (pos : Nat) (l : lv_disk) (hv : valid_lvd l)
    (hd : pos + sizeof_lv_disk ≤ dev.data.length) :
    _write_lvd be dev pos l
      = (true, l, ⟨dev.name, poke dev.data pos (mem_lvd false l)⟩) := by
  unfold _write_lvd
  simp only
  rw [dev_write_ok hd (mem_lvd_length be _), mem_lvd_xlate, xlate_lvd_twice be hv]
  simp

theorem write_lvs_loop_ok (be : Bool) (ls : List lv_disk) :
    ∀ (pos : Nat) (dev : device), (∀ l ∈ ls, valid_lvd l) →
      pos + sizeof_lv_disk * ls.length ≤ dev.data.length →
      _write_lvs_loop be ls pos dev
        = (true, ls, ⟨dev.name, poke dev.data pos (lvs_image ls)⟩) := by
  induction ls with
  | nil => intro pos dev _ _; simp [_write_lvs_loop, lvs_image, poke_nil]
  | cons l ls ih =>
    intro pos dev hv hd
    simp only [List.length_cons, Nat.mul_add, Nat.mul_one] at hd
    unfold _write_lvs_loop
    rw [write_lvd_ok be dev pos l (hv l (by simp)) (by omega)]
    simp only
    have hlen : (poke dev.data pos (mem_lvd false l)).length = dev.data.length :=
      poke_length (by rw [mem_lvd_length]; omega)
    rw [ih (pos + sizeof_lv_disk) _ (fun x hx => hv x (by simp [hx]))
      (by simp only [hlen]; omega)]
    simp only [lvs_image]
    have := poke_poke_adjacent (d := dev.data) (p := pos) (a := mem_lvd false l)
      (b := lvs_image ls) (by rw [mem_lvd_length, lvs_image_length]; omega)
    rw [mem_lvd_length] at this
    rw [this]

theorem write_lvs_ok (be : Bool) (v : disk_list) (dev : device)
    (hv : ∀ l ∈ v.lvds, valid_lvd l)
    (hfit : sizeof_lv_disk * v.lvds.length ≤ v.pvd.lv_on_disk.size)
    (hd : v.pvd.lv_on_disk.base + v.pvd.lv_on_disk.size ≤ dev.data.length) :
    _write_lvs be v dev
      = (true, v, ⟨dev.name, poke (poke dev.data v.pvd.lv_on_disk.base
            (List.replicate v.pvd.lv_on_disk.size 0)) v.pvd.lv_on_disk.base
            (lvs_image v.lvds)⟩) := by
  unfold _write_lvs
  simp only
  rw [dev_zero_ok hd]
  simp only
  have hlen : (poke dev.data v.pvd.lv_on_disk.base
      (List.replicate v.pvd.lv_on_disk.size 0)).length = dev.data.length :=
    poke_length (by simpa using hd)
  rw [write_lvs_loop_ok be v.lvds _ _ hv (by simp only [hlen]; omega)]

theorem write_extents_ok (be : Bool) (v : disk_list) (dev : device)
    (hv : ∀ e ∈ v.extents, valid_pe e) (hn : v.extents.length = v.pvd.pe_total)
    (hu : v.pvd.pe_total < U32)
    (hd : v.pvd.pe_on_disk.base + sizeof_pe_disk * v.pvd.pe_total ≤ dev.data.length) :
    _write_extents be v dev
      = (true, v, ⟨dev.name, poke dev.data v.pvd.pe_on_disk.base
          (mem_extents (pe_map_order be v.pvd.pe_total) v.extents)⟩) := by
  unfold _write_extents pe_map_order
  simp only
  by_cases hs : v.pvd.pe_total < 2147483648
  · rw [if_pos hs, xlate_extents_small be v.extents _ hn hs,
      List.take_of_length_le (by simp [hn]), mem_extents_xlate,
      dev_write_ok hd (by rw [mem_extents_length, hn])]
    simp only [ne_eq, not_true_eq_false, if_false]
    rw [xlate_extents_small be _ _ (by simp [hn]) hs, List.map_map]
    have : v.extents.map (_xlate_extent be ∘ _xlate_extent be) = v.extents := by
      conv_rhs => rw [← List.map_id v.extents]
      apply List.map_congr_left
      intro e he
      exact xlate_extent_twice be (hv e he)
    rw [this]
  · rw [if_neg hs, xlate_extents_large be v.extents _ hs hu,
      List.take_of_length_le (by simp [hn]),
      dev_write_ok hd (by rw [mem_extents_length, hn])]
    simp only [ne_eq, not_true_eq_false, if_false]
    rw [xlate_extents_large be v.extents _ hs hu]

theorem region_head (d : List Nat) (p m n : Nat) :
    region d p m = (region d p (m + n)).take m := by
  unfold region
  rw [List.take_take, Nat.min_eq_left (Nat.le_add_right m n)]

theorem region_tail (d : List Nat) (p m n : Nat) :
    region d (p + m) n = (region d p (m + n)).drop m := by
  unfold region
  rw [List.drop_take, ← List.drop_drop]
  simp

theorem read_pvd_ok (be : Bool) (data : disk_list) (dev : device) (p : pv_disk)
    (h : region dev.data 0 sizeof_pv_disk = mem_pvd false p) (hv : valid_pvd p) :
    _read_pvd be data dev = (some { data with pvd := p }, dev) := by
  have hr : (dev_read dev 0 sizeof_pv_disk).1 = mem_pvd false p := h
  unfold _read_pvd
  dsimp only
  rw [hr, pvd_of_mem_xlate, pvd_of_mem_mem hv]
  simp [mem_pvd_length, dev_read]

theorem read_vgd_ok (be : Bool) (data : disk_list) (dev : device) (g : vg_disk)
    (h : region dev.data data.pvd.vg_on_disk.base sizeof_vg_disk = mem_vgd false g)
    (hv : valid_vgd g) :
    _read_vgd be data dev = (some { data with vgd := g }, dev) := by
  have hr : (dev_read dev data.pvd.vg_on_disk.base sizeof_vg_disk).1 = mem_vgd false g := h
  unfold _read_vgd
  dsimp only
  rw [hr, vgd_of_mem_xlate, vgd_of_mem_mem hv]
  simp [mem_vgd_length, dev_read]

theorem read_lvd_ok (be : Bool) (dev : device) (pos : Nat) (l : lv_disk)
    (h : region dev.data pos sizeof_lv_disk = mem_lvd false l) (hv : valid_lvd l) :
    _read_lvd be dev pos = (some l, dev) := by
  have hr : (dev_read dev pos sizeof_lv_disk).1 = mem_lvd false l := h
  unfold _read_lvd
  dsimp only
  rw [hr, lvd_of_mem_xlate, lvd_of_mem_mem hv]
  simp [mem_lvd_length, dev_read]

theorem valid_uuid_eq {u : List Nat} (h : valid_uuid u) : fix_bytes NAME_LEN u ++ [0] = u := by
  obtain ⟨⟨hl, hb⟩, hd⟩ := h
  have ht : is_bytes NAME_LEN (u.take NAME_LEN) :=
    ⟨by simp [hl], fun b hb' => hb b (List.mem_of_mem_take hb')⟩
  have : fix_bytes NAME_LEN u = u.take NAME_LEN := by
    conv_lhs => rw [← List.take_append_drop NAME_LEN u]
    exact fix_bytes_append_left ht _
  rw [this, ← hd, List.take_append_drop]

theorem read_uuids_loop_ok (pv_cur end_ : Nat) (dev : device) (us : List (List Nat)) :
    ∀ (pos num_read : Nat) (acc : List (List Nat)),
      region dev.data pos (NAME_LEN * us.length) = uuids_image us →
      pos + NAME_LEN * us.length ≤ end_ → num_read + us.length = pv_cur →
      _read_uuids_loop pv_cur end_ us.length pos num_read acc dev
        = (some (acc ++ us.map (fun u => fix_bytes NAME_LEN u ++ [0])), dev) := by
  induction us with
  | nil => intro pos num_read acc _ _ _; simp [_read_uuids_loop]
  | cons u us ih =>
    intro pos num_read acc h he hn
    simp only [List.length_cons, Nat.mul_add, Nat.mul_one] at h he hn
    have hN : 0 < NAME_LEN := by decide
    have h' : region dev.data pos (NAME_LEN + NAME_LEN * us.length)
        = fix_bytes NAME_LEN u ++ uuids_image us := by
      rw [Nat.add_comm NAME_LEN]; exact h
    have h1 : region dev.data pos NAME_LEN = fix_bytes NAME_LEN u := by
      rw [region_head dev.data pos NAME_LEN (NAME_LEN * us.length), h',
        List.take_left' (fix_bytes_length _ _)]
    have h2 : region dev.data (pos + NAME_LEN) (NAME_LEN * us.length) = uuids_image us := by
      rw [region_tail dev.data pos NAME_LEN (NAME_LEN * us.length), h',
        List.drop_left' (fix_bytes_length _ _)]
    have hr : (dev_read dev pos NAME_LEN) = (fix_bytes NAME_LEN u, dev) := by
      simp only [dev_read]; exact congrArg (fun x => (x, dev)) h1
    have hc : pos < end_ ∧ num_read < pv_cur := by omega
    simp only [List.length_cons]
    unfold _read_uuids_loop
    simp only [hc, and_self, if_true, hr, fix_bytes_length, ne_eq, not_true_eq_false, if_false]
    rw [ih (pos + NAME_LEN) (num_read + 1) _ h2 (by omega) (by omega)]
    simp [list_add]

theorem read_lvs_loop_ok (be : Bool) (base lv_max lv_cur : Nat) (dev : device)
    (ls : List lv_disk) :
    ∀ (fuel i read : Nat) (acc : List lv_disk),
      ls.length ≤ fuel → i + ls.length ≤ lv_max → read + ls.length = lv_cur →
      (∀ l ∈ ls, valid_lvd l ∧ l.lv_name.getD 0 0 ≠ 0) →
      region dev.data (base + i * sizeof_lv_disk) (sizeof_lv_disk * ls.length) = lvs_image ls →
      _read_lvs_loop be base lv_max lv_cur fuel i read acc dev = (some (acc ++ ls), dev) := by
  induction ls with
  | nil =>
    intro fuel i read acc _ _ hr _ _
    cases fuel with
    | zero => simp [_read_lvs_loop]
    | succ f =>
      have : ¬ (i < lv_max ∧ read < lv_cur) := by simp at hr; omega
      simp [_read_lvs_loop, this]
  | cons l ls ih =>
    intro fuel i read acc hf hi hr hv h
    simp only [List.length_cons, Nat.mul_add, Nat.mul_one] at h hf hi hr
    have h' : region dev.data (base + i * sizeof_lv_disk)
        (sizeof_lv_disk + sizeof_lv_disk * ls.length) = mem_lvd false l ++ lvs_image ls := by
      rw [Nat.add_comm sizeof_lv_disk]; exact h
    have h1 : region dev.data (base + i * sizeof_lv_disk) sizeof_lv_disk = mem_lvd false l := by
      rw [region_head dev.data _ sizeof_lv_disk (sizeof_lv_disk * ls.length), h',
        List.take_left' (mem_lvd_length _ _)]
    have h2 : region dev.data (base + (i + 1) * sizeof_lv_disk) (sizeof_lv_disk * ls.length)
        = lvs_image ls := by
      have : base + (i + 1) * sizeof_lv_disk = base + i * sizeof_lv_disk + sizeof_lv_disk := by
        ring
      rw [this, region_tail dev.data _ sizeof_lv_disk (sizeof_lv_disk * ls.length), h',
        List.drop_left' (mem_lvd_length _ _)]
    obtain ⟨hvl, hname⟩ := hv l (by simp)
    cases fuel with
    | zero => omega
    | succ f =>
      have hc : i < lv_max ∧ read < lv_cur := by omega
      have hchk : _check_lvd l = true := by
        simp only [_check_lvd, Bool.not_eq_true', decide_eq_false_iff_not]
        exact hname
      unfold _read_lvs_loop
      simp only [hc, and_self, if_true]
      rw [read_lvd_ok be dev _ l h1 hvl]
      simp only [hchk, Bool.not_true, Bool.false_eq_true, if_false]
      rw [ih f (i + 1) (read + 1) _ (by omega) (by omega) (by omega)
        (fun x hx => hv x (by simp [hx])) h2]
      simp [list_add]

theorem read_extents_ok (be : Bool) (data : disk_list) (dev : device) (es : List pe_disk)
    (hn : es.length = data.pvd.pe_total) (hv : ∀ e ∈ es, valid_pe e)
    (hu : data.pvd.pe_total < U32)
    (h : region dev.data data.pvd.pe_on_disk.base (sizeof_pe_disk * data.pvd.pe_total)
      = mem_extents (pe_map_order be data.pvd.pe_total) es) :
    _read_extents be data dev = (some { data with extents := es }, dev) := by
  have hr : (dev_read dev data.pvd.pe_on_disk.base (sizeof_pe_disk * data.pvd.pe_total)).1
      = mem_extents (pe_map_order be data.pvd.pe_total) es := h
  unfold _read_extents
  dsimp only
  rw [hr]
  unfold pe_map_order
  by_cases hs : data.pvd.pe_total < 2147483648
  · rw [if_pos hs, xlate_extents_small be _ _ (extents_of_mem_length _ _ _) hs,
      extents_of_mem_xlate, ← hn, extents_of_mem_mem es hv]
    simp [mem_extents_length, dev_read]
  · rw [if_neg hs, xlate_extents_large be _ _ hs hu, ← hn, extents_of_mem_mem_host be es hv]
    simp [mem_extents_length, dev_read]

/-- The device contents `_write_all_pvd` leaves for a view that is not an orphan. -/
theorem write_all_pvd_ok (be : Bool) (v : disk_list) (dev : device)
    (hvalid : valid_view v) (hwf : well_formed v)
    (hno : v.pvd.vg_name.getD 0 0 ≠ 0) (hdev : on_device v.pvd dev) :
    _write_all_pvd be v dev =
      (true, v, ⟨dev.name, written_image be v dev.data⟩) := by
  obtain ⟨hvp, hvg, hvu, hvl, hve, hen⟩ := hvalid
  obtain ⟨-, hun, hln, hlm, hnames, hdis, f1, f2, f3, f4, f5⟩ := hwf
  obtain ⟨d1, d2, d3, d4, d5⟩ := hdev
  have e1 := mem_pvd_length false v.pvd
  have e2 := mem_vgd_length false v.vgd
  have e3 := uuids_image_length v.uuids
  have e4 := lvs_image_length v.lvds
  have e5 := mem_extents_length false v.extents
  have k1 : (poke dev.data 0 (mem_pvd false v.pvd)).length = dev.data.length :=
    poke_length (by omega)
  have k2 : (poke (poke dev.data 0 (mem_pvd false v.pvd))
      v.pvd.vg_on_disk.base (mem_vgd false v.vgd)).length = dev.data.length := by
    rw [poke_length (by omega), k1]
  have k3 : (poke (poke (poke dev.data 0 (mem_pvd false v.pvd))
      v.pvd.vg_on_disk.base (mem_vgd false v.vgd))
      v.pvd.pv_uuidlist_on_disk.base (uuids_image v.uuids)).length = dev.data.length := by
    rw [poke_length (by omega), k2]
  have k4 : (poke (poke (poke (poke (poke dev.data 0 (mem_pvd false v.pvd))
      v.pvd.vg_on_disk.base (mem_vgd false v.vgd))
      v.pvd.pv_uuidlist_on_disk.base (uuids_image v.uuids))
      v.pvd.lv_on_disk.base (List.replicate v.pvd.lv_on_disk.size 0))
      v.pvd.lv_on_disk.base (lvs_image v.lvds)).length = dev.data.length := by
    rw [poke_length (by rw [poke_length (by simp; omega)]; omega),
      poke_length (by simp; omega), k3]
  unfold _write_all_pvd written_image
  rw [write_pvd_ok be v dev hvp (by omega)]
  simp only [hno, if_false]
  rw [write_vgd_ok be v _ hvg (by simp only [k1]; omega)]
  simp only
  unfold _write_uuids
  simp only
  rw [write_uuids_loop_ok _ v.uuids _ _ (by omega) (by simp only [k2]; omega)]
  simp only
  rw [write_lvs_ok be v _ hvl f4 (by simp only [k3]; omega)]
  simp only
  rw [write_extents_ok be v _ hve hen hvp.2.2.2.2.2.2.2.2.2.2.2.2.2.2.2.2.2.1
    (by simp only [k4]; omega)]

theorem disjoint_sub {a b : data_area} (h : disjoint_areas a b) {p n q m : Nat}
    (hp : a.base ≤ p) (hpn : p + n ≤ a.base + a.size) (hq : b.base ≤ q)
    (hqm : q + m ≤ b.base + b.size) : p + n ≤ q ∨ q + m ≤ p := by
  unfold disjoint_areas at h
  omega

/-- What the five places hold after the write. -/
theorem written_image_regions (be : Bool) (v : disk_list) (d : List Nat)
    (hen : v.extents.length = v.pvd.pe_total) (hdis : regions_disjoint v.pvd)
    (hfit : regions_fit v) (hrc : record_clear v.pvd)
    (d1 : v.pvd.pv_on_disk.base + v.pvd.pv_on_disk.size ≤ d.length)
    (d2 : v.pvd.vg_on_disk.base + v.pvd.vg_on_disk.size ≤ d.length)
    (d3 : v.pvd.pv_uuidlist_on_disk.base + v.pvd.pv_uuidlist_on_disk.size ≤ d.length)
    (d4 : v.pvd.lv_on_disk.base + v.pvd.lv_on_disk.size ≤ d.length)
    (d5 : v.pvd.pe_on_disk.base + v.pvd.pe_on_disk.size ≤ d.length) :
    (written_image be v d).length = d.length ∧
    region (written_image be v d) 0 sizeof_pv_disk = mem_pvd false v.pvd ∧
    region (written_image be v d) v.pvd.vg_on_disk.base sizeof_vg_disk = mem_vgd false v.vgd ∧
    region (written_image be v d) v.pvd.pv_uuidlist_on_disk.base (NAME_LEN * v.uuids.length)
      = uuids_image v.uuids ∧
    region (written_image be v d) v.pvd.lv_on_disk.base (sizeof_lv_disk * v.lvds.length)
      = lvs_image v.lvds ∧
    region (written_image be v d) v.pvd.pe_on_disk.base (sizeof_pe_disk * v.pvd.pe_total)
      = mem_extents (pe_map_order be v.pvd.pe_total) v.extents := by
  obtain ⟨f1, f2, f3, f4, f5⟩ := hfit
  obtain ⟨-, -, -, -, x23, x24, x25, x34, x35, x45⟩ := hdis
  obtain ⟨y2, y3, y4, y5⟩ := hrc
  have e1 := mem_pvd_length false v.pvd
  have e2 := mem_vgd_length false v.vgd
  have e3 := uuids_image_length v.uuids
  have e4 := lvs_image_length v.lvds
  have e5 := mem_extents_length (pe_map_order be v.pvd.pe_total) v.extents
  have e6 : (List.replicate v.pvd.lv_on_disk.size 0).length = v.pvd.lv_on_disk.size := by simp
  rw [hen] at e5
  generalize hP : mem_pvd false v.pvd = P at *
  generalize hV : mem_vgd false v.vgd = V at *
  generalize hU : uuids_image v.uuids = U at *
  generalize hL : lvs_image v.lvds = L at *
  generalize hE : mem_extents (pe_map_order be v.pvd.pe_total) v.extents = E at *
  generalize hZ : List.replicate v.pvd.lv_on_disk.size 0 = Z at *
  generalize hnu : NAME_LEN * v.uuids.length = nu at *
  generalize hnl : sizeof_lv_disk * v.lvds.length = nl at *
  generalize hne : sizeof_pe_disk * v.pvd.pe_total = ne at *
  have k1 : (poke d 0 P).length = d.length := poke_length (by omega)
  have k2 : (poke (poke d 0 P) v.pvd.vg_on_disk.base V).length = d.length := by
    rw [poke_length (by omega), k1]
  have k3 : (poke (poke (poke d 0 P) v.pvd.vg_on_disk.base V)
      v.pvd.pv_uuidlist_on_disk.base U).length = d.length := by
    rw [poke_length (by omega), k2]
  have k4 : (poke (poke (poke (poke d 0 P) v.pvd.vg_on_disk.base V)
      v.pvd.pv_uuidlist_on_disk.base U) v.pvd.lv_on_disk.base Z).length = d.length := by
    rw [poke_length (by omega), k3]
  have k5 : (poke (poke (poke (poke (poke d 0 P) v.pvd.vg_on_disk.base V)
      v.pvd.pv_uuidlist_on_disk.base U) v.pvd.lv_on_disk.base Z)
      v.pvd.lv_on_disk.base L).length = d.length := by
    rw [poke_length (by omega), k4]
  have b1 : v.pvd.pe_on_disk.base + E.length ≤ d.length := by omega
  have b2 : v.pvd.lv_on_disk.base + L.length ≤ d.length := by omega
  have b3 : v.pvd.lv_on_disk.base + Z.length ≤ d.length := by omega
  have b4 : v.pvd.pv_uuidlist_on_disk.base + U.length ≤ d.length := by omega
  have b5 : v.pvd.vg_on_disk.base + V.length ≤ d.length := by omega
  have b6 : 0 + P.length ≤ d.length := by omega
  have q1 : (⟨0, sizeof_pv_disk⟩ : data_area).base ≤ 0 := le_refl _
  have q2 : 0 + sizeof_pv_disk
      ≤ (⟨0, sizeof_pv_disk⟩ : data_area).base + (⟨0, sizeof_pv_disk⟩ : data_area).size :=
    le_refl _
  have r5 : v.pvd.pe_on_disk.base + E.length
      ≤ v.pvd.pe_on_disk.base + v.pvd.pe_on_disk.size := by omega
  have r4 : v.pvd.lv_on_disk.base + L.length
      ≤ v.pvd.lv_on_disk.base + v.pvd.lv_on_disk.size := by omega
  have r4z : v.pvd.lv_on_disk.base + Z.length
      ≤ v.pvd.lv_on_disk.base + v.pvd.lv_on_disk.size := by omega
  have r3 : v.pvd.pv_uuidlist_on_disk.base + U.length
      ≤ v.pvd.pv_uuidlist_on_disk.base + v.pvd.pv_uuidlist_on_disk.size := by omega
  have r2 : v.pvd.vg_on_disk.base + V.length
      ≤ v.pvd.vg_on_disk.base + v.pvd.vg_on_disk.size := by omega
  have s2 : v.pvd.vg_on_disk.base + sizeof_vg_disk
      ≤ v.pvd.vg_on_disk.base + v.pvd.vg_on_disk.size := by omega
  have s3 : v.pvd.pv_uuidlist_on_disk.base + nu
      ≤ v.pvd.pv_uuidlist_on_disk.base + v.pvd.pv_uuidlist_on_disk.size := by omega
  have s4 : v.pvd.lv_on_disk.base + nl
      ≤ v.pvd.lv_on_disk.base + v.pvd.lv_on_disk.size := by omega
  unfold written_image
  rw [hP, hV, hU, hL, hE, hZ]
  refine ⟨by rw [poke_length (by rw [k5]; exact b1), k5], ?_, ?_, ?_, ?_, ?_⟩
  · rw [region_poke_other (by rw [k5]; exact b1) (disjoint_sub y5 q1 q2 (le_refl _) r5),
      region_poke_other (by rw [k4]; exact b2) (disjoint_sub y4 q1 q2 (le_refl _) r4),
      region_poke_other (by rw [k3]; exact b3) (disjoint_sub y4 q1 q2 (le_refl _) r4z),
      region_poke_other (by rw [k2]; exact b4) (disjoint_sub y3 q1 q2 (le_refl _) r3),
      region_poke_other (by rw [k1]; exact b5) (disjoint_sub y2 q1 q2 (le_refl _) r2), ← e1]
    exact region_poke_same b6
  · rw [region_poke_other (by rw [k5]; exact b1) (disjoint_sub x25 (le_refl _) s2 (le_refl _) r5),
      region_poke_other (by rw [k4]; exact b2) (disjoint_sub x24 (le_refl _) s2 (le_refl _) r4),
      region_poke_other (by rw [k3]; exact b3) (disjoint_sub x24 (le_refl _) s2 (le_refl _) r4z),
      region_poke_other (by rw [k2]; exact b4) (disjoint_sub x23 (le_refl _) s2 (le_refl _) r3),
      ← e2]
    exact region_poke_same (by rw [k1]; exact b5)
  · rw [region_poke_other (by rw [k5]; exact b1) (disjoint_sub x35 (le_refl _) s3 (le_refl _) r5),
      region_poke_other (by rw [k4]; exact b2) (disjoint_sub x34 (le_refl _) s3 (le_refl _) r4),
      region_poke_other (by rw [k3]; exact b3) (disjoint_sub x34 (le_refl _) s3 (le_refl _) r4z),
      ← e3]
    exact region_poke_same (by rw [k2]; exact b4)
  · rw [region_poke_other (by rw [k5]; exact b1) (disjoint_sub x45 (le_refl _) s4 (le_refl _) r5),
      ← e4]
    exact region_poke_same (by rw [k4]; exact b2)
  · rw [← e5]
    exact region_poke_same (by rw [k5]; exact b1)

theorem munge_formats_v1 (p : pv_disk) (h : p.version = 1) :
    _munge_formats p = some (with_pe_start p) := by
  unfold _munge_formats with_pe_start
  rw [if_pos h]

theorem with_pe_start_vg (p : pv_disk) : (with_pe_start p).vg_on_disk = p.vg_on_disk := rfl

theorem with_pe_start_uu (p : pv_disk) :
    (with_pe_start p).pv_uuidlist_on_disk = p.pv_uuidlist_on_disk := rfl

theorem with_pe_start_lv (p : pv_disk) : (with_pe_start p).lv_on_disk = p.lv_on_disk := rfl

theorem with_pe_start_pe (p : pv_disk) : (with_pe_start p).pe_on_disk = p.pe_on_disk := rfl

theorem with_pe_start_total (p : pv_disk) : (with_pe_start p).pe_total = p.pe_total := rfl

theorem with_pe_start_name (p : pv_disk) : (with_pe_start p).vg_name = p.vg_name := rfl

theorem cstr_append_of_nul {f : List Nat} (h : 0 ∈ f) (r : List Nat) :
    cstr (f ++ r) = cstr f := by
  induction f with
  | nil => cases h
  | cons x xs ih =>
    by_cases hx : x = 0
    · subst hx
      simp [cstr]
    · have h2 : 0 ∈ xs := by
        rcases List.mem_cons.1 h with h | h
        · exact absurd h.symm hx
        · exact h
      have := ih h2
      have hd : decide (x ≠ 0) = true := decide_eq_true hx
      simp only [cstr] at this ⊢
      simp only [List.cons_append, List.takeWhile_cons, hd, this, if_true]

/-- The string that starts at `vg_name` is the VG name when the field holds a NUL. -/
theorem vg_name_memory_cstr (be : Bool) {p : pv_disk} (hb : is_bytes NAME_LEN p.vg_name)
    (h0 : 0 ∈ p.vg_name) : cstr (vg_name_memory be p) = cstr p.vg_name := by
  unfold vg_name_memory
  rw [fix_bytes_of_is_bytes hb]
  exact cstr_append_of_nul h0 _

theorem pv_record_vg_name_bytes (be : Bool) (dev : device) :
    is_bytes NAME_LEN (pv_record be dev).vg_name := by
  unfold pv_record _xlate_pvd pvd_of_mem
  exact field_is_bytes _ _ _

/-- `read_disk` on a device whose five places hold the images of the view `v`, when the
VG name test passes. -/
theorem read_disk_of_regions (be : Bool) (v : disk_list) (dev : device) (mem : disk_list)
    (name : Option (List Nat)) (hvalid : valid_view v) (hver : v.pvd.version = 1)
    (hmagic : v.pvd.id = [72, 77]) (hun : v.uuids.length = v.vgd.pv_cur)
    (hln : v.lvds.length = v.vgd.lv_cur) (hlm : v.vgd.lv_cur ≤ v.vgd.lv_max)
    (hnames : ∀ l ∈ v.lvds, l.lv_name.getD 0 0 ≠ 0)
    (hstr : (match name with
      | some n => decide (strcmp n (vg_name_memory be (with_pe_start v.pvd)) ≠ 0)
      | none => false) = false)
    (hfit : NAME_LEN * v.uuids.length ≤ v.pvd.pv_uuidlist_on_disk.size)
    (r1 : region dev.data 0 sizeof_pv_disk = mem_pvd false v.pvd)
    (r2 : region dev.data v.pvd.vg_on_disk.base sizeof_vg_disk = mem_vgd false v.vgd)
    (r3 : region dev.data v.pvd.pv_uuidlist_on_disk.base (NAME_LEN * v.uuids.length)
      = uuids_image v.uuids)
    (r4 : region dev.data v.pvd.lv_on_disk.base (sizeof_lv_disk * v.lvds.length)
      = lvs_image v.lvds)
    (r5 : region dev.data v.pvd.pe_on_disk.base (sizeof_pe_disk * v.pvd.pe_total)
      = mem_extents (pe_map_order be v.pvd.pe_total) v.extents) :
    read_disk be dev mem name = (some ⟨with_pe_start v.pvd, v.vgd, v.uuids, v.lvds, v.extents⟩, dev) := by
  obtain ⟨hvp, hvg, hvu, hvl, hve, hen⟩ := hvalid
  have hpp : _read_pvd be ⟨mem.pvd, mem.vgd, [], [], mem.extents⟩ dev
      = (some ⟨v.pvd, mem.vgd, [], [], mem.extents⟩, dev) :=
    read_pvd_ok be ⟨mem.pvd, mem.vgd, [], [], mem.extents⟩ dev v.pvd r1 hvp
  have hgg : _read_vgd be ⟨with_pe_start v.pvd, mem.vgd, [], [], mem.extents⟩ dev
      = (some ⟨with_pe_start v.pvd, v.vgd, [], [], mem.extents⟩, dev) :=
    read_vgd_ok be ⟨with_pe_start v.pvd, mem.vgd, [], [], mem.extents⟩ dev v.vgd r2 hvg
  have huu : _read_uuids ⟨with_pe_start v.pvd, v.vgd, [], [], mem.extents⟩ dev
      = (some ⟨with_pe_start v.pvd, v.vgd, v.uuids, [], mem.extents⟩, dev) := by
    unfold _read_uuids
    dsimp only
    rw [with_pe_start_uu, ← hun,
      read_uuids_loop_ok _ _ dev v.uuids _ 0 [] r3 (by omega) (by omega)]
    have : v.uuids.map (fun u => fix_bytes NAME_LEN u ++ [0]) = v.uuids := by
      conv_rhs => rw [← List.map_id v.uuids]
      apply List.map_congr_left
      intro u hu
      exact valid_uuid_eq (hvu u hu)
    simp [this]
  have hll : _read_lvs be ⟨with_pe_start v.pvd, v.vgd, v.uuids, [], mem.extents⟩ dev
      = (some ⟨with_pe_start v.pvd, v.vgd, v.uuids, v.lvds, mem.extents⟩, dev) := by
    unfold _read_lvs
    dsimp only
    rw [with_pe_start_lv,
      read_lvs_loop_ok be _ _ _ dev v.lvds _ 0 0 [] (by omega) (by omega) (by omega)
        (fun l hl => ⟨hvl l hl, hnames l hl⟩)
        (by rw [Nat.zero_mul, Nat.add_zero]; exact r4)]
    simp
  have hee : _read_extents be ⟨with_pe_start v.pvd, v.vgd, v.uuids, v.lvds, mem.extents⟩ dev
      = (some ⟨with_pe_start v.pvd, v.vgd, v.uuids, v.lvds, v.extents⟩, dev) :=
    read_extents_ok be ⟨with_pe_start v.pvd, v.vgd, v.uuids, v.lvds, mem.extents⟩ dev
      v.extents hen hve hvp.2.2.2.2.2.2.2.2.2.2.2.2.2.2.2.2.2.1 r5
  unfold read_disk
  dsimp only
  rw [hpp]
  simp only [hmagic, List.getD_cons_zero, List.getD_cons_succ, ne_eq, not_true_eq_false,
    or_self, if_false, munge_formats_v1 v.pvd hver, vg_name_is_null, Bool.false_eq_true,
    with_pe_start_name, hstr, hgg, huu, hll, hee]

theorem name_test_passes (name : Option (List Nat)) (vg : List Nat) :
    (∀ n, name = some n → cstr n = cstr vg) →
    (match name with
      | some n => decide (strcmp n vg ≠ 0)
      | none => false) = false := by
  intro h
  cases name with
  | none => rfl
  | some n =>
    have : strcmp n vg = 0 := (strcmp_eq_zero_iff _ _).2 (h n rfl)
    simp [this]

/-- Writing a well-formed view that is not an orphan and reading the device back gives the
view with `pe_start` recomputed from the PE map region. -/
theorem write_then_read (be : Bool) (v : disk_list) (dev : device) (mem : disk_list)
    (name : Option (List Nat)) (hvalid : valid_view v) (hwf : well_formed v)
    (hmagic : v.pvd.id = [72, 77]) (hrc : record_clear v.pvd)
    (hno : v.pvd.vg_name.getD 0 0 ≠ 0) (hdev : on_device v.pvd dev)
    (hname : ∀ n, name = some n → cstr n = cstr v.pvd.vg_name ∧ 0 ∈ v.pvd.vg_name) :
    _write_all_pvd be v dev = (true, v, ⟨dev.name, written_image be v dev.data⟩) ∧
    read_disk be ⟨dev.name, written_image be v dev.data⟩ mem name
      = (some ⟨with_pe_start v.pvd, v.vgd, v.uuids, v.lvds, v.extents⟩,
         ⟨dev.name, written_image be v dev.data⟩) := by
  have hw := write_all_pvd_ok be v dev hvalid hwf hno hdev
  obtain ⟨hver, hun, hln, hlm, hnames, hdis, hfit⟩ := hwf
  obtain ⟨d1, d2, d3, d4, d5⟩ := hdev
  obtain ⟨-, r1, r2, r3, r4, r5⟩ :=
    written_image_regions be v dev.data hvalid.2.2.2.2.2 hdis hfit hrc d1 d2 d3 d4 d5
  have hvb : is_bytes NAME_LEN (with_pe_start v.pvd).vg_name := hvalid.1.2.2.2.2.2.2.2.2.1
  have hstr := name_test_passes name (vg_name_memory be (with_pe_start v.pvd))
    (fun n hn => by
      rw [vg_name_memory_cstr be hvb (hname n hn).2]
      exact (hname n hn).1)
  exact ⟨hw, read_disk_of_regions be v ⟨dev.name, written_image be v dev.data⟩ mem name hvalid
    hver hmagic hun hln hlm hnames hstr hfit.2.2.1 r1 r2 r3 r4 r5⟩

/-- C1, as stated, fails: the view `view_far` is well formed in the words of the claim and
is written without a short write, but the view read back has `pe_start = 7`, the end of the
PE map in sectors, where `view_far` has `pe_start = 8`. -/
theorem pv_round_trip_pe_start :
    valid_view view_far ∧ well_formed view_far ∧ on_device view_far.pvd dev_blank ∧
    (_write_all_pvd false view_far dev_blank).1 = true ∧
    view_far.pvd.pe_start = 8 ∧
    (read_disk false (_write_all_pvd false view_far dev_blank).2.2 mem_sample none).1.map
      (fun r => r.pvd.pe_start) = some 7 := by
  have hv : valid_view view_far := by decide
  have hw : well_formed view_far := by decide
  have hd : on_device view_far.pvd dev_blank := by
    simp only [on_device, dev_blank, List.length_replicate]
    decide
  obtain ⟨h1, h2⟩ := write_then_read false view_far dev_blank mem_sample none hv hw
    (by decide) (by decide) (by decide) hd (fun n h => by cases h)
  refine ⟨hv, hw, hd, by rw [h1], by decide, ?_⟩
  rw [h1]
  simp only
  rw [h2]
  decide

/-- C1, amended: for a view that is well formed in the words of the claim, whose records fit
their C types, and that moreover has the magic 'H','M', the four other regions clear of the
first `sizeof(struct pv_disk)` bytes of the device, where the PV record is written, a
non-empty VG name and `pe_start` equal to the end of the PE map in sectors,
`_write_all_pvd` on a device that holds the five regions succeeds and leaves the view as it
was, and `read_disk` on the device written, with no expected name, or with the view's VG
name when the `vg_name` field holds its terminating NUL, returns the view. -/
theorem pv_round_trip (be : Bool) (v : disk_list) (dev : device) (mem : disk_list)
    (name : Option (List Nat)) (hvalid : valid_view v) (hwf : well_formed v)
    (hmagic : v.pvd.id = [72, 77]) (hrc : record_clear v.pvd)
    (hno : v.pvd.vg_name.getD 0 0 ≠ 0)
    (hps : v.pvd.pe_start
      = ((v.pvd.pe_on_disk.base + v.pvd.pe_on_disk.size) % U32) / SECTOR_SIZE)
    (hdev : on_device v.pvd dev)
    (hname : ∀ n, name = some n → cstr n = cstr v.pvd.vg_name ∧ 0 ∈ v.pvd.vg_name) :
    (_write_all_pvd be v dev).1 = true ∧ (_write_all_pvd be v dev).2.1 = v ∧
    (read_disk be (_write_all_pvd be v dev).2.2 mem name).1 = some v := by
  obtain ⟨h1, h2⟩ := write_then_read be v dev mem name hvalid hwf hmagic hrc hno hdev hname
  have hp : with_pe_start v.pvd = v.pvd := by
    unfold with_pe_start
    rw [← hps]
  rw [h1]
  refine ⟨rfl, rfl, ?_⟩
  simp only
  rw [h2, hp]

/-- C1, amended, at scenario 6 of §8 on a big-endian host, read back with the expected
name "vgA". -/
theorem pv_round_trip_witness :
    (valid_view view_sample ∧ well_formed view_sample ∧ on_device view_sample.pvd dev_blank) ∧
    (_write_all_pvd true view_sample dev_blank).1 = true ∧
    (_write_all_pvd true view_sample dev_blank).2.1 = view_sample ∧
    (read_disk true (_write_all_pvd true view_sample dev_blank).2.2 mem_sample
      (some (name_bytes "vgA"))).1 = some view_sample := by
  have hd : on_device view_sample.pvd dev_blank := by
    simp only [on_device, dev_blank, List.length_replicate]
    decide
  exact ⟨⟨by decide, by decide, hd⟩,
    pv_round_trip true view_sample dev_blank mem_sample (some (name_bytes "vgA"))
      (by decide) (by decide) (by decide) (by decide) (by decide) (by decide) hd
      (fun n h => by cases h; exact ⟨rfl, by decide⟩)⟩

/-! ## The views a device yields -/

theorem read_vgd_pvd {be : Bool} {data d : disk_list} {dev : device}
    (h : (_read_vgd be data dev).1 = some d) : d.pvd = data.pvd := by
  unfold _read_vgd at h
  dsimp only at h
  split at h
  · cases h
  · cases h; rfl

theorem read_uuids_pvd {data d : disk_list} {dev : device}
    (h : (_read_uuids data dev).1 = some d) : d.pvd = data.pvd := by
  unfold _read_uuids at h
  dsimp only at h
  cases hr : (_read_uuids_loop data.vgd.pv_cur
      (data.pvd.pv_uuidlist_on_disk.base + data.pvd.pv_uuidlist_on_disk.size) data.vgd.pv_cur
      data.pvd.pv_uuidlist_on_disk.base 0 data.uuids dev).1 with
  | none => rw [hr] at h; cases h
  | some u => rw [hr] at h; cases h; rfl

theorem read_lvs_pvd {be : Bool} {data d : disk_list} {dev : device}
    (h : (_read_lvs be data dev).1 = some d) : d.pvd = data.pvd := by
  unfold _read_lvs at h
  dsimp only at h
  cases hr : (_read_lvs_loop be data.pvd.lv_on_disk.base data.vgd.lv_max data.vgd.lv_cur
      data.vgd.lv_max 0 0 data.lvds dev).1 with
  | none => rw [hr] at h; cases h
  | some u => rw [hr] at h; cases h; rfl

theorem read_extents_pvd {be : Bool} {data d : disk_list} {dev : device}
    (h : (_read_extents be data dev).1 = some d) : d.pvd = data.pvd := by
  unfold _read_extents at h
  dsimp only at h
  split at h
  · cases h
  · cases h; rfl

/-- The part of `read_disk` after the VG name test keeps the PV record. -/
theorem read_disk_tail_pvd (be : Bool) (data v : disk_list) (dev : device)
    (h : (match _read_vgd be data dev with
      | (none, dev) => ((none : Option disk_list), dev)
      | (some data, dev) =>
        match _read_uuids data dev with
        | (none, dev) => (none, dev)
        | (some data, dev) =>
          match _read_lvs be data dev with
          | (none, dev) => (none, dev)
          | (some data, dev) =>
            match _read_extents be data dev with
            | (none, dev) => (none, dev)
            | (some data, dev) => (some data, dev)).1 = some v) : v.pvd = data.pvd := by
  cases h1 : _read_vgd be data dev with
  | mk o1 dev1 =>
    rw [h1] at h
    cases o1 with
    | none => cases h
    | some d1 =>
      have e1 : d1.pvd = data.pvd := read_vgd_pvd (by rw [h1])
      simp only at h
      cases h2 : _read_uuids d1 dev1 with
      | mk o2 dev2 =>
        rw [h2] at h
        cases o2 with
        | none => cases h
        | some d2 =>
          have e2 : d2.pvd = d1.pvd := read_uuids_pvd (by rw [h2])
          simp only at h
          cases h3 : _read_lvs be d2 dev2 with
          | mk o3 dev3 =>
            rw [h3] at h
            cases o3 with
            | none => cases h
            | some d3 =>
              have e3 : d3.pvd = d2.pvd := read_lvs_pvd (by rw [h3])
              simp only at h
              cases h4 : _read_extents be d3 dev3 with
              | mk o4 dev4 =>
                rw [h4] at h
                cases o4 with
                | none => cases h
                | some d4 =>
                  have e4 : d4.pvd = d3.pvd := read_extents_pvd (by rw [h4])
                  simp only at h
                  cases h
                  rw [e4, e3, e2, e1]

/-- A view `read_disk` returns carries the PV record of the device as `_munge_formats`
leaves it, and the string that starts at its `vg_name` passed the comparison with the
expected name. -/
theorem read_disk_some (be : Bool) (dev : device) (mem : disk_list)
    (vg_name : Option (List Nat)) (v : disk_list)
    (h : (read_disk be dev mem vg_name).1 = some v) :
    _munge_formats (pv_record be dev) = some v.pvd ∧
    ∀ n, vg_name = some n → strcmp n (vg_name_memory be v.pvd) = 0 := by
  unfold read_disk _read_pvd at h
  by_cases hl : (dev_read dev 0 sizeof_pv_disk).1.length ≠ sizeof_pv_disk
  · simp [hl] at h
  · simp only [hl, if_false] at h
    split at h
    · cases h
    · cases hm : _munge_formats (_xlate_pvd be (pvd_of_mem be (dev_read dev 0 sizeof_pv_disk).1)) with
      | none => rw [hm] at h; cases h
      | some pvd =>
        rw [hm] at h
        simp only [vg_name_is_null, Bool.false_eq_true, if_false] at h
        split at h
        · cases h
        · rename_i hname
          have hp := read_disk_tail_pvd be _ v _ h
          simp only at hp
          refine ⟨?_, ?_⟩
          · unfold pv_record
            rw [hm, hp]
          · intro n hn
            subst hn
            rw [hp]
            simpa using hname

theorem read_pvs_in_vg_eq (be : Bool) (vg_name : Option (List Nat)) (mem : disk_list)
    (devs : List device) :
    ∀ head : List disk_list,
      read_pvs_in_vg be vg_name mem devs head =
        (!(head ++ devs.filterMap (fun dev => (read_disk be dev mem vg_name).1)).isEmpty,
         head ++ devs.filterMap (fun dev => (read_disk be dev mem vg_name).1)) := by
  induction devs with
  | nil => intro head; simp [read_pvs_in_vg]
  | cons dev rest ih =>
    intro head
    unfold read_pvs_in_vg
    cases h : (read_disk be dev mem vg_name).1 with
    | none => simp only [ih, List.filterMap_cons, h]
    | some data =>
      simp only [ih, List.filterMap_cons, h, list_add, List.append_assoc, List.singleton_append]

/-- A view `read_disk` returns has a `vg_name` of `NAME_LEN` bytes. -/
theorem read_disk_some_bytes (be : Bool) (dev : device) (mem : disk_list)
    (vg_name : Option (List Nat)) (v : disk_list)
    (h : (read_disk be dev mem vg_name).1 = some v) : is_bytes NAME_LEN v.pvd.vg_name := by
  have hm := (read_disk_some be dev mem vg_name v h).1
  rw [munge_formats_vg_name hm]
  exact pv_record_vg_name_bytes be dev

/-- C15, as stated, fails: the PV record of `dev_run_on` has a `vg_name` field of 128 bytes
'A' without NUL, followed by the system id "sys"; `read_pvs_in_vg` with the expected name
of 128 characters 'A' followed by "sys" adds the view of the device, whose `vg_name` is not
that name. -/
theorem read_pvs_in_vg_run_on :
    (read_pvs_in_vg false (some name_run_on) mem_sample [dev_run_on] []).1 = true ∧
    (read_pvs_in_vg false (some name_run_on) mem_sample [dev_run_on] []).2.map
      (fun v => v.pvd.vg_name) = [List.replicate 128 65] ∧
    cstr (List.replicate 128 65) ≠ cstr name_run_on ∧
    List.replicate 128 65 ≠ name_run_on := by
  decide

/-- C15, amended: `read_pvs_in_vg` called with a non-null expected VG name `n` adds to the
list, in device order, exactly the views `read_disk` returns for the devices; for every view
it adds the string that starts at `pvd.vg_name` compares equal to `n`, so that `pvd.vg_name`
is equal to `n` as a C string whenever the field holds its terminating NUL; and starting
from an empty list it returns failure exactly when no device produced a view. -/
theorem read_pvs_in_vg_members (be : Bool) (n : List Nat) (mem : disk_list)
    (devs : List device) (head : List disk_list) :
    (read_pvs_in_vg be (some n) mem devs head).2 =
      head ++ devs.filterMap (fun dev => (read_disk be dev mem (some n)).1) ∧
    (∀ v ∈ devs.filterMap (fun dev => (read_disk be dev mem (some n)).1),
      strcmp n (vg_name_memory be v.pvd) = 0 ∧
      (0 ∈ v.pvd.vg_name → cstr v.pvd.vg_name = cstr n)) ∧
    ((read_pvs_in_vg be (some n) mem devs []).1 = false ↔
      ∀ dev ∈ devs, (read_disk be dev mem (some n)).1 = none) := by
  refine ⟨by rw [read_pvs_in_vg_eq], ?_, ?_⟩
  · intro v hv
    obtain ⟨dev, -, hd⟩ := List.mem_filterMap.1 hv
    have h := (read_disk_some be dev mem (some n) v hd).2 n rfl
    refine ⟨h, fun h0 => ?_⟩
    have hb := read_disk_some_bytes be dev mem (some n) v hd
    rw [← vg_name_memory_cstr be hb h0]
    exact ((strcmp_eq_zero_iff _ _).1 h).symm
  · rw [read_pvs_in_vg_eq]
    simp only [List.nil_append, Bool.not_eq_false', List.isEmpty_iff]
    constructor
    · intro h dev hdev
      cases hr : (read_disk be dev mem (some n)).1 with
      | none => rfl
      | some v =>
        have : v ∈ devs.filterMap (fun dev => (read_disk be dev mem (some n)).1) :=
          List.mem_filterMap.2 ⟨dev, hdev, hr⟩
        rw [h] at this
        cases this
    · intro h
      apply List.eq_nil_iff_forall_not_mem.2
      intro v hv
      obtain ⟨dev, hdev, hd⟩ := List.mem_filterMap.1 hv
      rw [h dev hdev] at hd
      cases hd

/-- C20: for a PV record `p` of version 1, `_munge_formats` returns the record that has
`pe_start = ((pe_on_disk.base + pe_on_disk.size) mod 2^32) / SECTOR_SIZE`, whatever
`pe_start` the record stored, and is `p` in every other field; so a view `read_disk`
returns for a device whose PV record has version 1 has that `pe_start`, computed from its
own `pe_on_disk`, which is `(base + size) / SECTOR_SIZE` when the sum fits 32 bits. -/
theorem munge_formats_v1_pe_start (p : pv_disk) (hv : p.version = 1) (be : Bool)
    (dev : device) (mem : disk_list) (vg_name : Option (List Nat)) (v : disk_list) :
    (∃ r, _munge_formats p = some r ∧
      r.pe_start = ((p.pe_on_disk.base + p.pe_on_disk.size) % U32) / SECTOR_SIZE ∧
      { r with pe_start := p.pe_start } = p) ∧
    (pv_record be dev = p → (read_disk be dev mem vg_name).1 = some v →
      v.pvd.version = 1 ∧
      v.pvd.pe_start =
        ((v.pvd.pe_on_disk.base + v.pvd.pe_on_disk.size) % U32) / SECTOR_SIZE ∧
      { v.pvd with pe_start := p.pe_start } = p ∧
      (v.pvd.pe_on_disk.base + v.pvd.pe_on_disk.size < U32 →
        v.pvd.pe_start = (v.pvd.pe_on_disk.base + v.pvd.pe_on_disk.size) / SECTOR_SIZE)) := by
  have hm : _munge_formats p = some (with_pe_start p) := by
    unfold _munge_formats with_pe_start
    rw [if_pos hv]
  refine ⟨⟨with_pe_start p, hm, rfl, rfl⟩, ?_⟩
  intro hrec hread
  have h := (read_disk_some be dev mem vg_name v hread).1
  rw [hrec, hm] at h
  have e : v.pvd = with_pe_start p := (Option.some.inj h).symm
  rw [e]
  refine ⟨hv, rfl, rfl, ?_⟩
  intro hlt
  have hlt2 : p.pe_on_disk.base + p.pe_on_disk.size < U32 := hlt
  show ((p.pe_on_disk.base + p.pe_on_disk.size) % U32) / SECTOR_SIZE =
    (p.pe_on_disk.base + p.pe_on_disk.size) / SECTOR_SIZE
  rw [Nat.mod_eq_of_lt hlt2]

/-- C20 at a device whose version-1 record stores `pe_start = 99` with the PE map at bytes
3536 to 3600: the view read has `pe_start = 7`. -/
theorem munge_formats_v1_pe_start_witness :
    (pv_record false dev_stale).version = 1 ∧ (pv_record false dev_stale).pe_start = 99 ∧
    (_munge_formats (pv_record false dev_stale)).map (fun r => r.pe_start) = some 7 ∧
    ((read_disk false dev_stale mem_sample none).1.map
      (fun r => (r.pvd.version, r.pvd.pe_start, r.pvd.pe_on_disk))) = some (1, 7, ⟨3536, 64⟩) := by
  have hv : (pv_record false dev_stale).version = 1 := by decide
  have hs : (pv_record false dev_stale).pe_start = 99 := by decide
  have hb : (pv_record false dev_stale).pe_on_disk = ⟨3536, 64⟩ := by decide
  have hsome : (read_disk false dev_stale mem_sample none).1.isSome = true := by decide
  obtain ⟨v, hread⟩ := Option.isSome_iff_exists.1 hsome
  have h := munge_formats_v1_pe_start (pv_record false dev_stale) hv false dev_stale
    mem_sample none v
  obtain ⟨⟨r, hr, hp, -⟩, h2⟩ := h
  obtain ⟨v1, vp, vrest, -⟩ := h2 rfl hread
  have hvb : v.pvd.pe_on_disk = ⟨3536, 64⟩ := by
    rw [← hb, ← vrest]
  refine ⟨hv, hs, ?_, ?_⟩
  · rw [hr, Option.map_some', hp, hb]
    rfl
  · rw [hread, Option.map_some', v1, vp, hvb]
    rfl

/-- C15, amended, at the expected name "vgA": of an orphan device, a device of "vgA" with
its metadata and a device of "vgA" that ends after the PV record, the second alone yields a
view, whose VG name is "vgA", and the call succeeds; without the second device the call
fails. -/
theorem read_pvs_in_vg_members_witness :
    (read_pvs_in_vg false (some (name_bytes "vgA")) mem_sample
      [dev_orphan_long, dev_stale, dev_vgA] []).1 = true ∧
    (read_pvs_in_vg false (some (name_bytes "vgA")) mem_sample
      [dev_orphan_long, dev_stale, dev_vgA] []).2.map (fun v => cstr v.pvd.vg_name)
      = [cstr (name_bytes "vgA")] ∧
    (read_pvs_in_vg false (some (name_bytes "vgA")) mem_sample
      [dev_orphan_long, dev_vgA] []).1 = false := by
  have h := read_pvs_in_vg_members false (name_bytes "vgA") mem_sample
    [dev_orphan_long, dev_stale, dev_vgA] []
  have h2 := read_pvs_in_vg_members false (name_bytes "vgA") mem_sample
    [dev_orphan_long, dev_vgA] []
  refine ⟨by decide, ?_, h2.2.2.2 (by decide)⟩
  have hlen : ((read_pvs_in_vg false (some (name_bytes "vgA")) mem_sample
      [dev_orphan_long, dev_stale, dev_vgA] []).2).length = 1 := by decide
  have hnul : ∀ v ∈ (read_pvs_in_vg false (some (name_bytes "vgA")) mem_sample
      [dev_orphan_long, dev_stale, dev_vgA] []).2, 0 ∈ v.pvd.vg_name := by decide
  rw [h.1] at hlen hnul ⊢
  have hall := h.2.1
  generalize List.filterMap (fun dev => (read_disk false dev mem_sample
    (some (name_bytes "vgA"))).1) [dev_orphan_long, dev_stale, dev_vgA] = found
    at hlen hall hnul ⊢
  match found, hlen, hall, hnul with
  | [v], _, hall, hnul =>
    have := (hall v (by simp)).2 (hnul v (by simp))
    simp [this]

/-! ## Composite names -/

theorem cstring_length_le (a r : List Char) : (cstring (a ++ NUL :: r)).length ≤ a.length := by
  induction a with
  | nil => simp [cstring, List.takeWhile]
  | cons c a ih =>
    simp only [cstring, List.cons_append, List.takeWhile_cons] at ih ⊢
    split
    · simpa using ih
    · simp

/-- The name `_setup_task` gives a task has at most 127 characters. -/
theorem lv_task_name_length (env : dm_env) (lv : logical_volume) :
    (lv_task_name env lv).length ≤ 127 := by
  unfold lv_task_name _build_lv_name snprintf
  simp only [Nat.reduceEqDiff, if_false, List.take_zero, List.nil_append, Nat.add_one_sub_one,
    Nat.zero_add]
  have hl : (List.take 127 (lv.vg.name ++ '_' :: lv.name)).length ≤ 127 := by
    simp
  have hlen : (stack_buffer env 128).length = 128 := stack_buffer_length env 128
  rw [List.take_append_eq_append_take,
    List.take_of_length_le (l := List.take 127 (lv.vg.name ++ '_' :: lv.name) ++ [NUL])
      (by simp only [List.length_append, List.length_singleton, hlen]; omega),
    List.append_assoc, List.singleton_append]
  exact le_trans (cstring_length_le _ _) hl

/-- C19: the LV "c" of the VG "a_b" and the LV "b_c" of the VG "a" differ in their pair of
names, yet `_build_lv_name` leaves the same string for both in every buffer, so
`_setup_task` builds the same task for both, of whatever kind and in whatever state of the
collaborators; and the name of every task `_setup_task` builds, for any LV, is the string
of the 128-byte buffer, at most 127 characters, the first 127 of `"<vg.name>_<lv.name>"`
when the names hold no NUL. -/
theorem build_lv_name_collision (env : dm_env) (e1 e2 : Nat) (s1 s2 : List stripe_segment)
    (k : dm_task_type) (w : List event) (lv : logical_volume) :
    ((lv_ab_c e1 s1).vg.name, (lv_ab_c e1 s1).name)
      ≠ ((lv_a_bc e2 s2).vg.name, (lv_a_bc e2 s2).name) ∧
    (∀ (buffer : List Char) (s : Nat),
      _build_lv_name buffer s (lv_ab_c e1 s1) = _build_lv_name buffer s (lv_a_bc e2 s2)) ∧
    _setup_task env (lv_ab_c e1 s1) k w = _setup_task env (lv_a_bc e2 s2) k w ∧
    (∀ dmt w2, _setup_task env lv k w = (some dmt, w2) →
      dmt.kind = k ∧ dmt.name = cstring (_build_lv_name (stack_buffer env 128) 128 lv) ∧
      dmt.name.length ≤ 127 ∧
      ((∀ c ∈ lv.vg.name ++ lv.name, c ≠ NUL) →
        dmt.name = (lv.vg.name ++ '_' :: lv.name).take 127)) := by
  have hne : ("a_b".toList, "c".toList) ≠ ("a".toList, "b_c".toList) := by decide
  refine ⟨hne, fun _ _ => rfl, rfl, ?_⟩
  intro dmt w2 h
  by_cases hc : env.answer (w ++ [event.task_create k]) = 0
  · rw [setup_task_none env lv k w hc] at h
    cases h
  · rw [setup_task_some env lv k w hc] at h
    cases h
    exact ⟨rfl, rfl, lv_task_name_length env lv, fun hn => lv_task_name_eq env lv hn⟩

/-- C19 at REMOVE tasks: the task `_setup_task` builds for the LV "c" of "a_b" and for the
LV "b_c" of "a" is the one named "a_b_c"; and for an LV whose VG name and LV name have 100
characters each the name of the task has 127 characters. -/
theorem build_lv_name_collision_witness :
    (_setup_task env_ok (lv_ab_c 1 []) DM_DEVICE_REMOVE []).1
      = some ⟨DM_DEVICE_REMOVE, "a_b_c".toList, []⟩ ∧
    (_setup_task env_ok (lv_a_bc 2 [seg_home]) DM_DEVICE_REMOVE []).1
      = some ⟨DM_DEVICE_REMOVE, "a_b_c".toList, []⟩ ∧
    (lv_task_name env_ok lv_long).length = 127 ∧
    lv_task_name env_ok lv_long = (lv_long.vg.name ++ '_' :: lv_long.name).take 127 := by
  have h := build_lv_name_collision env_ok 1 2 [] [seg_home] DM_DEVICE_REMOVE [] lv_long
  have h1 : (_setup_task env_ok (lv_ab_c 1 []) DM_DEVICE_REMOVE []).1
      = some ⟨DM_DEVICE_REMOVE, "a_b_c".toList, []⟩ := by decide
  obtain ⟨-, -, hsame, hname⟩ := h
  obtain ⟨-, hn, -, hcut⟩ := hname ⟨DM_DEVICE_REMOVE, lv_task_name env_ok lv_long, []⟩ _
    (setup_task_some env_ok lv_long DM_DEVICE_REMOVE [] (by decide))
  refine ⟨h1, ?_, by decide, hcut (by decide)⟩
  rw [← hsame]
  exact h1

/-! ## Mapped devices -/

theorem fs_dels_append (a b : List event) : fs_dels (a ++ b) = fs_dels a ++ fs_dels b := by
  induction a with
  | nil => rfl
  | cons e a ih => cases e <;> simp [fs_dels, ih]

theorem mapped_from_append (env : dm_env) (a : List event) :
    ∀ (pre b : List event) (st : List (List Char)),
      mapped_from env pre (a ++ b) st = mapped_from env (pre ++ a) b (mapped_from env pre a st) := by
  induction a with
  | nil => intro pre b st; simp [mapped_from]
  | cons e a ih =>
    intro pre b st
    cases e <;> simp [mapped_from, ih, List.append_assoc]

theorem mapped_from_no_runs (env : dm_env) (a : List event) :
    ∀ (pre : List event) (st : List (List Char)), runs a = [] → mapped_from env pre a st = st := by
  induction a with
  | nil => intro pre st _; rfl
  | cons e a ih =>
    intro pre st h
    cases e <;> simp [runs] at h <;> simp [mapped_from, ih _ _ h]

theorem mapped_devices_append (env : dm_env) (st0 : List (List Char)) (w a : List event) :
    mapped_devices env st0 (w ++ a) = mapped_from env w a (mapped_devices env st0 w) := by
  unfold mapped_devices
  rw [mapped_from_append]
  simp

/-- The log of `_load`: calls that run nothing, then either nothing more and the result 0,
or the run of the task, named for the LV, whose answer is the result, and its
destruction. -/
theorem load_shape (env : dm_env) (lv : logical_volume) (k : dm_task_type) (w : List event) :
    (∃ a, runs a = [] ∧ _load env lv k w = (0, w ++ a)) ∨
    (∃ a T, runs a = [] ∧ T.kind = k ∧ T.name = lv_task_name env lv ∧
      _load env lv k w
        = (env.answer (w ++ a ++ [event.run T]), w ++ a ++ [event.run T, event.destroy T])) := by
  by_cases hc : env.answer (w ++ [event.task_create k]) = 0
  · left
    refine ⟨[event.task_create k], rfl, ?_⟩
    unfold _load
    rw [setup_task_none env lv k w hc]
  · unfold _load
    rw [setup_task_some env lv k w hc]
    simp only
    obtain ⟨hk, hn, l, hl, -, hr, -⟩ := load_loop_log env lv.segments
      ⟨k, lv_task_name env lv, []⟩
      (w ++ [event.task_create k, event.set_name (lv_task_name env lv)])
    generalize _load_loop env lv.segments ⟨k, lv_task_name env lv, []⟩
      (w ++ [event.task_create k, event.set_name (lv_task_name env lv)]) = L at hk hn hl
    by_cases h0 : L.1 = 0
    · left
      simp only [h0, if_true, dm_task_destroy]
      refine ⟨[event.task_create k, event.set_name (lv_task_name env lv)] ++ l
        ++ [event.destroy L.2.1], ?_, ?_⟩
      · simp [runs_append, hr, runs]
      · rw [hl]; simp
    · right
      simp only [h0, if_false, dm_task_destroy, dm_task_run]
      refine ⟨[event.task_create k, event.set_name (lv_task_name env lv)] ++ l, L.2.1, ?_, hk,
        hn, ?_⟩
      · simp [runs_append, hr, runs]
      · rw [hl]; simp

/-- C12, as stated, fails: with collaborators that refuse only `fs_add_lv`, `lv_activate`
of the LV of scenario 1, with no device mapped before, returns failure after the CREATE task
ran with success, and the device "vg0_home" is mapped after the call. -/
theorem lv_activate_leaves_device :
    mapped_devices env_fs_add_fails [] [] = [] ∧
    (lv_activate env_fs_add_fails lv_home []).1 = 0 ∧
    runs (lv_activate env_fs_add_fails lv_home []).2 = [DM_DEVICE_CREATE] ∧
    fs_dels (lv_activate env_fs_add_fails lv_home []).2 = [] ∧
    mapped_devices env_fs_add_fails [] (lv_activate env_fs_add_fails lv_home []).2
      = ["vg0_home".toList] := by
  decide

/-- C12, amended: when `lv_activate` returns failure because `_load` failed (the CREATE task
could not be created, a target row was not emitted, or the run of the task failed), the
mapped devices after the call are the ones mapped before it, so an LV without a mapped
device before has none after; when it returns failure after `_load` succeeded, it is
`fs_add_lv` that failed, and the device the CREATE task made is mapped after the call:
nothing removes it. -/
theorem lv_activate_failure (env : dm_env) (lv : logical_volume) (w : List event)
    (st0 : List (List Char)) (hfail : (lv_activate env lv w).1 = 0) :
    ((_load env lv DM_DEVICE_CREATE w).1 = 0 →
      mapped_devices env st0 (lv_activate env lv w).2 = mapped_devices env st0 w ∧
      (lv_task_name env lv ∉ mapped_devices env st0 w →
        lv_task_name env lv ∉ mapped_devices env st0 (lv_activate env lv w).2)) ∧
    ((_load env lv DM_DEVICE_CREATE w).1 ≠ 0 →
      (fs_add_lv env lv (_load env lv DM_DEVICE_CREATE w).2).1 = 0 ∧
      mapped_devices env st0 (lv_activate env lv w).2
        = lv_task_name env lv :: mapped_devices env st0 w) := by
  unfold lv_activate at hfail ⊢
  constructor
  · intro h0
    simp only [h0, if_true]
    have key : mapped_devices env st0 (_load env lv DM_DEVICE_CREATE w).2
        = mapped_devices env st0 w := by
      rcases load_shape env lv DM_DEVICE_CREATE w with ⟨a, ha, hl⟩ | ⟨a, T, ha, hk, hn, hl⟩
      · rw [hl, mapped_devices_append, mapped_from_no_runs env a _ _ ha]
      · rw [hl] at h0 ⊢
        simp only at h0 ⊢
        rw [mapped_devices_append, mapped_devices_append, mapped_from_no_runs env a _ _ ha]
        simp only [mapped_from, h0, if_true]
    exact ⟨key, fun hno => by rw [key]; exact hno⟩
  · intro h1
    simp only [h1, if_false] at hfail ⊢
    have hf : (fs_add_lv env lv (_load env lv DM_DEVICE_CREATE w).2).1 = 0 := by
      by_contra hne
      simp [hne] at hfail
    refine ⟨hf, ?_⟩
    rcases load_shape env lv DM_DEVICE_CREATE w with ⟨a, ha, hl⟩ | ⟨a, T, ha, hk, hn, hl⟩
    · rw [hl] at h1
      exact absurd rfl h1
    · rw [hl] at h1 ⊢
      simp only at h1 ⊢
      unfold fs_add_lv
      simp only
      rw [mapped_devices_append, mapped_devices_append, mapped_devices_append,
        mapped_from_no_runs env a _ _ ha]
      simp only [mapped_from, List.cons_append, List.nil_append, h1, if_false, dm_apply, hk, hn]

/-- C12, amended, at scenario 1 (§8) with collaborators that refuse the run of every task,
and with collaborators that refuse only `fs_add_lv`. -/
theorem lv_activate_failure_witness :
    ((lv_activate env_run_fails lv_home []).1 = 0 ∧
      mapped_devices env_run_fails []
        (lv_activate env_run_fails lv_home []).2 = []) ∧
    ((lv_activate env_fs_add_fails lv_home []).1 = 0 ∧
      mapped_devices env_fs_add_fails [] (lv_activate env_fs_add_fails lv_home []).2
        = [lv_task_name env_fs_add_fails lv_home]) := by
  have hf1 : (lv_activate env_run_fails lv_home []).1 = 0 := by
    decide
  have hf2 : (lv_activate env_fs_add_fails lv_home []).1 = 0 := by decide
  have h1 := (lv_activate_failure env_run_fails lv_home [] []
    hf1).1 (by decide)
  have h2 := (lv_activate_failure env_fs_add_fails lv_home [] [] hf2).2 (by decide)
  exact ⟨⟨hf1, h1.1⟩, hf2, h2.2⟩

/-- C11, as stated, fails: when the REMOVE task cannot be created, `lv_deactivate` returns
failure and `fs_del_lv` is not called. -/
theorem lv_deactivate_without_notice :
    lv_deactivate env_no_task lv_home [] = (0, [event.task_create DM_DEVICE_REMOVE]) ∧
    fs_dels (lv_deactivate env_no_task lv_home []).2 = [] := by
  decide

/-- C11, amended: when the REMOVE task cannot be created, `lv_deactivate` returns failure
and calls nothing else, `fs_del_lv` included.  When it can, `lv_deactivate` names it for the
LV, runs it, destroys it and calls `fs_del_lv` once, whatever the run returned, and returns
what the run returned.  Hence, for two calls in a row in which the tasks can be created: the
log holds two more `fs_del_lv` calls for the LV, and when the first call succeeded and the
kernel refuses to REMOVE a device that is not mapped, the second call returns failure. -/
theorem lv_deactivate_notifies (env : dm_env) (lv : logical_volume) (w : List event)
    (st0 : List (List Char)) :
    (env.answer (w ++ [event.task_create DM_DEVICE_REMOVE]) = 0 →
      lv_deactivate env lv w = (0, w ++ [event.task_create DM_DEVICE_REMOVE])) ∧
    (env.answer (w ++ [event.task_create DM_DEVICE_REMOVE]) ≠ 0 →
      lv_deactivate env lv w
        = (env.answer (remove_log env lv w),
           remove_log env lv w
             ++ [event.destroy (remove_task env lv), event.fs_del_lv lv.vg.name lv.name]) ∧
      fs_dels (lv_deactivate env lv w).2 = fs_dels w ++ [(lv.vg.name, lv.name)]) ∧
    (env.answer (w ++ [event.task_create DM_DEVICE_REMOVE]) ≠ 0 →
      env.answer ((lv_deactivate env lv w).2 ++ [event.task_create DM_DEVICE_REMOVE]) ≠ 0 →
      fs_dels (lv_deactivate env lv (lv_deactivate env lv w).2).2
        = fs_dels w ++ [(lv.vg.name, lv.name), (lv.vg.name, lv.name)] ∧
      (lv_deactivate env lv (lv_deactivate env lv w).2).1
        = env.answer (remove_log env lv (lv_deactivate env lv w).2) ∧
      ((lv_deactivate env lv w).1 ≠ 0 →
        (lv_task_name env lv ∉ mapped_devices env st0
            ((lv_deactivate env lv w).2
              ++ [event.task_create DM_DEVICE_REMOVE, event.set_name (lv_task_name env lv)]) →
          env.answer (remove_log env lv (lv_deactivate env lv w).2) = 0) →
        (lv_deactivate env lv (lv_deactivate env lv w).2).1 = 0)) := by
  have hnone : ∀ w : List event, env.answer (w ++ [event.task_create DM_DEVICE_REMOVE]) = 0 →
      lv_deactivate env lv w = (0, w ++ [event.task_create DM_DEVICE_REMOVE]) := by
    intro w h
    unfold lv_deactivate
    rw [setup_task_none env lv _ w h]
  have hsome : ∀ w : List event, env.answer (w ++ [event.task_create DM_DEVICE_REMOVE]) ≠ 0 →
      lv_deactivate env lv w
        = (env.answer (remove_log env lv w),
           remove_log env lv w
             ++ [event.destroy (remove_task env lv), event.fs_del_lv lv.vg.name lv.name]) := by
    intro w h
    unfold lv_deactivate
    rw [setup_task_some env lv _ w h]
    simp [dm_task_run, dm_task_destroy, fs_del_lv, remove_log, remove_task]
  have hdel : ∀ w : List event, env.answer (w ++ [event.task_create DM_DEVICE_REMOVE]) ≠ 0 →
      fs_dels (lv_deactivate env lv w).2 = fs_dels w ++ [(lv.vg.name, lv.name)] := by
    intro w h
    rw [hsome w h]
    simp [remove_log, fs_dels_append, fs_dels]
  refine ⟨hnone w, fun h => ⟨hsome w h, hdel w h⟩, ?_⟩
  intro h1 h2
  refine ⟨?_, ?_, ?_⟩
  · rw [hdel _ h2, hdel w h1]
    simp
  · rw [hsome _ h2]
  · intro hok hk
    rw [hsome _ h2]
    apply hk
    rw [hsome w h1] at hok ⊢
    simp only at hok ⊢
    have e : remove_log env lv w
          ++ [event.destroy (remove_task env lv), event.fs_del_lv lv.vg.name lv.name]
          ++ [event.task_create DM_DEVICE_REMOVE, event.set_name (lv_task_name env lv)]
        = (w ++ [event.task_create DM_DEVICE_REMOVE, event.set_name (lv_task_name env lv)])
          ++ [event.run (remove_task env lv), event.destroy (remove_task env lv),
              event.fs_del_lv lv.vg.name lv.name, event.task_create DM_DEVICE_REMOVE,
              event.set_name (lv_task_name env lv)] := by
      simp [remove_log]
    have hok3 : env.answer (w ++ [event.task_create DM_DEVICE_REMOVE,
        event.set_name (lv_task_name env lv),
        event.run ⟨DM_DEVICE_REMOVE, lv_task_name env lv, []⟩]) ≠ 0 := hok
    rw [e, mapped_devices_append]
    simp [mapped_from, dm_apply, remove_task, hok3]

/-- C11, amended, at the LV of scenario 1 (§8), mapped before the calls: with collaborators
that refuse to create a task nothing but the creation is logged; with a kernel that runs the
first task and refuses every later one, the first of two calls in a row succeeds, the second
fails, and `fs_del_lv` was called twice. -/
theorem lv_deactivate_notifies_witness :
    lv_deactivate env_no_task lv_home [] = (0, [event.task_create DM_DEVICE_REMOVE]) ∧
    (lv_deactivate env_one_run lv_home []).1 = 1 ∧
    fs_dels (lv_deactivate env_one_run lv_home []).2 = [("vg0".toList, "home".toList)] ∧
    (lv_deactivate env_one_run lv_home (lv_deactivate env_one_run lv_home []).2).1 = 0 ∧
    fs_dels (lv_deactivate env_one_run lv_home (lv_deactivate env_one_run lv_home []).2).2
      = [("vg0".toList, "home".toList), ("vg0".toList, "home".toList)] := by
  have h0 := (lv_deactivate_notifies env_no_task lv_home [] []).1 (by decide)
  have h := lv_deactivate_notifies env_one_run lv_home [] ["vg0_home".toList]
  have h1 := (h.2.1 (by decide)).2
  obtain ⟨h2, -, h3⟩ := h.2.2 (by decide) (by decide)
  exact ⟨h0, by decide, h1, h3 (by decide) (fun _ => by decide), h2⟩

/-! ## Batch operations -/

theorem lv_info_log (env : dm_env) (lv : logical_volume) (w : List event) :
    ∃ l, (lv_info env lv w).2.2 = w ++ l ∧ creates l = [DM_DEVICE_INFO] := by
  by_cases hc : env.answer (w ++ [event.task_create DM_DEVICE_INFO]) = 0
  · unfold lv_info
    rw [setup_task_none env lv _ w hc]
    exact ⟨[event.task_create DM_DEVICE_INFO], rfl, rfl⟩
  · unfold lv_info
    rw [setup_task_some env lv _ w hc]
    simp only [dm_task_run, dm_task_get_info, dm_task_destroy]
    split
    · exact ⟨_, by simp only [List.append_assoc]; rfl, by simp [creates]⟩
    · split
      · exact ⟨_, by simp only [List.append_assoc]; rfl, by simp [creates]⟩
      · exact ⟨_, by simp only [List.append_assoc]; rfl, by simp [creates]⟩

theorem lv_active_log (env : dm_env) (lv : logical_volume) (w : List event) :
    ∃ l, (lv_active env lv w).2 = w ++ l ∧ creates l = [DM_DEVICE_INFO] := by
  obtain ⟨l, hl, hc⟩ := lv_info_log env lv w
  refine ⟨l, ?_, hc⟩
  unfold lv_active
  rcases hi : lv_info env lv w with ⟨r, o, w2⟩
  rw [hi] at hl
  cases o with
  | none => exact hl
  | some info =>
    simp only
    split <;> exact hl

theorem lv_open_count_log (env : dm_env) (lv : logical_volume) (w : List event) :
    ∃ l, (lv_open_count env lv w).2 = w ++ l ∧ creates l = [DM_DEVICE_INFO] := by
  obtain ⟨l, hl, hc⟩ := lv_info_log env lv w
  refine ⟨l, ?_, hc⟩
  unfold lv_open_count
  rcases hi : lv_info env lv w with ⟨r, o, w2⟩
  rw [hi] at hl
  cases o with
  | none => exact hl
  | some info =>
    simp only
    split <;> exact hl

theorem lv_activate_log (env : dm_env) (lv : logical_volume) (w : List event) :
    ∃ l, (lv_activate env lv w).2 = w ++ l ∧ creates l = [DM_DEVICE_CREATE] := by
  have hload : ∃ l, (_load env lv DM_DEVICE_CREATE w).2 = w ++ l ∧
      creates l = [DM_DEVICE_CREATE] := by
    by_cases hc : env.answer (w ++ [event.task_create DM_DEVICE_CREATE]) = 0
    · unfold _load
      rw [setup_task_none env lv _ w hc]
      exact ⟨[event.task_create DM_DEVICE_CREATE], rfl, rfl⟩
    · obtain ⟨l, hl, hcr, -, -⟩ := load_log env lv DM_DEVICE_CREATE w hc
      exact ⟨l, hl, hcr⟩
  obtain ⟨l, hl, hcr⟩ := hload
  unfold lv_activate
  simp only
  split
  · exact ⟨l, hl, hcr⟩
  · refine ⟨l ++ [event.fs_add_lv lv.vg.name lv.name], ?_, ?_⟩
    · simp only [fs_add_lv, hl, List.append_assoc]
    · simp [creates_append, hcr, creates]

theorem activate_lvs_loop_eq (env : dm_env) (lvs : List logical_volume) :
    ∀ (count : Int) (w : List event),
      (activate_lvs_in_vg_loop env lvs count w).1
        = count + ((activation_results env lvs w).countP activated : Nat) ∧
      ∃ l, (activate_lvs_in_vg_loop env lvs count w).2 = w ++ l ∧
        creates l = visit_tasks (activation_results env lvs w) := by
  induction lvs with
  | nil =>
    intro count w
    exact ⟨by simp [activate_lvs_in_vg_loop, activation_results], [], by
      simp [activate_lvs_in_vg_loop], rfl⟩
  | cons lv rest ih =>
    intro count w
    obtain ⟨la, hla, hca⟩ := lv_active_log env lv w
    unfold activate_lvs_in_vg_loop activation_results
    simp only
    by_cases ha : (lv_active env lv w).1 = 0
    · simp only [ha, if_true]
      obtain ⟨lr, hlr, hcr⟩ := lv_activate_log env lv (lv_active env lv w).2
      obtain ⟨h1, l, hl, hc⟩ := ih
        (count + (if (lv_activate env lv (lv_active env lv w).2).1 = 0 then 0 else 1))
        (lv_activate env lv (lv_active env lv w).2).2
      refine ⟨?_, la ++ lr ++ l, ?_, ?_⟩
      · rw [h1, List.countP_cons]
        by_cases hr : (lv_activate env lv (lv_active env lv w).2).1 = 0
        · simp [hr, activated]
        · simp [hr, activated]
          omega
      · rw [hl, hlr, hla]
        simp only [List.append_assoc]
      · rw [creates_append, creates_append, hca, hcr, hc]
        rfl
    · simp only [ha, if_false]
      obtain ⟨h1, l, hl, hc⟩ := ih count (lv_active env lv w).2
      refine ⟨?_, la ++ l, ?_, ?_⟩
      · rw [h1, List.countP_cons]
        simp [activated]
      · rw [hl, hla]
        simp only [List.append_assoc]
      · rw [creates_append, hca, hc]
        rfl

theorem activation_results_length (env : dm_env) (lvs : List logical_volume) :
    ∀ w : List event, (activation_results env lvs w).length = lvs.length := by
  induction lvs with
  | nil => intro w; rfl
  | cons lv rest ih =>
    intro w
    unfold activation_results
    simp only
    split <;> simp [ih]

theorem activation_results_attempt (env : dm_env) (lvs : List logical_volume) :
    ∀ w : List event, ∀ x ∈ activation_results env lvs w, (x.1 = 0 ↔ x.2.isSome = true) := by
  induction lvs with
  | nil => intro w x hx; cases hx
  | cons lv rest ih =>
    intro w x hx
    unfold activation_results at hx
    simp only at hx
    split at hx
    · rename_i ha
      rcases List.mem_cons.1 hx with h | h
      · subst h
        simp [ha]
      · exact ih _ x h
    · rename_i ha
      rcases List.mem_cons.1 hx with h | h
      · subst h
        simp [ha]
      · exact ih _ x h

theorem activate_lvs_loop_log (env : dm_env) (lvs : List logical_volume) :
    ∀ (c1 c2 : Int) (w : List event),
      (activate_lvs_in_vg_loop env lvs c1 w).2 = (activate_lvs_in_vg_loop env lvs c2 w).2 := by
  induction lvs with
  | nil => intro c1 c2 w; rfl
  | cons lv rest ih =>
    intro c1 c2 w
    unfold activate_lvs_in_vg_loop
    simp only
    split
    · exact ih _ _ _
    · exact ih _ _ _

theorem activation_results_cons (env : dm_env) (lv : logical_volume)
    (rest : List logical_volume) (w : List event) :
    activation_results env (lv :: rest) w
      = if (lv_active env lv w).1 = 0 then
          ((lv_active env lv w).1, some (lv_activate env lv (lv_active env lv w).2).1)
            :: activation_results env rest (lv_activate env lv (lv_active env lv w).2).2
        else ((lv_active env lv w).1, none) :: activation_results env rest (lv_active env lv w).2 :=
  rfl

theorem activate_lvs_loop_cons (env : dm_env) (lv : logical_volume)
    (rest : List logical_volume) (count : Int) (w : List event) :
    activate_lvs_in_vg_loop env (lv :: rest) count w
      = if (lv_active env lv w).1 = 0 then
          activate_lvs_in_vg_loop env rest
            (count + (if (lv_activate env lv (lv_active env lv w).2).1 = 0 then 0 else 1))
            (lv_activate env lv (lv_active env lv w).2).2
        else activate_lvs_in_vg_loop env rest count (lv_active env lv w).2 :=
  rfl

theorem activation_results_append (env : dm_env) (pre : List logical_volume) :
    ∀ (post : List logical_volume) (w : List event),
      activation_results env (pre ++ post) w
        = activation_results env pre w
          ++ activation_results env post (activate_lvs_in_vg_loop env pre 0 w).2 := by
  induction pre with
  | nil => intro post w; rfl
  | cons lv rest ih =>
    intro post w
    rw [List.cons_append, activation_results_cons, activation_results_cons,
      activate_lvs_loop_cons]
    split
    · rw [ih, List.cons_append, activate_lvs_loop_log env rest
        (0 + if (lv_activate env lv (lv_active env lv w).2).1 = 0 then 0 else 1) 0]
    · rw [ih, List.cons_append]

/-- C16: `activate_lvs_in_vg` visits every LV of the VG, in list order and whatever
happened at the earlier ones: the LV that follows the LVs `pre` is queried with `lv_active`
in the state the batch over `pre` left, `lv_activate` is called for it exactly when the
query returns 0, and the log shows one INFO task per LV with a CREATE task after it exactly
for those.  The value returned is the number of LVs for which `lv_activate` was called and
returned non-zero; it is at most the number of LVs. -/
theorem activate_lvs_in_vg_count (env : dm_env) (vg : volume_group) (w : List event) :
    (activation_results env vg.lvs w).length = vg.lvs.length ∧
    (∀ pre lv post, vg.lvs = pre ++ lv :: post →
      (activation_results env vg.lvs w)[pre.length]?
        = some ((lv_active env lv (activate_lvs_in_vg_loop env pre 0 w).2).1,
            if (lv_active env lv (activate_lvs_in_vg_loop env pre 0 w).2).1 = 0 then
              some (lv_activate env lv
                (lv_active env lv (activate_lvs_in_vg_loop env pre 0 w).2).2).1
            else none)) ∧
    (∃ l, (activate_lvs_in_vg env vg w).2 = w ++ l ∧
      creates l = visit_tasks (activation_results env vg.lvs w)) ∧
    (activate_lvs_in_vg env vg w).1
      = ((activation_results env vg.lvs w).countP activated : Nat) ∧
    0 ≤ (activate_lvs_in_vg env vg w).1 ∧
    (activate_lvs_in_vg env vg w).1 ≤ (vg.lvs.length : Nat) := by
  obtain ⟨h1, hl⟩ := activate_lvs_loop_eq env vg.lvs 0 w
  have hlen := activation_results_length env vg.lvs w
  have hcount : (activate_lvs_in_vg env vg w).1
      = ((activation_results env vg.lvs w).countP activated : Nat) := by
    unfold activate_lvs_in_vg
    rw [h1]
    simp
  refine ⟨hlen, ?_, hl, hcount, ?_, ?_⟩
  · intro pre lv post hsplit
    rw [hsplit, activation_results_append]
    have hpl : (activation_results env pre w).length = pre.length :=
      activation_results_length env pre w
    rw [List.getElem?_append_right (by omega), hpl, Nat.sub_self, activation_results_cons]
    split <;> rename_i h <;> simp [h]
  · rw [hcount]
    exact Int.natCast_nonneg _
  · rw [hcount, ← hlen]
    exact Int.ofNat_le.2 (List.countP_le_length _)

/-- C16 at a VG of three LVs: "data" is inactive and its CREATE task fails to run, "home" is
active, "swap" is inactive and is activated; the batch goes on after the failure and
returns 1. -/
theorem activate_lvs_in_vg_count_witness :
    activation_results env_batch vg_batch.lvs [] = [(0, some 0), (1, none), (0, some 1)] ∧
    creates (activate_lvs_in_vg env_batch vg_batch []).2
      = [DM_DEVICE_INFO, DM_DEVICE_CREATE, DM_DEVICE_INFO, DM_DEVICE_INFO, DM_DEVICE_CREATE] ∧
    (activate_lvs_in_vg env_batch vg_batch []).1 = 1 ∧
    (activation_results env_batch vg_batch.lvs [])[1]?
      = some ((lv_active env_batch lv_home
          (activate_lvs_in_vg_loop env_batch [lv_two] 0 []).2).1, none) := by
  have hr : activation_results env_batch vg_batch.lvs []
      = [(0, some 0), (1, none), (0, some 1)] := by decide
  obtain ⟨-, hv, ⟨l, hl, hc⟩, hn, -, -⟩ := activate_lvs_in_vg_count env_batch vg_batch []
  refine ⟨hr, ?_, ?_, (hv [lv_two] lv_home _ rfl).trans (by decide)⟩
  · rw [hl, List.nil_append, hc, hr]
    rfl
  · rw [hn, hr]
    rfl

theorem opened_loop_cons (env : dm_env) (lv : logical_volume) (rest : List logical_volume)
    (count : Int) (w : List event) :
    lvs_in_vg_opened_loop env (lv :: rest) count w
      = lvs_in_vg_opened_loop env rest
          (count + (if (lv_open_count env lv w).1 = 1 then 1 else 0)) (lv_open_count env lv w).2 :=
  rfl

theorem open_count_results_cons (env : dm_env) (lv : logical_volume)
    (rest : List logical_volume) (w : List event) :
    open_count_results env (lv :: rest) w
      = (lv_open_count env lv w).1 :: open_count_results env rest (lv_open_count env lv w).2 :=
  rfl

theorem opened_loop_eq (env : dm_env) (lvs : List logical_volume) :
    ∀ (count : Int) (w : List event),
      (lvs_in_vg_opened_loop env lvs count w).1
        = count + ((open_count_results env lvs w).count 1 : Nat) ∧
      ∃ l, (lvs_in_vg_opened_loop env lvs count w).2 = w ++ l ∧
        creates l = List.replicate lvs.length DM_DEVICE_INFO := by
  induction lvs with
  | nil =>
    intro count w
    exact ⟨by simp [lvs_in_vg_opened_loop, open_count_results], [], by
      simp [lvs_in_vg_opened_loop], rfl⟩
  | cons lv rest ih =>
    intro count w
    obtain ⟨la, hla, hca⟩ := lv_open_count_log env lv w
    rw [opened_loop_cons, open_count_results_cons]
    obtain ⟨h1, l, hl, hc⟩ := ih (count + (if (lv_open_count env lv w).1 = 1 then 1 else 0))
      (lv_open_count env lv w).2
    refine ⟨?_, la ++ l, ?_, ?_⟩
    · rw [h1, List.count_cons]
      by_cases h : (lv_open_count env lv w).1 = 1
      · simp [h]
        omega
      · simp [h]
    · rw [hl, hla, List.append_assoc]
    · rw [creates_append, hca, hc]
      rfl

theorem opened_loop_log (env : dm_env) (lvs : List logical_volume) :
    ∀ (c1 c2 : Int) (w : List event),
      (lvs_in_vg_opened_loop env lvs c1 w).2 = (lvs_in_vg_opened_loop env lvs c2 w).2 := by
  induction lvs with
  | nil => intro c1 c2 w; rfl
  | cons lv rest ih =>
    intro c1 c2 w
    rw [opened_loop_cons, opened_loop_cons]
    exact ih _ _ _

theorem open_count_results_append (env : dm_env) (pre : List logical_volume) :
    ∀ (post : List logical_volume) (w : List event),
      open_count_results env (pre ++ post) w
        = open_count_results env pre w
          ++ open_count_results env post (lvs_in_vg_opened_loop env pre 0 w).2 := by
  induction pre with
  | nil => intro post w; rfl
  | cons lv rest ih =>
    intro post w
    rw [List.cons_append, open_count_results_cons, open_count_results_cons, opened_loop_cons,
      ih, List.cons_append,
      opened_loop_log env rest (0 + if (lv_open_count env lv w).1 = 1 then 1 else 0) 0]

theorem open_count_results_length (env : dm_env) (lvs : List logical_volume) :
    ∀ w : List event, (open_count_results env lvs w).length = lvs.length := by
  induction lvs with
  | nil => intro w; rfl
  | cons lv rest ih =>
    intro w
    rw [open_count_results_cons, List.length_cons, ih, List.length_cons]

/-- C18: `lvs_in_vg_opened` queries every LV of the VG with `lv_open_count`, in list order,
the LV that follows the LVs `pre` in the state the batch over `pre` left, and returns the
number of queries that returned exactly 1.  `lv_open_count` returns -1 when `lv_info` fails
and the `open_count` of the record otherwise, so an LV whose info query fails or whose open
count is 2 or more is not counted. -/
theorem lvs_in_vg_opened_count (env : dm_env) (vg : volume_group) (w : List event) :
    (open_count_results env vg.lvs w).length = vg.lvs.length ∧
    (∀ pre lv post, vg.lvs = pre ++ lv :: post →
      (open_count_results env vg.lvs w)[pre.length]?
        = some (lv_open_count env lv (lvs_in_vg_opened_loop env pre 0 w).2).1) ∧
    (lvs_in_vg_opened env vg w).1 = ((open_count_results env vg.lvs w).count 1 : Nat) ∧
    (∀ (lv : logical_volume) (w2 : List event), (lv_info env lv w2).1 = 0 →
      (lv_open_count env lv w2).1 = -1) ∧
    (∀ (lv : logical_volume) (w2 : List event), (lv_info env lv w2).1 ≠ 0 →
      ∃ info, (lv_info env lv w2).2.1 = some info ∧
        (lv_open_count env lv w2).1 = info.open_count) ∧
    (∃ l, (lvs_in_vg_opened env vg w).2 = w ++ l ∧
      creates l = List.replicate vg.lvs.length DM_DEVICE_INFO) := by
  obtain ⟨h1, hl⟩ := opened_loop_eq env vg.lvs 0 w
  refine ⟨open_count_results_length env vg.lvs w, ?_, ?_, ?_, ?_, hl⟩
  · intro pre lv post hsplit
    have hpl : (open_count_results env pre w).length = pre.length :=
      open_count_results_length env pre w
    rw [hsplit, open_count_results_append, List.getElem?_append_right (by omega), hpl,
      Nat.sub_self, open_count_results_cons]
    simp
  · unfold lvs_in_vg_opened
    rw [h1]
    simp
  · intro lv w2 h
    unfold lv_open_count
    rcases hi : lv_info env lv w2 with ⟨r, o, w3⟩
    rw [hi] at h
    cases o with
    | none => rfl
    | some info =>
      simp only at h ⊢
      rw [if_pos h]
  · intro lv w2 h
    have hsome : ∃ info, (lv_info env lv w2).2.1 = some info := by
      unfold lv_info at h ⊢
      split at h
      · exact absurd rfl h
      · simp only at h ⊢
        split at h
        · exact absurd rfl h
        · split at h
          · exact absurd rfl h
          · rename_i h2 h3
            simp only [h2, h3, if_false]
            exact ⟨_, rfl⟩
    obtain ⟨info, hinfo⟩ := hsome
    refine ⟨info, hinfo, ?_⟩
    unfold lv_open_count
    rcases hi : lv_info env lv w2 with ⟨r, o, w3⟩
    rw [hi] at h hinfo
    simp only at h hinfo
    subst hinfo
    simp only
    rw [if_neg h]

/-- C18 at a VG of three LVs: the open counts are 1 for "data", 2 for "home", and the info
query fails for "swap"; one LV is counted. -/
theorem lvs_in_vg_opened_count_witness :
    open_count_results env_batch_info vg_batch.lvs [] = [1, 2, -1] ∧
    (lvs_in_vg_opened env_batch_info vg_batch []).1 = 1 ∧
    (open_count_results env_batch_info vg_batch.lvs [])[1]?
      = some (lv_open_count env_batch_info lv_home
          (lvs_in_vg_opened_loop env_batch_info [lv_two] 0 []).2).1 := by
  have hr : open_count_results env_batch_info vg_batch.lvs [] = [1, 2, -1] := by decide
  obtain ⟨-, hv, hn, -, -, -⟩ := lvs_in_vg_opened_count env_batch_info vg_batch []
  refine ⟨hr, ?_, hv [lv_two] lv_home _ rfl⟩
  rw [hn, hr]
  rfl

/-! ## The LV table -/

theorem region_poke_inner {d : List Nat} {p : Nat} {b : List Nat} {o n : Nat}
    (h : p + b.length ≤ d.length) (hn : o + n ≤ b.length) :
    region (poke d p b) (p + o) n = region b o n := by
  unfold region poke
  have hp : (d.take p).length = p := by simp; omega
  rw [List.drop_append_eq_append_drop, List.drop_of_length_le (by omega), List.nil_append, hp,
    Nat.add_sub_cancel_left, List.drop_append_of_le_length (by omega),
    List.take_append_of_le_length (by simp; omega)]

theorem region_replicate (size o n x : Nat) (h : o + n ≤ size) :
    region (List.replicate size x) o n = List.replicate n x := by
  unfold region
  rw [List.drop_replicate, List.take_replicate]
  congr 1
  omega

theorem region_lvs_image (ls : List lv_disk) :
    ∀ (i : Nat) (h : i < ls.length),
      region (lvs_image ls) (i * sizeof_lv_disk) sizeof_lv_disk = mem_lvd false (ls.get ⟨i, h⟩) := by
  induction ls with
  | nil => intro i h; cases h
  | cons l ls ih =>
    intro i h
    cases i with
    | zero =>
      simp only [lvs_image, Nat.zero_mul, region, List.drop_zero, List.get]
      rw [List.take_left' (mem_lvd_length false l)]
    | succ i =>
      have h2 : i < ls.length := Nat.lt_of_succ_lt_succ h
      have := ih i h2
      simp only [lvs_image, region, List.get] at this ⊢
      rw [Nat.succ_mul, Nat.add_comm (i * sizeof_lv_disk), ← List.drop_drop,
        List.drop_left' (mem_lvd_length false l)]
      exact this

theorem write_lvd_dev (be : Bool) (dev : device) (pos : Nat) (l : lv_disk)
    (hd : pos + sizeof_lv_disk ≤ dev.data.length) :
    (_write_lvd be dev pos l).1 = true ∧
    (_write_lvd be dev pos l).2.2 = ⟨dev.name, poke dev.data pos (mem_lvd false l)⟩ := by
  unfold _write_lvd
  simp only
  rw [dev_write_ok hd (mem_lvd_length be _), mem_lvd_xlate]
  simp

theorem write_lvs_loop_dev (be : Bool) (ls : List lv_disk) :
    ∀ (pos : Nat) (dev : device), pos + sizeof_lv_disk * ls.length ≤ dev.data.length →
      (_write_lvs_loop be ls pos dev).1 = true ∧
      (_write_lvs_loop be ls pos dev).2.2 = ⟨dev.name, poke dev.data pos (lvs_image ls)⟩ := by
  induction ls with
  | nil => intro pos dev _; simp [_write_lvs_loop, lvs_image, poke_nil]
  | cons l ls ih =>
    intro pos dev hd
    simp only [List.length_cons, Nat.mul_add, Nat.mul_one] at hd
    obtain ⟨h1, h2⟩ := write_lvd_dev be dev pos l (by omega)
    unfold _write_lvs_loop
    rcases hw : _write_lvd be dev pos l with ⟨ok, d, dev2⟩
    rw [hw] at h1 h2
    simp only at h1 h2
    subst h1 h2
    simp only
    have hlen : (poke dev.data pos (mem_lvd false l)).length = dev.data.length :=
      poke_length (by rw [mem_lvd_length]; omega)
    obtain ⟨i1, i2⟩ := ih (pos + sizeof_lv_disk) ⟨dev.name, poke dev.data pos (mem_lvd false l)⟩
      (by simp only [hlen]; omega)
    refine ⟨i1, ?_⟩
    rw [i2]
    simp only [lvs_image]
    have := poke_poke_adjacent (d := dev.data) (p := pos) (a := mem_lvd false l)
      (b := lvs_image ls) (by rw [mem_lvd_length, lvs_image_length]; omega)
    rw [mem_lvd_length] at this
    rw [this]

theorem dev_zero_true {dev : device} {pos len : Nat} (h : (dev_zero dev pos len).1 = true) :
    len = 0 ∨ pos + len ≤ dev.data.length := by
  unfold dev_zero dev_write at h
  simp only [List.length_replicate, Nat.min_self, decide_eq_true_eq] at h
  omega

/-- The device `_write_lvs` leaves when the LV region lies on the device and holds the
LVs of the view. -/
theorem write_lvs_dev (be : Bool) (v : disk_list) (dev : device)
    (hfit : sizeof_lv_disk * v.lvds.length ≤ v.pvd.lv_on_disk.size)
    (hd : v.pvd.lv_on_disk.base + v.pvd.lv_on_disk.size ≤ dev.data.length) :
    (_write_lvs be v dev).1 = true ∧
    (_write_lvs be v dev).2.2
      = ⟨dev.name, poke (poke dev.data v.pvd.lv_on_disk.base
            (List.replicate v.pvd.lv_on_disk.size 0)) v.pvd.lv_on_disk.base
            (lvs_image v.lvds)⟩ := by
  unfold _write_lvs
  simp only
  rw [dev_zero_ok hd]
  simp only
  have hlen : (poke dev.data v.pvd.lv_on_disk.base
      (List.replicate v.pvd.lv_on_disk.size 0)).length = dev.data.length :=
    poke_length (by simpa using hd)
  exact write_lvs_loop_dev be v.lvds _ _ (by simp only [hlen]; omega)

/-- C17: for a view whose `n` LVs fit the LV region (`n * sizeof(lv_disk) <=
lv_on_disk.size`), `_write_lvs` succeeds when the region lies on the device, and after a
successful `_write_lvs` the bytes of slot `i`, at `lv_on_disk.base + i * sizeof(lv_disk)`,
are the little-endian record of the `i`-th LV of the view for every `i < n`, every byte of
the region after the `n` slots is zero, and the device has the size it had, whatever it held
before and whatever the byte order of the host. -/
theorem write_lvs_table (be : Bool) (v : disk_list) (dev : device)
    (hfit : sizeof_lv_disk * v.lvds.length ≤ v.pvd.lv_on_disk.size) :
    (v.pvd.lv_on_disk.base + v.pvd.lv_on_disk.size ≤ dev.data.length →
      (_write_lvs be v dev).1 = true) ∧
    ((_write_lvs be v dev).1 = true →
      (∀ (i : Nat) (h : i < v.lvds.length),
        region (_write_lvs be v dev).2.2.data (v.pvd.lv_on_disk.base + i * sizeof_lv_disk)
          sizeof_lv_disk = mem_lvd false (v.lvds.get ⟨i, h⟩)) ∧
      region (_write_lvs be v dev).2.2.data
          (v.pvd.lv_on_disk.base + sizeof_lv_disk * v.lvds.length)
          (v.pvd.lv_on_disk.size - sizeof_lv_disk * v.lvds.length)
        = List.replicate (v.pvd.lv_on_disk.size - sizeof_lv_disk * v.lvds.length) 0 ∧
      (_write_lvs be v dev).2.2.data.length = dev.data.length) := by
  refine ⟨fun hd => (write_lvs_dev be v dev hfit hd).1, ?_⟩
  intro hok
  have hz : v.pvd.lv_on_disk.size = 0 ∨
      v.pvd.lv_on_disk.base + v.pvd.lv_on_disk.size ≤ dev.data.length := by
    unfold _write_lvs at hok
    simp only at hok
    rcases hzero : dev_zero dev v.pvd.lv_on_disk.base v.pvd.lv_on_disk.size with ⟨ok, dev2⟩
    rw [hzero] at hok
    cases ok with
    | false => cases hok
    | true => exact dev_zero_true (by rw [hzero])
  have h328 : sizeof_lv_disk = 328 := rfl
  rcases hz with hz | hd
  · have hn : v.lvds.length = 0 := by
      rw [hz, h328] at hfit
      omega
    have hnil : v.lvds = [] := List.length_eq_zero.1 hn
    refine ⟨fun i h => absurd h (by omega), ?_, ?_⟩
    · rw [hz, Nat.zero_sub]
      simp [region]
    · unfold _write_lvs dev_zero dev_write
      simp [hz, hnil, _write_lvs_loop]
  · obtain ⟨-, hdev⟩ := write_lvs_dev be v dev hfit hd
    rw [hdev]
    simp only
    have hlen : (poke dev.data v.pvd.lv_on_disk.base
        (List.replicate v.pvd.lv_on_disk.size 0)).length = dev.data.length :=
      poke_length (by simpa using hd)
    have himg : v.pvd.lv_on_disk.base + (lvs_image v.lvds).length
        ≤ (poke dev.data v.pvd.lv_on_disk.base
            (List.replicate v.pvd.lv_on_disk.size 0)).length := by
      rw [hlen, lvs_image_length]
      omega
    refine ⟨?_, ?_, ?_⟩
    · intro i h
      rw [region_poke_inner himg (by rw [lvs_image_length, h328]; omega)]
      exact region_lvs_image v.lvds i h
    · rw [region_poke_other himg (Or.inr (by rw [lvs_image_length])),
        region_poke_inner (by simpa using hd) (by simp only [List.length_replicate]; omega)]
      exact region_replicate _ _ _ 0 (by omega)
    · rw [poke_length himg, hlen]

/-- C17 at scenario 6 of §8, on a device of 3600 bytes of value 255: the third of the eight
slots holds the record of the LV "swap" and the five slots after it are zero. -/
theorem write_lvs_table_witness :
    (_write_lvs true view_sample dev_blank).1 = true ∧
    region (_write_lvs true view_sample dev_blank).2.2.data 1568 328
      = mem_lvd false { lvd_sample with lv_name := name_bytes "swap", lv_number := 2 } ∧
    region (_write_lvs true view_sample dev_blank).2.2.data 1896 1640
      = List.replicate 1640 0 := by
  have hfit : sizeof_lv_disk * view_sample.lvds.length ≤ view_sample.pvd.lv_on_disk.size := by
    decide
  have hd : view_sample.pvd.lv_on_disk.base + view_sample.pvd.lv_on_disk.size
      ≤ dev_blank.data.length := by
    simp only [dev_blank, List.length_replicate]
    decide
  obtain ⟨h1, h2⟩ := write_lvs_table true view_sample dev_blank hfit
  obtain ⟨hs, hz, -⟩ := h2 (h1 hd)
  exact ⟨h1 hd, hs 2 (by decide), hz⟩

/-! ## The uuid list -/

/-- The loop of `_write_uuids` writes every entry when the last one starts before the end
of the region and the device holds them all. -/
theorem write_uuids_loop_all (end_ : Nat) (us : List (List Nat)) :
    ∀ (pos : Nat) (dev : device), (us = [] ∨ pos + NAME_LEN * (us.length - 1) < end_) →
      pos + NAME_LEN * us.length ≤ dev.data.length →
      _write_uuids_loop end_ us pos dev
        = (true, ⟨dev.name, poke dev.data pos (uuids_image us)⟩) := by
  induction us with
  | nil => intro pos dev _ _; simp [_write_uuids_loop, uuids_image, poke_nil]
  | cons u us ih =>
    intro pos dev h hd
    have hN : NAME_LEN = 128 := rfl
    simp only [List.length_cons, Nat.mul_add, Nat.mul_one] at hd
    have h2 : pos + NAME_LEN * us.length < end_ := by
      rcases h with h | h
      · cases h
      · simpa using h
    have hlt : ¬ pos ≥ end_ := by omega
    unfold _write_uuids_loop
    simp only [hlt, if_false]
    rw [dev_write_ok (by omega) (fix_bytes_length _ _)]
    simp only [ne_eq, not_true_eq_false, if_false]
    have hlen : (poke dev.data pos (fix_bytes NAME_LEN u)).length = dev.data.length :=
      poke_length (by rw [fix_bytes_length]; omega)
    have hrest : us = [] ∨ pos + NAME_LEN + NAME_LEN * (us.length - 1) < end_ := by
      cases us with
      | nil => exact Or.inl rfl
      | cons x xs =>
        right
        simp only [List.length_cons, Nat.add_sub_cancel] at h2 ⊢
        rw [hN] at h2 ⊢
        omega
    rw [ih (pos + NAME_LEN) _ hrest (by simp only [hlen]; omega)]
    simp only [uuids_image]
    have := poke_poke_adjacent (d := dev.data) (p := pos) (a := fix_bytes NAME_LEN u)
      (b := uuids_image us) (by rw [fix_bytes_length, uuids_image_length]; omega)
    rw [fix_bytes_length] at this
    rw [this]

/-- The loop of `_write_uuids` fails when the last entry would start at the end of the
region or after it. -/
theorem write_uuids_loop_over (end_ : Nat) (us : List (List Nat)) :
    ∀ (pos : Nat) (dev : device), us ≠ [] → end_ ≤ pos + NAME_LEN * (us.length - 1) →
      (_write_uuids_loop end_ us pos dev).1 = false := by
  induction us with
  | nil => intro pos dev h _; exact absurd rfl h
  | cons u us ih =>
    intro pos dev _ h
    have hN : NAME_LEN = 128 := rfl
    unfold _write_uuids_loop
    split
    · rfl
    · rename_i hlt
      simp only
      split
      · rfl
      · cases us with
        | nil =>
          simp only [List.length_cons, List.length_nil, Nat.zero_add, Nat.sub_self,
            Nat.mul_zero, Nat.add_zero] at h
          omega
        | cons x xs =>
          apply ih _ _ (by simp)
          simp only [List.length_cons, Nat.add_sub_cancel] at h ⊢
          rw [hN] at h ⊢
          omega

/-- C13, as stated, fails: the uuid region of `view_odd` has 200 bytes, so that
`size / NAME_LEN` is 1, and the view has two uuids; on a device of 3600 bytes of value 255
`_write_uuids` succeeds, and the 56 bytes after the end of the region, at byte 856, hold the
end of the second uuid. -/
theorem write_uuids_past_end :
    view_odd.pvd.pv_uuidlist_on_disk.size / NAME_LEN < view_odd.uuids.length ∧
    view_odd.pvd.pv_uuidlist_on_disk.base + view_odd.pvd.pv_uuidlist_on_disk.size = 856 ∧
    (_write_uuids view_odd dev_blank).1 = true ∧
    region dev_blank.data 856 56 = List.replicate 56 255 ∧
    region (_write_uuids view_odd dev_blank).2.2.data 856 56 = List.replicate 56 66 := by
  have hlen : dev_blank.data.length = 3600 := by
    simp only [dev_blank, List.length_replicate]
  have hw : _write_uuids_loop 856 view_odd.uuids 656 dev_blank
      = (true, ⟨dev_blank.name, poke dev_blank.data 656 (uuids_image view_odd.uuids)⟩) :=
    write_uuids_loop_all 856 view_odd.uuids 656 dev_blank (Or.inr (by decide))
      (by rw [hlen]; decide)
  have hu : _write_uuids view_odd dev_blank
      = (true, view_odd,
          ⟨dev_blank.name, poke dev_blank.data 656 (uuids_image view_odd.uuids)⟩) := by
    show ((_write_uuids_loop 856 view_odd.uuids 656 dev_blank).1, view_odd,
      (_write_uuids_loop 856 view_odd.uuids 656 dev_blank).2) = _
    rw [hw]
  refine ⟨by decide, by decide, by rw [hu], ?_, ?_⟩
  · exact region_replicate 3600 856 56 255 (by decide)
  · rw [hu]
    have h := region_poke_inner (d := dev_blank.data) (p := 656)
      (b := uuids_image view_odd.uuids) (o := 200) (n := 56)
      (by rw [hlen]; decide) (by decide)
    exact h.trans (by decide)

/-- C13, amended: on a device that holds every entry the loop writes, `_write_uuids` fails
exactly when the number of uuids is greater than `pv_uuidlist_on_disk.size / NAME_LEN`
rounded up, and when it succeeds the device holds the uuids one after the other from
`base` and is unchanged outside `[base, base + NAME_LEN * count)`.  When `size` is a
multiple of `NAME_LEN`, it fails exactly when the number of uuids is greater than
`size / NAME_LEN`, and when it succeeds the device is unchanged outside
`[base, base + size)`. -/
theorem write_uuids_overflow (v : disk_list) (dev : device)
    (hdev : v.pvd.pv_uuidlist_on_disk.base
        + NAME_LEN * min v.uuids.length
            ((v.pvd.pv_uuidlist_on_disk.size + NAME_LEN - 1) / NAME_LEN)
      ≤ dev.data.length) :
    ((_write_uuids v dev).1 = false ↔
      (v.pvd.pv_uuidlist_on_disk.size + NAME_LEN - 1) / NAME_LEN < v.uuids.length) ∧
    ((_write_uuids v dev).1 = true →
      (_write_uuids v dev).2.2.data
        = poke dev.data v.pvd.pv_uuidlist_on_disk.base (uuids_image v.uuids) ∧
      ∀ q m, q + m ≤ v.pvd.pv_uuidlist_on_disk.base ∨
          v.pvd.pv_uuidlist_on_disk.base + NAME_LEN * v.uuids.length ≤ q →
        region (_write_uuids v dev).2.2.data q m = region dev.data q m) ∧
    (NAME_LEN ∣ v.pvd.pv_uuidlist_on_disk.size →
      ((_write_uuids v dev).1 = false ↔
        v.pvd.pv_uuidlist_on_disk.size / NAME_LEN < v.uuids.length) ∧
      ((_write_uuids v dev).1 = true →
        ∀ q m, q + m ≤ v.pvd.pv_uuidlist_on_disk.base ∨
            v.pvd.pv_uuidlist_on_disk.base + v.pvd.pv_uuidlist_on_disk.size ≤ q →
          region (_write_uuids v dev).2.2.data q m = region dev.data q m)) := by
  have hN : NAME_LEN = 128 := rfl
  rw [hN] at hdev ⊢
  generalize hb : v.pvd.pv_uuidlist_on_disk.base = base at hdev ⊢
  generalize hs : v.pvd.pv_uuidlist_on_disk.size = size at hdev ⊢
  have hunf : _write_uuids v dev
      = ((_write_uuids_loop (base + size) v.uuids base dev).1, v,
         (_write_uuids_loop (base + size) v.uuids base dev).2) := by
    unfold _write_uuids
    simp only [hb, hs]
  by_cases hover : (size + 128 - 1) / 128 < v.uuids.length
  · have hne : v.uuids ≠ [] := by
      intro h
      rw [h] at hover
      simp at hover
    have hf : (_write_uuids v dev).1 = false := by
      rw [hunf]
      apply write_uuids_loop_over _ _ _ _ hne
      rw [hN]
      omega
    refine ⟨⟨fun _ => hover, fun _ => hf⟩, ?_, ?_⟩
    · intro h; rw [hf] at h; cases h
    · intro hd
      refine ⟨⟨fun _ => by omega, fun _ => hf⟩, ?_⟩
      intro h; rw [hf] at h; cases h
  · have hmin : min v.uuids.length ((size + 128 - 1) / 128) = v.uuids.length := by omega
    rw [hmin] at hdev
    have hcond : v.uuids = [] ∨ base + NAME_LEN * (v.uuids.length - 1) < base + size := by
      cases hu : v.uuids with
      | nil => exact Or.inl rfl
      | cons x xs =>
        right
        rw [hu] at hover
        simp only [List.length_cons, Nat.add_sub_cancel] at hover ⊢
        rw [hN]
        omega
    have hw := write_uuids_loop_all (base + size) v.uuids base dev hcond (by rw [hN]; exact hdev)
    have ht : (_write_uuids v dev).1 = true := by rw [hunf, hw]
    have hdata : (_write_uuids v dev).2.2.data = poke dev.data base (uuids_image v.uuids) := by
      rw [hunf, hw]
    have hframe : ∀ q m, q + m ≤ base ∨ base + 128 * v.uuids.length ≤ q →
        region (_write_uuids v dev).2.2.data q m = region dev.data q m := by
      intro q m hq
      rw [hdata]
      apply region_poke_other
      · rw [uuids_image_length, hN]; exact hdev
      · rw [uuids_image_length, hN]; exact hq
    refine ⟨⟨fun h => (by rw [ht] at h; cases h), fun h => absurd h hover⟩, fun _ => ⟨hdata, hframe⟩,
      ?_⟩
    intro hd
    refine ⟨⟨fun h => (by rw [ht] at h; cases h), fun h => absurd h (by omega)⟩, ?_⟩
    intro _ q m hq
    apply hframe
    omega

/-- C13, amended, at scenario 6 of §8, whose uuid region has room for two uuids: the view
with two uuids is written, the view with three is refused. -/
theorem write_uuids_overflow_witness :
    (_write_uuids view_sample dev_blank).1 = true ∧
    region (_write_uuids view_sample dev_blank).2.2.data 912 2688
      = region dev_blank.data 912 2688 ∧
    (_write_uuids view_three dev_blank).1 = false := by
  have hlen : dev_blank.data.length = 3600 := by
    simp only [dev_blank, List.length_replicate]
  have h2 := write_uuids_overflow view_sample dev_blank (by rw [hlen]; decide)
  have h3 := write_uuids_overflow view_three dev_blank (by rw [hlen]; decide)
  have ht : (_write_uuids view_sample dev_blank).1 = true := by
    cases h : (_write_uuids view_sample dev_blank).1 with
    | true => rfl
    | false => exact absurd (h2.1.1 h) (by decide)
  exact ⟨ht, (h2.2.2 (by decide)).2 ht 912 2688 (Or.inr (by decide)), h3.1.2 (by decide)⟩

/-! ## Parameter buffer -/

/-- C14, for a linear segment on a device whose name has 1100 characters: the parameter
text has 1106 characters and does not fit the 1024 bytes of `params`, C99 `snprintf`
returns 1106, which is not negative, and `_emit_target` submits the row with the first 1023
characters of the text and returns success.  For every segment, `_emit_target` calls
`dm_task_add_target` once and fails only when that call does: the exit `tw < 0` is never
taken. -/
theorem emit_target_overflow_undetected :
    (params_text seg_wide).length = 1106 ∧
    (snprintf (stack_buffer env_ok 1024) 0 1024 (stripe_text seg_wide 0)).1 = 1106 ∧
    _emit_target env_ok ⟨DM_DEVICE_CREATE, "vg0_home".toList, []⟩ seg_wide []
      = (1,
         ⟨DM_DEVICE_CREATE, "vg0_home".toList,
          [⟨0, 81920, "linear".toList, List.replicate 1023 'x'⟩]⟩,
         [event.add_target ⟨0, 81920, "linear".toList, List.replicate 1023 'x'⟩]) ∧
    ∀ (env : dm_env) (dmt : dm_task) (seg : stripe_segment) (w : List event),
      (_emit_target env dmt seg w).2.2 = w ++ [event.add_target (emitted_row env seg)] ∧
      ((_emit_target env dmt seg w).1 = 0 ↔
        env.answer (w ++ [event.add_target (emitted_row env seg)]) = 0) := by
  refine ⟨by decide, by decide, by decide, ?_⟩
  intro env dmt seg w
  rw [emit_target_eq]
  refine ⟨rfl, ?_⟩
  simp only
  split <;> simp [*]

/-! ## The VG name test -/

/-- C7, as stated, fails: for the linear segment of scenario 1 on a PV whose data starts at
sector `2^64 - 1`, the parameter text fits the buffer, the claim's item is
`"/dev/sda 18446744073709592575"`, and `_emit_target`, which adds in `uint64_t`, submits
`"/dev/sda 40959"`. -/
theorem emit_target_row_wraps :
    1 ≤ seg_wrap.stripes ∧ (params_text seg_wrap).length + 1 ≤ 1024 ∧
    spec_target_row seg_wrap
      = ⟨0, 81920, "linear".toList, "/dev/sda 18446744073709592575".toList⟩ ∧
    _emit_target env_ok ⟨DM_DEVICE_CREATE, [], []⟩ seg_wrap [] =
      (1, ⟨DM_DEVICE_CREATE, [], [⟨0, 81920, "linear".toList, "/dev/sda 40959".toList⟩]⟩,
       [event.add_target ⟨0, 81920, "linear".toList, "/dev/sda 40959".toList⟩]) := by
  decide

/-! ## Reactivation, call by call -/

theorem runs_add_events (rs : List target) : runs (add_events rs) = [] := by
  induction rs with
  | nil => rfl
  | cons r rs ih => simpa [add_events, runs] using ih

theorem creates_add_events (rs : List target) : creates (add_events rs) = [] := by
  induction rs with
  | nil => rfl
  | cons r rs ih => simpa [add_events, creates] using ih

/-- `_suspend` when its task can be created. -/
theorem suspend_eq (env : dm_env) (lv : logical_volume) (sus : Int) (k : dm_task_type)
    (w : List event) (hk : (if sus ≠ 0 then DM_DEVICE_SUSPEND else DM_DEVICE_RESUME) = k)
    (hc : env.answer (w ++ [event.task_create k]) ≠ 0) :
    _suspend env lv sus w
      = (env.answer (plain_log env lv k w),
         plain_log env lv k w ++ [event.destroy (plain_task env lv k)]) := by
  unfold _suspend
  simp only [hk]
  rw [setup_task_some env lv k w hc]
  simp [dm_task_run, dm_task_destroy, plain_log, plain_task]

/-- `_load` when its task can be created and every row is accepted. -/
theorem load_all_eq (env : dm_env) (lv : logical_volume) (k : dm_task_type) (w : List event)
    (hc : env.answer (w ++ [event.task_create k]) ≠ 0)
    (hall : ∀ j, j < (lv.segments.map (emitted_row env)).length →
      env.answer (log_rows w k (lv_task_name env lv)
        ((lv.segments.map (emitted_row env)).take (j + 1))) ≠ 0) :
    _load env lv k w
      = (env.answer (log_rows w k (lv_task_name env lv) (lv.segments.map (emitted_row env))
            ++ [event.run ⟨k, lv_task_name env lv, lv.segments.map (emitted_row env)⟩]),
         log_rows w k (lv_task_name env lv) (lv.segments.map (emitted_row env))
            ++ [event.run ⟨k, lv_task_name env lv, lv.segments.map (emitted_row env)⟩,
                event.destroy ⟨k, lv_task_name env lv, lv.segments.map (emitted_row env)⟩]) := by
  have hloop := load_loop_all env lv.segments ⟨k, lv_task_name env lv, []⟩
    (w ++ [event.task_create k, event.set_name (lv_task_name env lv)])
    (fun j hj => by
      have := hall j (by simpa using hj)
      simpa [log_rows] using this)
  unfold _load
  rw [setup_task_some env lv _ w hc]
  simp only [hloop, one_ne_zero, if_false, dm_task_run, dm_task_destroy, List.nil_append]
  simp [log_rows]

/-- `_load` when its task can be created and row `j` is the first to be rejected. -/
theorem load_reject_eq (env : dm_env) (lv : logical_volume) (k : dm_task_type)
    (w : List event) (hc : env.answer (w ++ [event.task_create k]) ≠ 0) (j : Nat)
    (hj : j < (lv.segments.map (emitted_row env)).length)
    (hacc : ∀ i, i < j →
      env.answer (log_rows w k (lv_task_name env lv)
        ((lv.segments.map (emitted_row env)).take (i + 1))) ≠ 0)
    (hrej : env.answer (log_rows w k (lv_task_name env lv)
        ((lv.segments.map (emitted_row env)).take (j + 1))) = 0) :
    _load env lv k w
      = (0, log_rows w k (lv_task_name env lv)
              ((lv.segments.map (emitted_row env)).take (j + 1))
            ++ [event.destroy
                 ⟨k, lv_task_name env lv, (lv.segments.map (emitted_row env)).take j⟩]) := by
  have hloop := load_loop_reject env lv.segments j ⟨k, lv_task_name env lv, []⟩
    (w ++ [event.task_create k, event.set_name (lv_task_name env lv)])
    (by simpa using hj)
    (fun i hi => by
      have := hacc i hi
      simpa [log_rows] using this)
    (by simpa [log_rows] using hrej)
  unfold _load
  rw [setup_task_some env lv _ w hc]
  simp only [hloop, if_true, dm_task_destroy, List.nil_append]
  simp [log_rows]

/-- C9, amended: when the SUSPEND task is created and runs with success and the RELOAD task
can be created, `lv_reactivate` goes on as follows.  If every row of the LV is accepted, the
RELOAD task is run with the rows and destroyed, then (the RESUME task being created) RESUME
is run and destroyed: the tasks run are SUSPEND, RELOAD, RESUME in that order, whatever the
run of RELOAD returned, and the result is 0 when the run of RELOAD or of RESUME returned 0
and the result of the RELOAD run otherwise.  If row `k` is the first to be rejected, no
further row is submitted and the RELOAD task is destroyed without being run, then RESUME is
run and destroyed: the tasks run are SUSPEND and RESUME, and the result is 0. -/
theorem lv_reactivate_order (env : dm_env) (lv : logical_volume) (w : List event)
    (hcs : env.answer (w ++ [event.task_create DM_DEVICE_SUSPEND]) ≠ 0)
    (hs : env.answer (plain_log env lv DM_DEVICE_SUSPEND w) ≠ 0)
    (hcr : env.answer (plain_log env lv DM_DEVICE_SUSPEND w
      ++ [event.destroy (plain_task env lv DM_DEVICE_SUSPEND),
          event.task_create DM_DEVICE_RELOAD]) ≠ 0) :
    let name := lv_task_name env lv
    let R := lv.segments.map (emitted_row env)
    let ws := plain_log env lv DM_DEVICE_SUSPEND w
      ++ [event.destroy (plain_task env lv DM_DEVICE_SUSPEND)]
    let Tr : dm_task := ⟨DM_DEVICE_RELOAD, name, R⟩
    let wr := log_rows ws DM_DEVICE_RELOAD name R ++ [event.run Tr]
    ((∀ k, k < R.length →
        env.answer (log_rows ws DM_DEVICE_RELOAD name (R.take (k + 1))) ≠ 0) →
      env.answer (wr ++ [event.destroy Tr, event.task_create DM_DEVICE_RESUME]) ≠ 0 →
      lv_reactivate env lv w
        = (if env.answer (plain_log env lv DM_DEVICE_RESUME (wr ++ [event.destroy Tr])) = 0
           then 0 else env.answer wr,
           plain_log env lv DM_DEVICE_RESUME (wr ++ [event.destroy Tr])
             ++ [event.destroy (plain_task env lv DM_DEVICE_RESUME)]) ∧
      runs (lv_reactivate env lv w).2
        = runs w ++ [DM_DEVICE_SUSPEND, DM_DEVICE_RELOAD, DM_DEVICE_RESUME] ∧
      (env.answer wr = 0 → (lv_reactivate env lv w).1 = 0)) ∧
    (∀ k, k < R.length →
      (∀ j, j < k → env.answer (log_rows ws DM_DEVICE_RELOAD name (R.take (j + 1))) ≠ 0) →
      env.answer (log_rows ws DM_DEVICE_RELOAD name (R.take (k + 1))) = 0 →
      env.answer (log_rows ws DM_DEVICE_RELOAD name (R.take (k + 1))
        ++ [event.destroy ⟨DM_DEVICE_RELOAD, name, R.take k⟩,
            event.task_create DM_DEVICE_RESUME]) ≠ 0 →
      lv_reactivate env lv w
        = (0, plain_log env lv DM_DEVICE_RESUME
                (log_rows ws DM_DEVICE_RELOAD name (R.take (k + 1))
                  ++ [event.destroy ⟨DM_DEVICE_RELOAD, name, R.take k⟩])
              ++ [event.destroy (plain_task env lv DM_DEVICE_RESUME)]) ∧
      runs (lv_reactivate env lv w).2 = runs w ++ [DM_DEVICE_SUSPEND, DM_DEVICE_RESUME]) := by
  intro name R ws Tr wr
  have hsus : _suspend env lv 1 w = (env.answer (plain_log env lv DM_DEVICE_SUSPEND w), ws) :=
    suspend_eq env lv 1 DM_DEVICE_SUSPEND w (by decide) hcs
  have hcr2 : env.answer (ws ++ [event.task_create DM_DEVICE_RELOAD]) ≠ 0 := by
    simpa [ws, List.append_assoc] using hcr
  have hrw : runs ws = runs w ++ [DM_DEVICE_SUSPEND] := by
    simp [ws, plain_log, plain_task, runs_append, runs]
  refine ⟨fun hall hcu => ?_, fun k hk hacc hrej hcu => ?_⟩
  · have hload : _load env lv DM_DEVICE_RELOAD ws = (env.answer wr, wr ++ [event.destroy Tr]) := by
      rw [load_all_eq env lv DM_DEVICE_RELOAD ws hcr2 hall]
      simp [wr, Tr, name, R]
    have hres : _suspend env lv 0 (wr ++ [event.destroy Tr])
        = (env.answer (plain_log env lv DM_DEVICE_RESUME (wr ++ [event.destroy Tr])),
           plain_log env lv DM_DEVICE_RESUME (wr ++ [event.destroy Tr])
             ++ [event.destroy (plain_task env lv DM_DEVICE_RESUME)]) :=
      suspend_eq env lv 0 DM_DEVICE_RESUME _ (by decide)
        (by simpa [List.append_assoc] using hcu)
    have heq : lv_reactivate env lv w
        = (if env.answer (plain_log env lv DM_DEVICE_RESUME (wr ++ [event.destroy Tr])) = 0
           then 0 else env.answer wr,
           plain_log env lv DM_DEVICE_RESUME (wr ++ [event.destroy Tr])
             ++ [event.destroy (plain_task env lv DM_DEVICE_RESUME)]) := by
      unfold lv_reactivate
      simp only [hsus, hs, if_false, hload, hres]
      split <;> rfl
    refine ⟨heq, ?_, ?_⟩
    · rw [heq]
      simp [plain_log, plain_task, wr, log_rows, runs_append, runs, runs_add_events, hrw, Tr]
    · intro h0
      rw [heq]
      simp only [h0]
      split <;> rfl
  · have hload : _load env lv DM_DEVICE_RELOAD ws
        = (0, log_rows ws DM_DEVICE_RELOAD name (R.take (k + 1))
              ++ [event.destroy ⟨DM_DEVICE_RELOAD, name, R.take k⟩]) :=
      load_reject_eq env lv DM_DEVICE_RELOAD ws hcr2 k hk hacc hrej
    have hres : _suspend env lv 0 (log_rows ws DM_DEVICE_RELOAD name (R.take (k + 1))
          ++ [event.destroy ⟨DM_DEVICE_RELOAD, name, R.take k⟩])
        = (env.answer (plain_log env lv DM_DEVICE_RESUME
              (log_rows ws DM_DEVICE_RELOAD name (R.take (k + 1))
                ++ [event.destroy ⟨DM_DEVICE_RELOAD, name, R.take k⟩])),
           plain_log env lv DM_DEVICE_RESUME
              (log_rows ws DM_DEVICE_RELOAD name (R.take (k + 1))
                ++ [event.destroy ⟨DM_DEVICE_RELOAD, name, R.take k⟩])
             ++ [event.destroy (plain_task env lv DM_DEVICE_RESUME)]) :=
      suspend_eq env lv 0 DM_DEVICE_RESUME _ (by decide)
        (by simpa [List.append_assoc] using hcu)
    have heq : lv_reactivate env lv w
        = (0, plain_log env lv DM_DEVICE_RESUME
                (log_rows ws DM_DEVICE_RELOAD name (R.take (k + 1))
                  ++ [event.destroy ⟨DM_DEVICE_RELOAD, name, R.take k⟩])
              ++ [event.destroy (plain_task env lv DM_DEVICE_RESUME)]) := by
      unfold lv_reactivate
      simp only [hsus, hs, if_false, hload, hres]
      split <;> rfl
    refine ⟨heq, ?_⟩
    rw [heq]
    simp [plain_log, plain_task, log_rows, runs_append, runs, runs_add_events, hrw]

/-- C9, amended, at scenario 1 (§8): with collaborators that accept every call the tasks
run are SUSPEND, RELOAD, RESUME and the result is 1; with collaborators that reject the row
the tasks run are SUSPEND and RESUME and the result is 0. -/
theorem lv_reactivate_order_witness :
    (lv_reactivate env_ok lv_home []).1 = 1 ∧
    runs (lv_reactivate env_ok lv_home []).2
      = [] ++ [DM_DEVICE_SUSPEND, DM_DEVICE_RELOAD, DM_DEVICE_RESUME] ∧
    (lv_reactivate env_row_rejected lv_home []).1 = 0 ∧
    runs (lv_reactivate env_row_rejected lv_home []).2
      = [] ++ [DM_DEVICE_SUSPEND, DM_DEVICE_RESUME] := by
  have hA := (lv_reactivate_order env_ok lv_home [] (by decide) (by decide) (by decide)).1
    (fun _ _ => (by decide : (1 : Int) ≠ 0)) (by decide)
  have hB := (lv_reactivate_order env_row_rejected lv_home [] (by decide) (by decide)
    (by decide)).2 0 (by decide) (fun j hj => absurd hj (by omega)) (by decide) (by decide)
  refine ⟨?_, hA.2.1, ?_, hB.2⟩
  · rw [hA.1]
    decide
  · rw [hB.1]

end Lvm
